import Mathlib

/-!
# Identity service of the cothority: voting state machine and block verifier

A shallow embedding of `identity/service.go`, followed by `GetMaster` of
`evoting/lib/master.go` and the colour part of `Lvl` of `lib/dbg/debug_lvl.go`.  Go maps are association lists,
pointer mutation of a `*Storage` held in the identity map is an in-place
replacement of the entry, a Go `[]byte` that the code compares with `nil` is an
`Option (List Nat)`, and a run-time panic is an explicit result.  The
collaborators that live outside the file (Schnorr verification, `Data.Hash`,
the skipchain client and the propagation layer) are the fields of `Env`.
-/

namespace Identity

/-! ## Go values -/

/-- Go byte slice: `none` is the nil slice. -/
abbrev Bytes := Option (List Nat)

/-- The bytes held by a slice; the nil slice holds none. -/
def Bytes.val : Bytes → List Nat
  | none => []
  | some l => l

/-- Go `bytes.Equal` as used by `SkipBlockID.Equal`: nil and empty are equal. -/
def Bytes.Equal (a b : Bytes) : Bool := decide (a.val = b.val)

/-- Go map as an association list; a well-formed map has no duplicate key. -/
abbrev GoMap (K V : Type) := List (K × V)

/-- Go `m[key]` with the comma-ok form: the value bound to `key`, if any. -/
def mapGet {K V : Type} [DecidableEq K] : GoMap K V → K → Option V
  | [], _ => none
  | (k, v) :: m, key => if k = key then some v else mapGet m key

/-- Go `m[key] = val`: overwrite the binding of `key` or add one. -/
def mapSet {K V : Type} [DecidableEq K] : GoMap K V → K → V → GoMap K V
  | [], key, val => [(key, val)]
  | (k, v) :: m, key, val =>
    if k = key then (k, val) :: m else (k, v) :: mapSet m key val

/-- Go `len(m)`. -/
def mapLen {K V : Type} (m : GoMap K V) : Nat := m.length

/-- The keys of a map, in list order. -/
def mapKeys {K V : Type} (m : GoMap K V) : List K := m.map Prod.fst

/-- Well-formedness of a map value: every key is bound once. -/
def mapWF {K V : Type} (m : GoMap K V) : Prop := (mapKeys m).Nodup

instance {K V : Type} [DecidableEq K] (m : GoMap K V) : Decidable (mapWF m) := by
  unfold mapWF; infer_instance

/-! ## Data model -/

/-- A `kyber.Point`, kept abstract. -/
abbrev Point := Nat

/-- An `onet.Roster`, kept abstract. -/
abbrev Roster := List Nat

/-- Modelled from the spec: the `Device` record of the identity package, whose
declaration is not part of the sources at hand; it carries the public point of
a device. -/
structure Device where
  Point : Point
deriving DecidableEq, Repr

/-- Modelled from the spec: the `Data` configuration record, whose declaration
is not part of the sources at hand.  `Threshold` is a Go `int`; `Device` maps a
device name to its (non-nil) device; `Votes` maps a device name to a signature;
a nil `Votes` map and an empty one are both the empty list. -/
structure Data where
  Threshold : Int
  Device : GoMap String Device
  Storage : GoMap String String
  Roster : Option Roster
  Votes : GoMap String Bytes
deriving DecidableEq, Repr

/-- What `network.Unmarshal` makes of the payload of a skipblock: an error, a
message of another type, or a `*Data`. -/
inductive Payload where
  | undecodable
  | other
  | data (d : Data)
deriving DecidableEq, Repr

/-- The fields of `skipchain.SkipBlock` that the service reads.  `Data` holds
the payload as seen through `network.Unmarshal`. -/
structure SkipBlock where
  Index : Int
  Data : Payload
  BackLinkIDs : List Bytes
  Roster : Roster
  Hash : Bytes
deriving DecidableEq, Repr

/-- One identity with its skipblocks (`Storage` in the source).  The pointers
`Latest`, `SCRoot` and `SCData` are not nil in a stored identity:
`setIdentityStorage` reads `is.Latest.Device` and `CreateIdentity` fills both
blocks.  The one assignment of a nil `Latest`, by the failed type assertion of
`DataUpdate`, is recorded by the outcome of `DataUpdate`. -/
structure Storage where
  Latest : Data
  Proposed : Option Data
  SCRoot : SkipBlock
  SCData : SkipBlock
deriving DecidableEq, Repr

/-- The identity map of `StorageMap`; its key is `string(id)`. -/
structure Service where
  Identities : GoMap (List Nat) Storage
deriving DecidableEq, Repr

/-- Error codes of the identity service, and `Foreign` for a client error that
the skipchain client hands back. -/
inductive ClientError where
  | ErrorWrongPIN
  | ErrorAuthentication
  | ErrorInvalidSignature
  | ErrorBlockMissing
  | ErrorDataMissing
  | ErrorAccountMissing
  | ErrorVoteSignature
  | ErrorOnet
  | Foreign (code : Int)
deriving DecidableEq, Repr

/-! ## Messages -/

/-- Message `ProposeSend`. -/
structure ProposeSend where
  ID : Bytes
  Propose : Option Data
deriving DecidableEq, Repr

/-- Message `ProposeVote`. -/
structure ProposeVote where
  ID : Bytes
  Signer : String
  Signature : Bytes
deriving DecidableEq, Repr

/-- Message `UpdateSkipBlock`. -/
structure UpdateSkipBlock where
  ID : Bytes
  Latest : SkipBlock
deriving DecidableEq, Repr

/-- A `network.Message` by its run-time type. -/
inductive Message where
  | proposeSend (p : ProposeSend)
  | proposeVote (v : ProposeVote)
  | updateSkipBlock (u : UpdateSkipBlock)
  | unidentified
deriving DecidableEq, Repr

/-! ## Collaborators -/

/-- The collaborators of the service.
* `Verify pub msg sig` holds when `schnorr.Verify` returns no error.
* `Hash d` is `d.Hash(suite)`, `none` when it returns an error.
* `GetSingleBlock` and `StoreSkipBlockSignature` are the skipchain client.
* `PropagateOK msg` holds when the propagation of `msg` returns no error; the
  handler has then run on this node. -/
structure Env where
  Verify : Point → List Nat → Bytes → Bool
  Hash : Data → Option (List Nat)
  GetSingleBlock : Roster → Bytes → Except ClientError (Option SkipBlock)
  StoreSkipBlockSignature : SkipBlock → Option Roster → Data → Except ClientError SkipBlock
  PropagateOK : Message → Bool

/-! ## Identity store -/

/-- Source `getIdentityStorage`: the identity stored under `string(id)`. -/
def getIdentityStorage (s : Service) (id : Bytes) : Option Storage :=
  mapGet s.Identities id.val

/-- Writing through the `*Storage` pointer obtained for `id`: the entry of the
identity map is replaced in place. -/
def writeStorage (s : Service) (id : Bytes) (sid : Storage) : Service :=
  { Identities := mapSet s.Identities id.val sid }

/-! ## Block verifier -/

/-- The loop of `VerifyBlock` over `s.Identities`: the data block of the last
identity (in iteration order) whose `SCData.Hash` equals the back-link. -/
def findLatest : GoMap (List Nat) Storage → Bytes → Option SkipBlock
  | [], _ => none
  | (_, id) :: rest, link =>
    match findLatest rest link with
    | some b => some b
    | none => if id.SCData.Hash.Equal link then some id.SCData else none

/-- The body of the counting loop of `VerifyBlock`: one more for a vote of a
device of `dataLatest` whose signature verifies over `hash`. -/
def countStep (E : Env) (dataLatest : Data) (hash : List Nat) (sigCnt : Nat)
    (vote : String × Bytes) : Nat :=
  match mapGet dataLatest.Device vote.1 with
  | some pub => if E.Verify pub.Point hash vote.2 then sigCnt + 1 else sigCnt
  | none => sigCnt

/-- The counting loop of `VerifyBlock` over `data.Votes`, from `sigCnt := 0`. -/
def countSignatures (E : Env) (dataLatest : Data) (hash : List Nat)
    (votes : GoMap String Bytes) : Nat :=
  votes.foldl (countStep E dataLatest hash) 0

/-- The block that `VerifyBlock` takes as the predecessor: the local one, else
the one fetched from the roster. -/
def latestBlock (E : Env) (s : Service) (sb : SkipBlock) (link : Bytes) :
    Except ClientError (Option SkipBlock) :=
  match findLatest s.Identities link with
  | some latest => .ok (some latest)
  | none => E.GetSingleBlock sb.Roster link

/-- Source `VerifyBlock`.  `none` is the panic of the unchecked type assertion
on the payload of the predecessor. -/
def VerifyBlock (E : Env) (s : Service) (sb : SkipBlock) : Option Bool :=
  if sb.Index = 0 then some true
  else
    match sb.Data with
    | .undecodable => some false
    | .other => some false
    | .data data =>
      match E.Hash data with
      | none => some false
      | some hash =>
        match sb.BackLinkIDs with
        | [] => some false
        | link :: _ =>
          match latestBlock E s sb link with
          | .error _ => some false
          | .ok none => some false
          | .ok (some latest) =>
            match latest.Data with
            | .undecodable => some false
            | .other => none
            | .data dataLatest =>
              let sigCnt := countSignatures E dataLatest hash data.Votes
              if (sigCnt : Int) ≥ dataLatest.Threshold ∨ sigCnt = mapLen dataLatest.Device then
                some true
              else some false

/-! ## Propagation handlers -/

/-- The `*ProposeVote` case of `propagateDataHandler` on the identity found
for the message.  `none` is the panic of `sid.Proposed.Hash` on a nil
proposal; a handler that logs and returns leaves the identity as it is. -/
def applyVote (E : Env) (sid : Storage) (v : ProposeVote) : Option Storage :=
  match mapGet sid.Latest.Device v.Signer with
  | none => some sid
  | some d =>
    match sid.Proposed with
    | none => none
    | some proposed =>
      match E.Hash proposed with
      | none => some sid
      | some hash =>
        if E.Verify d.Point hash v.Signature then
          some { sid with
            Proposed := some { proposed with
              Votes := mapSet proposed.Votes v.Signer v.Signature } }
        else some sid

/-- Source `propagateDataHandler`.  A message of another type, a nil id and an
unknown identity leave the service as it is; `none` is a panic. -/
def propagateDataHandler (E : Env) (s : Service) (msg : Message) : Option Service :=
  match msg with
  | .proposeSend p =>
    match p.ID with
    | none => some s
    | some _ =>
      match getIdentityStorage s p.ID with
      | none => some s
      | some sid => some (writeStorage s p.ID { sid with Proposed := p.Propose })
  | .proposeVote v =>
    match v.ID with
    | none => some s
    | some _ =>
      match getIdentityStorage s v.ID with
      | none => some s
      | some sid =>
        match applyVote E sid v with
        | none => none
        | some sid1 => some (writeStorage s v.ID sid1)
  | _ => some s

/-- Source `propagateSkipBlockHandler`. -/
def propagateSkipBlockHandler (s : Service) (msg : Message) : Service :=
  match msg with
  | .updateSkipBlock usb =>
    match getIdentityStorage s usb.ID with
    | none => s
    | some sid =>
      match usb.Latest.Data with
      | .undecodable => s
      | .other => s
      | .data al =>
        writeStorage s usb.ID
          { sid with SCData := usb.Latest, Latest := al, Proposed := none }
  | _ => s

/-- Delivery of a list of messages to `propagateDataHandler`, one after the
other. -/
def deliverAll (E : Env) : Service → List Message → Option Service
  | s, [] => some s
  | s, msg :: rest =>
    match propagateDataHandler E s msg with
    | none => none
    | some s1 => deliverAll E s1 rest

/-! ## ProposeVote -/

/-- A request that the service hands to the skipchain client through
`StoreSkipBlockSignature`. -/
structure StoreRequest where
  latest : SkipBlock
  roster : Option Roster
  data : Data
deriving DecidableEq, Repr

/-- How a request handler ends: a reply (nil or a message), a client error, or
a panic. -/
inductive Reply (α : Type) where
  | ok (msg : Option α)
  | error (cerr : ClientError)
  | crash
deriving DecidableEq, Repr

/-- What a run of `ProposeVote` leaves behind: the service state, the reply
(the block of a `ProposeVoteReply`), the messages handed to the propagation
functions and the requests made to the skipchain, both in order. -/
structure VoteOutcome where
  service : Service
  reply : Reply SkipBlock
  propagated : List Message
  stored : List StoreRequest
deriving DecidableEq, Repr

/-- The locked closure at the start of `ProposeVote`: the error it returns, if
any.  The check of an old vote only logs. -/
def checkVote (E : Env) (sid : Storage) (v : ProposeVote) : Option ClientError :=
  match mapGet sid.Latest.Device v.Signer with
  | none => some .ErrorAccountMissing
  | some owner =>
    match sid.Proposed with
    | none => some .ErrorDataMissing
    | some proposed =>
      match E.Hash proposed with
      | none => some .ErrorOnet
      | some hash =>
        match v.Signature with
        | none => none
        | some _ =>
          if E.Verify owner.Point hash v.Signature then none
          else some .ErrorVoteSignature

/-- The commit condition of `ProposeVote` on the identity as it is after the
propagation of the vote. -/
def commitCondition (latest proposed : Data) : Prop :=
  (mapLen proposed.Votes : Int) ≥ latest.Threshold ∨
    mapLen proposed.Votes = mapLen latest.Device

instance (latest proposed : Data) : Decidable (commitCondition latest proposed) := by
  unfold commitCondition; infer_instance

/-- The commit branch of `ProposeVote`: store the proposed data as a new
skipblock and propagate it.  The error path of the propagation calls
`cerr.Error()` on a nil error and panics, as does the type assertion of the
log line on a block whose payload is no `*Data`. -/
def commitProposal (E : Env) (s1 : Service) (sid1 : Storage) (proposed : Data)
    (v : ProposeVote) : VoteOutcome :=
  let request : StoreRequest := ⟨sid1.SCData, proposed.Roster, proposed⟩
  match E.StoreSkipBlockSignature sid1.SCData proposed.Roster proposed with
  | .error cerr => ⟨s1, .error cerr, [.proposeVote v], [request]⟩
  | .ok latest =>
    match latest.Data with
    | .data _ =>
      let usb : UpdateSkipBlock := ⟨v.ID, latest⟩
      if E.PropagateOK (.updateSkipBlock usb) then
        let s2 := propagateSkipBlockHandler s1 (.updateSkipBlock usb)
        match getIdentityStorage s2 v.ID with
        | none => ⟨s2, .crash, [.proposeVote v, .updateSkipBlock usb], [request]⟩
        | some sid2 =>
          ⟨s2, .ok (some sid2.SCData), [.proposeVote v, .updateSkipBlock usb], [request]⟩
      else ⟨s1, .crash, [.proposeVote v, .updateSkipBlock usb], [request]⟩
    | _ => ⟨s1, .crash, [.proposeVote v], [request]⟩

/-- Source `ProposeVote` (a method of `Service`), as run by the leader.  After a propagation without
error the handler has run on this node; a propagation error makes the code call
`cerr.Error()` on a nil error, which panics. -/
def Service.ProposeVote (E : Env) (s : Service) (v : Identity.ProposeVote) : VoteOutcome :=
  match getIdentityStorage s v.ID with
  | none => ⟨s, .error .ErrorBlockMissing, [], []⟩
  | some sid =>
    match checkVote E sid v with
    | some cerr => ⟨s, .error cerr, [], []⟩
    | none =>
      if E.PropagateOK (.proposeVote v) then
        match propagateDataHandler E s (.proposeVote v) with
        | none => ⟨s, .crash, [.proposeVote v], []⟩
        | some s1 =>
          match getIdentityStorage s1 v.ID with
          | none => ⟨s1, .crash, [.proposeVote v], []⟩
          | some sid1 =>
            match sid1.Proposed with
            | none => ⟨s1, .crash, [.proposeVote v], []⟩
            | some proposed =>
              if commitCondition sid1.Latest proposed then
                commitProposal E s1 sid1 proposed v
              else ⟨s1, .ok none, [.proposeVote v], []⟩
      else ⟨s, .crash, [.proposeVote v], []⟩

/-! ## Vocabulary of the properties -/

/-- A vote counts for a block when its device is a device of `prevData` and its
signature verifies under the point of that device over `hash`. -/
def validVote (E : Env) (prevData : Data) (hash : List Nat) (vote : String × Bytes) : Bool :=
  match mapGet prevData.Device vote.1 with
  | some pub => E.Verify pub.Point hash vote.2
  | none => false

/-- The number of votes that count. -/
def validCount (E : Env) (prevData : Data) (hash : List Nat)
    (votes : GoMap String Bytes) : Nat :=
  votes.countP (validVote E prevData hash)

/-- The number of device names among the votes that are device names of
`prevData`. -/
def knownVoters (prevData : Data) (votes : GoMap String Bytes) : Nat :=
  (mapKeys votes).countP (fun dev => (mapGet prevData.Device dev).isSome)

/-- The hash of a data record does not depend on its votes. -/
def HashIgnoresVotes (E : Env) : Prop :=
  ∀ (d : Data) (votes : GoMap String Bytes), E.Hash { d with Votes := votes } = E.Hash d

/-! ## A concrete instance, for evaluation -/

/-- A small instance of the collaborators: a signature of `msg` under the point
`pub` is the list `pub :: msg`, the hash of a record lists its threshold and
the sizes of its device and storage maps, storing a block appends it to the
chain, and nothing is fetched from the roster. -/
def toyEnv : Env where
  Verify := fun pub msg sig => decide (sig = some (pub :: msg))
  Hash := fun d => some [d.Threshold.toNat, mapLen d.Device, mapLen d.Storage]
  GetSingleBlock := fun _ _ => .ok none
  StoreSkipBlockSignature := fun prev roster data =>
    .ok ⟨prev.Index + 1, .data data, [prev.Hash], roster.getD prev.Roster,
      some (0 :: prev.Hash.val)⟩
  PropagateOK := fun _ => true

/-- Three devices. -/
def toyDevices : GoMap String Device := [("d1", ⟨7⟩), ("d2", ⟨8⟩), ("d3", ⟨9⟩)]

/-- Accepted data: three devices, threshold 2. -/
def toyLatest : Data := ⟨2, toyDevices, [], none, []⟩

/-- Proposed data: the storage gains one key; its hash is `[2, 3, 1]`. -/
def toyProposed : Data := ⟨2, toyDevices, [("foo", "bar")], none, []⟩

/-- The root block of the toy identity. -/
def toyRoot : SkipBlock := ⟨0, .other, [], [1, 2, 3], some [9, 9, 9, 9, 9, 9, 9, 9]⟩

/-- The data genesis block of the toy identity. -/
def toyGenesis : SkipBlock :=
  ⟨0, .data toyLatest, [], [1, 2, 3], some [1, 2, 3, 4, 5, 6, 7, 8]⟩

/-- The id of the toy identity: the hash of its data genesis block. -/
def toyID : Bytes := some [1, 2, 3, 4, 5, 6, 7, 8]

/-- The toy identity with a pending proposal that carries `votes`. -/
def toyStorage (votes : GoMap String Bytes) : Storage :=
  ⟨toyLatest, some { toyProposed with Votes := votes }, toyRoot, toyGenesis⟩

/-- A service that holds the toy identity. -/
def toyService (votes : GoMap String Bytes) : Service :=
  ⟨[([1, 2, 3, 4, 5, 6, 7, 8], toyStorage votes)]⟩

/-- The signature of device point `pub` on the toy proposal. -/
def toySig (pub : Nat) : Bytes := some [pub, 2, 3, 1]

/-- A block that follows the toy genesis block and carries `votes`. -/
def toyBlock (votes : GoMap String Bytes) : SkipBlock :=
  ⟨1, .data { toyProposed with Votes := votes }, [some [1, 2, 3, 4, 5, 6, 7, 8]], [1, 2, 3],
    some [0, 1, 2, 3, 4, 5, 6, 7, 8]⟩

/-- The votes recorded for a proposal are sound: no device votes twice, and
every vote is of a device of `latest` with a signature that verifies under the
point of that device over the hash of the proposal. -/
def VotesRecorded (E : Env) (latest proposed : Data) (votes : GoMap String Bytes) : Prop :=
  mapWF votes ∧
    ∀ vote ∈ votes, ∃ d h, mapGet latest.Device vote.1 = some d ∧
      E.Hash proposed = some h ∧ E.Verify d.Point h vote.2 = true

/-- The identity `id` of the service has `latest` as accepted data and is
voting on `proposed`, with sound recorded votes. -/
def VotingOn (E : Env) (s : Service) (id : Bytes) (latest proposed : Data) : Prop :=
  ∃ sid votes, getIdentityStorage s id = some sid ∧ sid.Latest = latest ∧
    sid.Proposed = some { proposed with Votes := votes } ∧
    VotesRecorded E latest proposed votes

/-- Accepted data that requires all three devices: threshold 3. -/
def toyStrictLatest : Data := ⟨3, toyDevices, [], none, []⟩

/-- A service whose identity requires all devices and is voting on the toy
proposal with `votes`. -/
def toyStrictService (votes : GoMap String Bytes) : Service :=
  ⟨[([1, 2, 3, 4, 5, 6, 7, 8],
    ⟨toyStrictLatest, some { toyProposed with Votes := votes }, toyRoot, toyGenesis⟩)]⟩

/-! ## Authentication registry and identity creation -/

/-- Go `delete(m, key)`. -/
def mapDelete {K V : Type} [DecidableEq K] (m : GoMap K V) (key : K) : GoMap K V :=
  m.filter (fun e => decide (e.1 ≠ key))

/-- Constant `defaultNumberSkipchains`. -/
def defaultNumberSkipchains : Int := 5

/-- Go `n--` on an `int8`: the difference wraps to the range from -128 to 127. -/
def int8Dec (n : Int) : Int := (n - 1 + 128) % 256 - 128

/-- Go `limits[key]--` on a `map[string]int8`; a missing key reads as 0. -/
def decrement (limits : GoMap String Int) (key : String) : GoMap String Int :=
  mapSet limits key (int8Dec ((mapGet limits key).getD 0))

/-- The type `AuthType` of a request: the two known values and any other. -/
inductive AuthType where
  | PoPAuth
  | PublicAuth
  | unknown (code : Int)
deriving DecidableEq, Repr

/-- The fields of a final statement that the service reads: the attendees, and
the rest of the statement kept abstract. -/
structure FinalStatement where
  Attendees : List Point
  Desc : List Nat
deriving DecidableEq, Repr

/-- Source `authData`.  The sets of pins and nonces are Go maps to the empty
struct; a nonce is stored under `string(nonce)`. -/
structure authData where
  pins : GoMap String Unit
  sets : List (List Point)
  keys : List Point
  adminKeys : List Point
  nonces : GoMap (List Nat) Unit
deriving DecidableEq, Repr

/-- The Go struct `Service`: the embedded `StorageMap` (the structure `Service`
above), the two quota maps of `int8` counters and the authentication data. -/
structure ServiceState where
  StorageMap : Service
  tagsLimits : GoMap String Int
  pointsLimits : GoMap String Int
  auth : authData
deriving DecidableEq, Repr

/-- Message `PinRequest`. -/
structure PinRequest where
  PIN : String
  Public : Point
deriving DecidableEq, Repr

/-- Message `StoreKeys` (`Type_` is its field `Type`).  `Final` is a pointer; a
nil list of keys and an empty
one are both the empty list. -/
structure StoreKeys where
  Type_ : AuthType
  Final : Option FinalStatement
  Publics : List Point
  Sig : Bytes
deriving DecidableEq, Repr

/-- Message `CreateIdentity` (`Type_` is its field `Type`).  `Data` and `SchnSig`
are pointers. -/
structure CreateIdentity where
  Data : Option Data
  Roster : Roster
  Type_ : AuthType
  SchnSig : Option Bytes
  Sig : Bytes
  Nonce : Bytes
deriving DecidableEq, Repr

/-- Message `PropagateIdentity`: the fields of the embedded `*Storage`, of which
`Latest` may be nil, the tag and the string of the public key. -/
structure PropagateIdentity where
  Latest : Option Data
  Proposed : Option Data
  SCRoot : SkipBlock
  SCData : SkipBlock
  Tag : String
  PubStr : String
deriving DecidableEq, Repr

/-- Message `DataUpdate`. -/
structure DataUpdate where
  ID : Bytes
deriving DecidableEq, Repr

/-- The collaborators of the whole service: those of `Env` and
* `Context`, the bytes of `ServiceName + s.ServerIdentity().String()`;
* `AnonVerify nonce set ctx sig`, the tag `string(t)` that `anon.Verify`
  returns, `none` when it returns an error;
* `PointString`, the method `String` of a point;
* `CreateGenesisSignature roster verified data parent`, the skipchain client
  call, where `verified` tells whether the verifiers are
  `VerificationIdentity` or none;
* `PropagateIdentityOK msg`, which holds when the propagation of `msg`
  returns no error; the handler has then run on this node;
* `GetUpdateChain`, the skipchain client call;
* `FinalVerify` (no error from `Final.Verify()`), `FinalHash`
  (`Final.Hash()`, `none` on error), `MarshalBinary` of a point (`none` on
  error) and `HashSum`, the sum of the suite hash over the chunks written. -/
structure FullEnv extends Env where
  Context : List Nat
  AnonVerify : List Nat → List Point → List Nat → Bytes → Option String
  PointString : Point → String
  CreateGenesisSignature : Roster → Bool → Option Data → Bytes → Except ClientError SkipBlock
  PropagateIdentityOK : PropagateIdentity → Bool
  GetUpdateChain : Roster → Bytes → Except ClientError (List SkipBlock)
  FinalVerify : FinalStatement → Bool
  FinalHash : FinalStatement → Option (List Nat)
  MarshalBinary : Point → Option (List Nat)
  HashSum : List (List Nat) → List Nat

/-- Go `fmt.Sprintf("%06d", n)` for a natural number. -/
def formatPIN (n : Nat) : String :=
  String.mk (List.replicate (6 - (Nat.toDigits 10 n).length) '0' ++ Nat.toDigits 10 n)

/-- Source `PinRequest`.  `rnd` is the number drawn by `random.Int` when the
request carries no PIN.  The reply is nil or an error. -/
def ServiceState.PinRequest (st : ServiceState) (req : Identity.PinRequest) (rnd : Nat) :
    ServiceState × Reply Unit :=
  if req.PIN = "" then
    ({ st with auth := { st.auth with pins := mapSet st.auth.pins (formatPIN rnd) () } },
      .error .ErrorWrongPIN)
  else
    match mapGet st.auth.pins req.PIN with
    | none => (st, .error .ErrorWrongPIN)
    | some _ =>
      ({ st with auth := { st.auth with
          adminKeys := st.auth.adminKeys ++ [req.Public],
          keys := st.auth.keys ++ [req.Public] } },
        .ok none)

/-- The loop of `StoreKeys` that marshals the public keys: the chunks written
to the hash, `none` when `MarshalBinary` fails for a key. -/
def marshalPublics (F : FullEnv) : List Point → Option (List (List Nat))
  | [] => some []
  | k :: rest =>
    match F.MarshalBinary k with
    | none => none
    | some b =>
      match marshalPublics F rest with
      | none => none
      | some chunks => some (b :: chunks)

/-- The first switch of `StoreKeys`: the message that the signature is checked
against, or the error returned.  `Foreign 0` stands for `NewClientError(err)`,
a client error without a code of the service. -/
def canonicalMessage (F : FullEnv) (req : StoreKeys) : Except ClientError (List Nat) :=
  match req.Type_ with
  | .PoPAuth =>
    match req.Final with
    | none => .error .ErrorAuthentication
    | some final =>
      if F.FinalVerify final then
        match F.FinalHash final with
        | none => .error (.Foreign 0)
        | some msg => .ok msg
      else .error .ErrorInvalidSignature
  | .PublicAuth =>
    if req.Publics = [] then .error .ErrorAuthentication
    else
      match marshalPublics F req.Publics with
      | none => .error (.Foreign 0)
      | some chunks => .ok (F.HashSum chunks)
  | .unknown _ => .error .ErrorAuthentication

/-- The second switch of `StoreKeys`: the registry with the payload of the
request appended. -/
def admitKeys (auth : authData) (req : StoreKeys) : authData :=
  match req.Type_ with
  | .PoPAuth =>
    match req.Final with
    | some final => { auth with sets := auth.sets ++ [final.Attendees] }
    | none => auth
  | .PublicAuth => { auth with keys := auth.keys ++ req.Publics }
  | .unknown _ => auth

/-- Source `StoreKeys`. -/
def ServiceState.StoreKeys (F : FullEnv) (st : ServiceState) (req : Identity.StoreKeys) :
    ServiceState × Reply Unit :=
  match canonicalMessage F req with
  | .error cerr => (st, .error cerr)
  | .ok msg =>
    if st.auth.adminKeys.any (fun key => F.Verify key msg req.Sig) then
      ({ st with auth := admitKeys st.auth req }, .ok none)
    else (st, .error .ErrorInvalidSignature)

/-- Source `Authenticate`: `nonce` holds the 64 bytes drawn from the random
stream; it is added to the set of nonces and sent back with the context. -/
def ServiceState.Authenticate (F : FullEnv) (st : ServiceState) (nonce : List Nat) :
    ServiceState × (List Nat × List Nat) :=
  ({ st with auth := { st.auth with nonces := mapSet st.auth.nonces nonce () } },
    (nonce, F.Context))

/-- Source `setIdentityStorage`.  `none` is the panic of the log line, which
slices `id[0:8]`: an id of fewer than 8 bytes (its capacity taken to be its
length) cannot be stored. -/
def setIdentityStorage (s : Service) (id : Bytes) (is : Storage) : Option Service :=
  if id.val.length < 8 then none else some (writeStorage s id is)

/-- The quota step of `propagateIdentityHandler` on one of the two maps: a
counter that exists and is not positive ends the handler (`none`); a missing
counter is set to the default; then the counter is decremented. -/
def lowerQuota (limits : GoMap String Int) (key : String) : Option (GoMap String Int) :=
  match mapGet limits key with
  | some n => if n ≤ 0 then none else some (decrement limits key)
  | none => some (decrement (mapSet limits key defaultNumberSkipchains) key)

/-- The result of the quota steps of `propagateIdentityHandler`: the state with
the counter of the tag lowered, else that of the public key; `none` when the
handler ends there. -/
def chargeQuota (st : ServiceState) (pi : PropagateIdentity) : Option ServiceState :=
  if pi.Tag ≠ "" then
    match lowerQuota st.tagsLimits pi.Tag with
    | none => none
    | some limits => some { st with tagsLimits := limits }
  else if pi.PubStr ≠ "" then
    match lowerQuota st.pointsLimits pi.PubStr with
    | none => none
    | some limits => some { st with pointsLimits := limits }
  else some st

/-- Source `propagateIdentityHandler`.  `none` is a panic of
`setIdentityStorage`, on a short id or on a nil `Latest`. -/
def propagateIdentityHandler (st : ServiceState) (pi : PropagateIdentity) :
    Option ServiceState :=
  match chargeQuota st pi with
  | none => some st
  | some st1 =>
    match getIdentityStorage st1.StorageMap pi.SCData.Hash with
    | some _ => some st1
    | none =>
      match pi.Latest with
      | none => none
      | some latest =>
        match setIdentityStorage st1.StorageMap pi.SCData.Hash
            ⟨latest, pi.Proposed, pi.SCRoot, pi.SCData⟩ with
        | none => none
        | some identities => some { st1 with StorageMap := identities }

/-- The loop of `CreateIdentity` over the attendee sets: the tag of the first
set under which the ring signature verifies. -/
def popTag (F : FullEnv) (ai : CreateIdentity) : List (List Point) → Option String
  | [] => none
  | set :: rest =>
    match F.AnonVerify ai.Nonce.val set F.Context ai.Sig with
    | some t => some t
    | none => popTag F ai rest

/-- The loop of `CreateIdentity` over the stored keys: the first key under
which the Schnorr signature on the nonce verifies. -/
def publicKey (F : FullEnv) (ai : CreateIdentity) (sig : Bytes) : List Point → Option Point
  | [] => none
  | k :: rest => if F.Verify k ai.Nonce.val sig then some k else publicKey F ai sig rest

/-- How the authentication part of `CreateIdentity` ends: with an error reply
(and the state at that point), with a panic, or with the tag and the string of
the public key of the authenticated request. -/
inductive AuthPhase where
  | refused (st : ServiceState) (cerr : ClientError)
  | crashed
  | passed (st : ServiceState) (tag pubStr : String)

/-- The nonce of a request taken out of the set of nonces. -/
def dropNonce (st : ServiceState) (ai : CreateIdentity) : ServiceState :=
  { st with auth := { st.auth with nonces := mapDelete st.auth.nonces ai.Nonce.val } }

/-- The case `PoPAuth` of `CreateIdentity`. -/
def popAuth (F : FullEnv) (st : ServiceState) (ai : CreateIdentity) : AuthPhase :=
  match popTag F ai st.auth.sets with
  | none => .refused st .ErrorAuthentication
  | some tag =>
    match mapGet st.tagsLimits tag with
    | none =>
      .passed (dropNonce { st with
        tagsLimits := mapSet st.tagsLimits tag defaultNumberSkipchains } ai) tag ""
    | some n =>
      if n ≤ 0 then .refused st .ErrorAuthentication
      else .passed (dropNonce st ai) tag ""

/-- The quota check of the case `PublicAuth`, which runs whether a key has
verified the signature (`valid`) or not, with `pubStr` empty in that case. -/
def publicQuota (st : ServiceState) (valid : Bool) (pubStr : String) : AuthPhase :=
  match mapGet st.pointsLimits pubStr with
  | none =>
    let st1 : ServiceState :=
      { st with pointsLimits := mapSet st.pointsLimits pubStr defaultNumberSkipchains }
    if valid then .passed st1 "" pubStr else .refused st1 .ErrorAuthentication
  | some n =>
    if n ≤ 0 then .refused st .ErrorAuthentication
    else if valid then .passed st "" pubStr else .refused st .ErrorAuthentication

/-- The case `PublicAuth` of `CreateIdentity`.  With a stored key to try, a nil
`SchnSig` is dereferenced and the handler panics. -/
def publicAuth (F : FullEnv) (st : ServiceState) (ai : CreateIdentity) : AuthPhase :=
  match st.auth.keys, ai.SchnSig with
  | [], _ => publicQuota st false ""
  | _ :: _, none => .crashed
  | keys, some sig =>
    match publicKey F ai sig keys with
    | some k => publicQuota st true (F.PointString k)
    | none => publicQuota st false ""

/-- The authentication part of `CreateIdentity`, up to the check of `valid`. -/
def authenticate (F : FullEnv) (st : ServiceState) (ai : CreateIdentity) : AuthPhase :=
  match mapGet st.auth.nonces ai.Nonce.val with
  | none => .refused st .ErrorAuthentication
  | some _ =>
    match ai.Type_ with
    | .PoPAuth => popAuth F st ai
    | .PublicAuth => publicAuth F st ai
    | .unknown _ => .refused st .ErrorAuthentication

/-- What a run of `CreateIdentity` leaves behind: the state and the reply, the
root block and the data block of a `CreateIdentityReply`. -/
structure CreateOutcome where
  state : ServiceState
  reply : Reply (SkipBlock × SkipBlock)
deriving DecidableEq, Repr

/-- The part of `CreateIdentity` after the authentication: the two genesis
blocks and the propagation of the identity.  The key of `verifySkipchainAuth`
is left to the skipchain collaborator.  After a propagation without error the
handler has run on this node. -/
def createChains (F : FullEnv) (st : ServiceState) (ai : CreateIdentity)
    (tag pubStr : String) : CreateOutcome :=
  match F.CreateGenesisSignature ai.Roster false none none with
  | .error cerr => ⟨st, .error cerr⟩
  | .ok root =>
    match F.CreateGenesisSignature root.Roster true ai.Data root.Hash with
    | .error cerr => ⟨st, .error cerr⟩
    | .ok data =>
      let pi : PropagateIdentity := ⟨ai.Data, none, root, data, tag, pubStr⟩
      if F.PropagateIdentityOK pi then
        match propagateIdentityHandler st pi with
        | none => ⟨st, .crash⟩
        | some st1 => ⟨st1, .ok (some (root, data))⟩
      else ⟨st, .error .ErrorOnet⟩

/-- Source `CreateIdentity`. -/
def ServiceState.CreateIdentity (F : FullEnv) (st : ServiceState)
    (ai : Identity.CreateIdentity) : CreateOutcome :=
  match authenticate F st ai with
  | .refused st1 cerr => ⟨st1, .error cerr⟩
  | .crashed => ⟨st, .crash⟩
  | .passed st1 tag pubStr => createChains F st1 ai tag pubStr

/-- A run of `CreateIdentity` on each request of a list, in order: the final
state and the replies. -/
def createAll (F : FullEnv) :
    ServiceState → List CreateIdentity → ServiceState × List (Reply (SkipBlock × SkipBlock))
  | st, [] => (st, [])
  | st, ai :: rest =>
    let out := ServiceState.CreateIdentity F st ai
    let run := createAll F out.state rest
    (run.1, out.reply :: run.2)

/-! ## DataUpdate -/

/-- What a run of `DataUpdate` leaves behind: the identity map, the reply (the
data of a `DataUpdateReply`) and `latestNil`, which tells that the failed type
assertion has set the `Latest` of the identity to nil; `service` then still
shows the former `Latest` in its place. -/
structure UpdateOutcome where
  service : Service
  reply : Reply Data
  latestNil : Bool
deriving DecidableEq, Repr

/-- Source `DataUpdate`.  The data block of the identity is replaced by the
last block of a chain of more than one block before the payload of that block
is decoded. -/
def Service.DataUpdate (F : FullEnv) (s : Service) (cu : Identity.DataUpdate) :
    UpdateOutcome :=
  match getIdentityStorage s cu.ID with
  | none => ⟨s, .error .ErrorBlockMissing, false⟩
  | some sid =>
    match F.GetUpdateChain sid.SCRoot.Roster sid.SCData.Hash with
    | .error cerr => ⟨s, .error cerr, false⟩
    | .ok update =>
      if update.length > 1 then
        match update.getLast? with
        | none => ⟨s, .crash, false⟩
        | some last =>
          match last.Data with
          | .undecodable =>
            ⟨writeStorage s cu.ID { sid with SCData := last }, .error .ErrorDataMissing, false⟩
          | .other =>
            ⟨writeStorage s cu.ID { sid with SCData := last }, .error .ErrorDataMissing, true⟩
          | .data al =>
            ⟨writeStorage s cu.ID { sid with SCData := last, Latest := al }, .ok (some al),
              false⟩
      else ⟨s, .ok (some sid.Latest), false⟩

/-! ## A concrete instance of the whole service -/

/-- The name of a credential in the toy instance: `c` followed by as many `x`
as the number tells. -/
def toyName (n : Nat) : String := String.mk ('c' :: List.replicate n 'x')

/-- A small instance of all collaborators, on top of `toyEnv`: a ring
signature of an attendee `p` on a nonce is `p` followed by the nonce and the
context, and its tag is the name of `p`; a genesis block holds the data it is
given and has an id of eight bytes; the update chain of the toy genesis block
has a second block, with the votes of `d1` and `d2`; a final statement is valid
when its description is `[1]`. -/
def toyFullEnv : FullEnv where
  toEnv := toyEnv
  Context := [73]
  AnonVerify := fun nonce set ctx sig =>
    match sig with
    | some (p :: rest) =>
      if p ∈ set ∧ rest = nonce ++ ctx then some (toyName p) else none
    | _ => none
  PointString := toyName
  CreateGenesisSignature := fun roster verified data parent =>
    .ok ⟨0, (match data with
        | some d => .data d
        | none => .other), [], roster,
      some [if verified then 1 else 0, parent.val.length, 3, 4, 5, 6, 7, 8]⟩
  PropagateIdentityOK := fun _ => true
  GetUpdateChain := fun _ hash =>
    if hash.val = [1, 2, 3, 4, 5, 6, 7, 8] then
      .ok [toyGenesis, toyBlock [("d1", toySig 7), ("d2", toySig 8)]]
    else .ok []
  FinalVerify := fun final => decide (final.Desc = [1])
  FinalHash := fun final => some final.Attendees
  MarshalBinary := fun p => some [p]
  HashSum := fun chunks => chunks.flatten

/-- A registry with the pin `123456`, the admin key 4, the stored keys 4 and 5,
one set of the attendees 2 and 3, and the outstanding nonces `[1]` and `[2]`. -/
def toyAuth : authData :=
  ⟨[("123456", ())], [[2, 3]], [4, 5], [4], [([1], ()), ([2], ())]⟩

/-- A service state without identities and without quota counters. -/
def toyState : ServiceState := ⟨⟨[]⟩, [], [], toyAuth⟩

/-- A request to create an identity, authenticated by the attendee 2 with a
ring signature on the nonce `nonce`. -/
def toyPopRequest (nonce : List Nat) : CreateIdentity :=
  ⟨some toyLatest, [1, 2, 3], .PoPAuth, none, some (2 :: nonce ++ [73]), some nonce⟩

/-- A request to create an identity, authenticated by the stored key 5 with a
Schnorr signature on the nonce `nonce`. -/
def toyPublicRequest (nonce : List Nat) : CreateIdentity :=
  ⟨some toyLatest, [1, 2, 3], .PublicAuth, some (some (5 :: nonce)), none, some nonce⟩

/-! ## Vocabulary of the properties of the whole service -/

/-- The credential that a request to create an identity authenticates with,
given the registry: the tag of its ring signature, or the string of the key
that verifies its Schnorr signature. -/
def credential (F : FullEnv) (auth : authData) (ai : CreateIdentity) : Option String :=
  match ai.Type_ with
  | .PoPAuth => popTag F ai auth.sets
  | .PublicAuth =>
    match ai.SchnSig with
    | some sig => (publicKey F ai sig auth.keys).map F.PointString
    | none => none
  | .unknown _ => none

/-- The counter of a credential: in `tagsLimits` for a ring signature, in
`pointsLimits` for a public key. -/
def quota (st : ServiceState) (type : AuthType) (cred : String) : Option Int :=
  match type with
  | .PoPAuth => mapGet st.tagsLimits cred
  | .PublicAuth => mapGet st.pointsLimits cred
  | .unknown _ => none

/-- The votes of the pending proposal of an identity, if any, are all votes of
device names of its `Latest`. -/
def VotesOfDevices (sid : Storage) : Prop :=
  ∀ proposed, sid.Proposed = some proposed →
    ∀ dev ∈ mapKeys proposed.Votes, dev ∈ mapKeys sid.Latest.Device

/-- Every identity of the service has the votes of devices only. -/
def ServiceInv (s : Service) : Prop :=
  ∀ id sid, getIdentityStorage s id = some sid → VotesOfDevices sid

/-- The identity maps that the service reaches from the empty one through
* the propagation of an identity whose proposal, if it has one, carries votes
  of devices of its `Latest` only (`CreateIdentity` sends no proposal),
* the propagation of a proposal that carries votes of devices of `Latest`
  only,
* the propagation of a vote and of a skipblock, and `ProposeVote`,
* `DataUpdate`, unless it ends in the failed type assertion that sets `Latest`
  to nil, and provided that, when it adopts the data of a new block while a
  proposal is pending, every device name in the votes of the proposal is a
  device name of the adopted data. -/
inductive Reachable (F : FullEnv) : Service → Prop where
  | init : Reachable F ⟨[]⟩
  | identity (st st1 : ServiceState) (pi : PropagateIdentity) :
      Reachable F st.StorageMap →
      (∀ latest proposed, pi.Latest = some latest → pi.Proposed = some proposed →
        ∀ dev ∈ mapKeys proposed.Votes, dev ∈ mapKeys latest.Device) →
      propagateIdentityHandler st pi = some st1 → Reachable F st1.StorageMap
  | proposeSend (s s1 : Service) (p : ProposeSend) :
      Reachable F s →
      (∀ sid proposed, getIdentityStorage s p.ID = some sid → p.Propose = some proposed →
        ∀ dev ∈ mapKeys proposed.Votes, dev ∈ mapKeys sid.Latest.Device) →
      propagateDataHandler F.toEnv s (.proposeSend p) = some s1 → Reachable F s1
  | proposeVote (s s1 : Service) (v : ProposeVote) :
      Reachable F s → propagateDataHandler F.toEnv s (.proposeVote v) = some s1 →
      Reachable F s1
  | updateSkipBlock (s : Service) (msg : Message) :
      Reachable F s → Reachable F (propagateSkipBlockHandler s msg)
  | vote (s : Service) (v : ProposeVote) :
      Reachable F s → Reachable F (Service.ProposeVote F.toEnv s v).service
  | dataUpdate (s : Service) (cu : DataUpdate) :
      Reachable F s →
      (Service.DataUpdate F s cu).latestNil = false →
      (∀ sid proposed update last al, getIdentityStorage s cu.ID = some sid →
        sid.Proposed = some proposed →
        F.GetUpdateChain sid.SCRoot.Roster sid.SCData.Hash = .ok update →
        1 < update.length → update.getLast? = some last → last.Data = .data al →
        ∀ dev ∈ mapKeys proposed.Votes, dev ∈ mapKeys al.Device) →
      Reachable F (Service.DataUpdate F s cu).service

/-- Accepted data with the devices `d1` and `d2` only. -/
def toyTwoDevices : Data := ⟨2, [("d1", ⟨7⟩), ("d2", ⟨8⟩)], [], none, []⟩

/-- The toy collaborators, with an update chain whose last block holds
`toyTwoDevices`. -/
def toyShrinkEnv : FullEnv :=
  { toyFullEnv with
    GetUpdateChain := fun _ _ =>
      .ok [toyGenesis,
        ⟨1, .data toyTwoDevices, [toyGenesis.Hash], [1, 2, 3],
          some [0, 1, 2, 3, 4, 5, 6, 7, 8]⟩] }

/-- The identity map after the creation of the toy identity: no proposal. -/
def toyCreated : Service := ⟨[([1, 2, 3, 4, 5, 6, 7, 8], ⟨toyLatest, none, toyRoot, toyGenesis⟩)]⟩

/-- A request to create an identity with a live nonce and a Schnorr signature
that no stored key verifies. -/
def toyBadPublicRequest : CreateIdentity :=
  ⟨some toyLatest, [1, 2, 3], .PublicAuth, some (some [0]), none, some [1]⟩

/-- The credential of a request, as the tag and the key string that the
authentication hands to the propagation. -/
def credPair (type : AuthType) (cred tag pubStr : String) : Prop :=
  (type = .PoPAuth ∧ tag = cred ∧ pubStr = "") ∨
    (type = .PublicAuth ∧ tag = "" ∧ pubStr = cred)

/-! ## Runs of votes, and further concrete instances -/

/-- A run of `ProposeVote` on each request of a list, in order: the final
service and each request with its outcome. -/
def voteAll (E : Env) : Service → List ProposeVote → Service × List (ProposeVote × VoteOutcome)
  | s, [] => (s, [])
  | s, v :: rest =>
    let out := Service.ProposeVote E s v
    let run := voteAll E out.service rest
    (run.1, (v, out) :: run.2)

/-- A block that follows the toy genesis block with the payload `payload`. -/
def toyNextBlock (payload : Payload) : SkipBlock :=
  ⟨1, payload, [toyGenesis.Hash], [1, 2, 3], some [0, 1, 2, 3, 4, 5, 6, 7, 8]⟩

/-- The toy collaborators, with an update chain whose last block has the
payload `payload`. -/
def toyChainEnv (payload : Payload) : FullEnv :=
  { toyFullEnv with GetUpdateChain := fun _ _ => .ok [toyGenesis, toyNextBlock payload] }

/-- Data without a device and with threshold 0. -/
def toyNoDevice : Data := ⟨0, [], [], none, []⟩

/-- A service whose identity has the accepted data `latest` and no proposal. -/
def toyIdentityOf (latest : Data) : Service :=
  ⟨[([1, 2, 3, 4, 5, 6, 7, 8],
    ⟨latest, none, toyRoot, ⟨0, .data latest, [], [1, 2, 3], some [1, 2, 3, 4, 5, 6, 7, 8]⟩⟩)]⟩

end Identity

/-! # The master object of the evoting service (`evoting/lib/master.go`) -/

namespace Evoting

/-- Source `Master`, with its points and ids kept abstract. -/
structure Master where
  ID : List Nat
  Roster : List Nat
  Admins : List Nat
  Key : Nat
deriving DecidableEq, Repr

/-- Source `Link`. -/
structure Link where
  ID : List Nat
deriving DecidableEq, Repr

/-- The fields of a `Transaction` that `master.go` reads, both pointers; the
declaration of the type is not part of the sources at hand. -/
structure Transaction where
  Master : Option Master
  Link : Option Link
deriving DecidableEq, Repr

/-- The errors that `GetMaster` can return: the one of the fetch, and the one
it makes itself, "no master structure in ...". -/
inductive MasterError where
  | fetch (code : Nat)
  | noMasterStructure
deriving DecidableEq, Repr

/-- How a call of `GetMaster` ends: with the pair of a master pointer and a nil
error, with a nil master and an error, or with a panic. -/
inductive MasterResult where
  | value (master : Option Master)
  | error (err : MasterError)
  | crash
deriving DecidableEq, Repr

/-- The condition `transaction == nil && transaction.Master == nil` of
`GetMaster`.  Go evaluates the right operand only when the left one is true,
that is on a nil transaction, whose field it then reads: `none` is that panic.
-/
def noMaster (transaction : Option Transaction) : Option Bool :=
  match transaction with
  | none => none
  | some _ => some false

/-- Source `GetMaster`.  `block` is what `GetSingleBlockByIndex` returns for
index 1, the data of the block or an error, and `UnmarshalTransaction` decodes
the data of a block to a transaction or nil. -/
def GetMaster (UnmarshalTransaction : List Nat → Option Transaction)
    (block : Except Nat (List Nat)) : MasterResult :=
  match block with
  | .error code => .error (.fetch code)
  | .ok data =>
    let transaction := UnmarshalTransaction data
    match noMaster transaction with
    | none => .crash
    | some true => .error .noMasterStructure
    | some false =>
      match transaction with
      | none => .crash
      | some t => .value t.Master

/-- A decoder of block data for evaluation: data `[1]` is a transaction with a
master, data `[2]` is a transaction with a link and no master, any other data
does not decode. -/
def toyUnmarshal (data : List Nat) : Option Transaction :=
  if data = [1] then some ⟨some ⟨[7], [1, 2, 3], [10], 5⟩, none⟩
  else if data = [2] then some ⟨none, some ⟨[8]⟩⟩
  else none

end Evoting

/-! # The debug logger (`lib/dbg/debug_lvl.go`) -/

namespace Dbg

/-- Constant `LvlPrint`, `iota - 10` at position 0. -/
def LvlPrint : Int := -10

/-- Constant `LvlWarning`. -/
def LvlWarning : Int := -9

/-- Constant `LvlError`. -/
def LvlError : Int := -8

/-- Constant `LvlFatal`. -/
def LvlFatal : Int := -7

/-- Constant `LvlPanic`. -/
def LvlPanic : Int := -6

/-- The colours of `go-colortext` that the logger uses. -/
inductive Color where
  | White
  | Green
  | Red
  | Yellow
  | Cyan
  | Blue
deriving DecidableEq, Repr

/-- The slice `colors` of `Lvl`. -/
def colors : List Color := [.Yellow, .Cyan, .Blue, .Green, .Cyan]

/-- Go index expression `colors[i]`: `none` is the panic of an index out of
range. -/
def colorAt (i : Int) : Option Color :=
  if 0 ≤ i ∧ i < 5 then colors[i.toNat]? else none

/-- The value `lvlAbs := lvl * (lvl / lvl)` of `Lvl`, for a level that is not
zero; the division of Go truncates toward zero. -/
def lvlAbs (lvl : Int) : Int := lvl * Int.tdiv lvl lvl

/-- What `Lvl` does about the colour: it returns before printing, sets the
foreground colour, leaves it, or panics. -/
inductive Painted where
  | discarded
  | foreground (color : Color) (bright : Bool)
  | unpainted
  | crash
deriving DecidableEq, Repr

/-- The colour part of source `Lvl`, with the value of `debugVisible`. -/
def Lvl (debugVisible lvl : Int) : Painted :=
  if lvl > debugVisible then .discarded
  else if lvl = LvlPrint then .foreground .White true
  else if lvl = LvlWarning then .foreground .Green true
  else if lvl = LvlError then .foreground .Red false
  else if lvl = LvlFatal then .foreground .Red true
  else if lvl = LvlPanic then .foreground .Red true
  else if lvl ≠ 0 then
    if lvlAbs lvl ≤ 5 then
      match colorAt (lvlAbs lvl - 1) with
      | some color => .foreground color (decide (lvl < 0))
      | none => .crash
    else .unpainted
  else .unpainted

/-- Source `Lvld`. -/
def Lvld (debugVisible lvl : Int) : Painted := Lvl debugVisible lvl

/-- Source `LLvl1`, and likewise `LLvl2` to `LLvl5`: all log at level -1. -/
def LLvl1 (debugVisible : Int) : Painted := Lvld debugVisible (-1)

/-- Source `Lvl1`. -/
def Lvl1 (debugVisible : Int) : Painted := Lvld debugVisible 1

end Dbg

namespace Identity

/-! ## Lemmas on maps -/

theorem mapGet_mapSet_self {K V : Type} [DecidableEq K] (m : GoMap K V) (k : K) (v : V) :
    mapGet (mapSet m k v) k = some v := by
  induction m with
  | nil => simp [mapSet, mapGet]
  | cons kv m ih =>
    obtain ⟨k0, v0⟩ := kv
    by_cases h : k0 = k
    · simp [mapSet, mapGet, h]
    · simp [mapSet, mapGet, h, ih]

theorem mapGet_mapSet_ne {K V : Type} [DecidableEq K] (m : GoMap K V) (k k1 : K) (v : V)
    (hne : k1 ≠ k) : mapGet (mapSet m k v) k1 = mapGet m k1 := by
  induction m with
  | nil => simp [mapSet, mapGet, Ne.symm hne]
  | cons kv m ih =>
    obtain ⟨k0, v0⟩ := kv
    by_cases h : k0 = k
    · subst h
      simp [mapSet, mapGet, Ne.symm hne]
    · by_cases h1 : k0 = k1
      · subst h1
        simp [mapSet, mapGet, h]
      · simp [mapSet, mapGet, h, h1, ih]

theorem mapSet_mapSet {K V : Type} [DecidableEq K] (m : GoMap K V) (k : K) (v w : V) :
    mapSet (mapSet m k v) k w = mapSet m k w := by
  induction m with
  | nil => simp [mapSet]
  | cons kv m ih =>
    obtain ⟨k0, v0⟩ := kv
    by_cases h : k0 = k
    · simp [mapSet, h]
    · simp [mapSet, h, ih]

theorem mapSet_of_mapGet {K V : Type} [DecidableEq K] (m : GoMap K V) (k : K) (v : V)
    (h : mapGet m k = some v) : mapSet m k v = m := by
  induction m with
  | nil => simp [mapGet] at h
  | cons kv m ih =>
    obtain ⟨k0, v0⟩ := kv
    by_cases hk : k0 = k
    · simp [mapGet, hk] at h
      simp [mapSet, hk, h]
    · simp [mapGet, hk] at h
      simp [mapSet, hk, ih h]

theorem mapGet_isSome_iff {K V : Type} [DecidableEq K] (m : GoMap K V) (k : K) :
    (mapGet m k).isSome = true ↔ k ∈ mapKeys m := by
  induction m with
  | nil => simp [mapGet, mapKeys]
  | cons kv m ih =>
    obtain ⟨k0, v0⟩ := kv
    by_cases hk : k0 = k
    · simp [mapGet, mapKeys, hk]
    · have hk1 : ¬ k = k0 := fun h => hk h.symm
      simp only [mapGet, hk, if_false, ih, mapKeys, List.map_cons, List.mem_cons, hk1, false_or]

theorem mapLen_mapSet_of_mem {K V : Type} [DecidableEq K] (m : GoMap K V) (k : K) (v : V)
    (h : k ∈ mapKeys m) : mapLen (mapSet m k v) = mapLen m := by
  induction m with
  | nil => simp [mapKeys] at h
  | cons kv m ih =>
    obtain ⟨k0, v0⟩ := kv
    by_cases hk : k0 = k
    · simp [mapSet, hk, mapLen]
    · have hk1 : ¬ k = k0 := fun h => hk h.symm
      have hm : k ∈ mapKeys m := by
        simpa [mapKeys, hk1] using h
      have := ih hm
      simp only [mapLen] at this
      simp [mapSet, hk, mapLen, this]

theorem mapKeys_mapSet {K V : Type} [DecidableEq K] (m : GoMap K V) (k : K) (v : V) :
    mapKeys (mapSet m k v) = if k ∈ mapKeys m then mapKeys m else mapKeys m ++ [k] := by
  induction m with
  | nil => simp [mapSet, mapKeys]
  | cons kv m ih =>
    obtain ⟨k0, v0⟩ := kv
    by_cases hk : k0 = k
    · simp [mapSet, hk, mapKeys]
    · have hk1 : ¬ k = k0 := fun h => hk h.symm
      simp only [mapKeys] at ih
      simp only [mapSet, hk, if_false, mapKeys, List.map_cons, List.mem_cons, hk1, false_or, ih]
      split_ifs <;> simp

theorem mapWF_mapSet {K V : Type} [DecidableEq K] (m : GoMap K V) (k : K) (v : V)
    (h : mapWF m) : mapWF (mapSet m k v) := by
  unfold mapWF at *
  rw [mapKeys_mapSet]
  split_ifs with hk
  · exact h
  · rw [List.nodup_append]
    refine ⟨h, List.nodup_singleton k, ?_⟩
    intro a ha hb
    simp at hb
    subst hb
    exact hk ha

theorem mem_mapSet {K V : Type} [DecidableEq K] (m : GoMap K V) (k : K) (v : V)
    (e : K × V) (h : e ∈ mapSet m k v) : e = (k, v) ∨ e ∈ m := by
  induction m with
  | nil => simp [mapSet] at h; exact Or.inl h
  | cons kv m ih =>
    obtain ⟨k0, v0⟩ := kv
    by_cases hk : k0 = k
    · simp only [mapSet, hk, if_true, List.mem_cons] at h
      rcases h with h | h
      · exact Or.inl h
      · exact Or.inr (List.mem_cons_of_mem _ h)
    · simp only [mapSet, hk, if_false, List.mem_cons] at h
      rcases h with h | h
      · right; subst h; exact List.mem_cons_self _ _
      · rcases ih h with h1 | h1
        · exact Or.inl h1
        · exact Or.inr (List.mem_cons_of_mem _ h1)

theorem mapGet_of_mem {K V : Type} [DecidableEq K] (m : GoMap K V) (k : K) (v : V)
    (hwf : mapWF m) (h : (k, v) ∈ m) : mapGet m k = some v := by
  induction m with
  | nil => simp at h
  | cons kv m ih =>
    obtain ⟨k0, v0⟩ := kv
    simp only [mapWF, mapKeys, List.map_cons, List.nodup_cons] at hwf
    rcases List.mem_cons.1 h with h | h
    · cases h
      simp [mapGet]
    · have hk : k0 ≠ k := by
        intro hk
        subst hk
        exact hwf.1 (List.mem_map_of_mem Prod.fst h)
      simp only [mapGet, hk, if_false]
      exact ih hwf.2 h

theorem mem_of_mapGet {K V : Type} [DecidableEq K] (m : GoMap K V) (k : K) (v : V)
    (h : mapGet m k = some v) : (k, v) ∈ m := by
  induction m with
  | nil => simp [mapGet] at h
  | cons kv m ih =>
    obtain ⟨k0, v0⟩ := kv
    by_cases hk : k0 = k
    · simp [mapGet, hk] at h
      simp [hk, h]
    · simp only [mapGet, hk, if_false] at h
      exact List.mem_cons_of_mem _ (ih h)

/-- A duplicate-free list of keys that all occur in a map is no longer than
the map. -/
theorem length_le_mapLen_of_subset {K V : Type} (l : List K) (m : GoMap K V)
    (hnd : l.Nodup) (hsub : ∀ k ∈ l, k ∈ mapKeys m) : l.length ≤ mapLen m := by
  have h := (List.subperm_of_subset hnd hsub).length_le
  simpa [mapKeys, mapLen] using h

/-- A duplicate-free list of keys of a well-formed map that is as long as the
map holds every key of the map. -/
theorem mem_of_mapLen_le_length {K V : Type} (l : List K) (m : GoMap K V)
    (hnd : l.Nodup) (hsub : ∀ k ∈ l, k ∈ mapKeys m) (hlen : mapLen m ≤ l.length) :
    ∀ k ∈ mapKeys m, k ∈ l := by
  have hsp : l.Subperm (mapKeys m) := List.subperm_of_subset hnd hsub
  have hle : (mapKeys m).length ≤ l.length := by simpa [mapKeys, mapLen] using hlen
  have hperm : l.Perm (mapKeys m) := hsp.perm_of_length_le hle
  intro k hk
  exact hperm.symm.subset hk

/-! ## The block verifier -/

theorem countStep_eq (E : Env) (prevData : Data) (hash : List Nat) (n : Nat)
    (vote : String × Bytes) :
    countStep E prevData hash n vote
      = n + (if validVote E prevData hash vote = true then 1 else 0) := by
  unfold countStep validVote
  cases mapGet prevData.Device vote.1 with
  | none => simp
  | some pub =>
    by_cases hv : E.Verify pub.Point hash vote.2 = true
    · simp [hv]
    · simp [hv]

theorem countSignatures_foldl (E : Env) (prevData : Data) (hash : List Nat)
    (votes : GoMap String Bytes) (n : Nat) :
    votes.foldl (countStep E prevData hash) n = n + validCount E prevData hash votes := by
  induction votes generalizing n with
  | nil => simp [validCount]
  | cons vote rest ih =>
    rw [List.foldl_cons, ih, countStep_eq]
    unfold validCount
    rw [List.countP_cons]
    omega

theorem countSignatures_eq (E : Env) (prevData : Data) (hash : List Nat)
    (votes : GoMap String Bytes) :
    countSignatures E prevData hash votes = validCount E prevData hash votes := by
  unfold countSignatures
  rw [countSignatures_foldl]; simp

/-- What an accepted block that is no genesis block went through. -/
theorem verifyBlock_accept_inv (E : Env) (s : Service) (sb : SkipBlock)
    (newData prevData : Data) (link : Bytes) (links : List Bytes) (latest : SkipBlock)
    (hidx : sb.Index ≠ 0) (hd : sb.Data = .data newData)
    (hl : sb.BackLinkIDs = link :: links)
    (hlat : latestBlock E s sb link = .ok (some latest)) (hprev : latest.Data = .data prevData)
    (hacc : VerifyBlock E s sb = some true) :
    ∃ h, E.Hash newData = some h ∧
      ((validCount E prevData h newData.Votes : Int) ≥ prevData.Threshold ∨
        validCount E prevData h newData.Votes = mapLen prevData.Device) := by
  cases hh : E.Hash newData with
  | none => simp [VerifyBlock, hidx, hd, hh] at hacc
  | some h =>
    refine ⟨h, rfl, ?_⟩
    simp only [VerifyBlock, hidx, if_false, hd, hh, hl, hlat, hprev, countSignatures_eq] at hacc
    by_contra hc
    simp [hc] at hacc

theorem validCount_le_knownVoters (E : Env) (prevData : Data) (hash : List Nat)
    (votes : GoMap String Bytes) :
    validCount E prevData hash votes ≤ knownVoters prevData votes := by
  unfold validCount knownVoters mapKeys
  rw [List.countP_map]
  apply List.countP_mono_left
  intro vote _ hv
  simp only [validVote] at hv
  simp only [Function.comp]
  cases hg : mapGet prevData.Device vote.1 with
  | none => simp [hg] at hv
  | some pub => simp

theorem knownVoters_le_mapLen (prevData : Data) (votes : GoMap String Bytes)
    (hwf : mapWF votes) : knownVoters prevData votes ≤ mapLen prevData.Device := by
  unfold knownVoters
  rw [List.countP_eq_length_filter]
  apply length_le_mapLen_of_subset
  · exact hwf.filter _
  · intro k hk
    have := (List.mem_filter.1 hk).2
    exact (mapGet_isSome_iff _ _).1 this

/-- Claim C1.  `VerifyBlock` accepts every genesis block (index 0) whatever it
carries; and for a block whose payload decodes to a data record with a hash,
that has a back-link and whose predecessor resolves to a data record
`prevData`, it returns true exactly when the index is 0, or the number of
valid votes reaches `prevData.Threshold`, or it equals the number of devices
of `prevData`. -/
theorem verifyBlock_decision :
    (∀ (E : Env) (s : Service) (sb : SkipBlock), sb.Index = 0 → VerifyBlock E s sb = some true) ∧
    (∀ (E : Env) (s : Service) (sb : SkipBlock) (newData prevData : Data) (h : List Nat)
        (link : Bytes) (links : List Bytes) (latest : SkipBlock),
      sb.Data = .data newData → E.Hash newData = some h →
      sb.BackLinkIDs = link :: links →
      latestBlock E s sb link = .ok (some latest) → latest.Data = .data prevData →
      (VerifyBlock E s sb = some true ↔
        sb.Index = 0 ∨
        (validCount E prevData h newData.Votes : Int) ≥ prevData.Threshold ∨
        validCount E prevData h newData.Votes = mapLen prevData.Device)) := by
  refine ⟨?_, ?_⟩
  · intro E s sb h0
    simp [VerifyBlock, h0]
  · intro E s sb newData prevData h link links latest hd hh hl hlat hprev
    by_cases h0 : sb.Index = 0
    · simp [VerifyBlock, h0]
    · simp only [VerifyBlock, h0, if_false, hd, hh, hl, hlat, hprev, countSignatures_eq, false_or]
      split_ifs with hc
      · simp [hc]
      · simp [hc]

/-- Witness of C1: the toy block with the votes of `d1` and `d2`, the second
with a signature that does not verify, has one valid vote under threshold 2 and
is refused; a genesis block with any payload is accepted. -/
theorem verifyBlock_decision_witness :
    VerifyBlock toyEnv (toyService []) toyRoot = some true ∧
    (toyBlock [("d1", toySig 7), ("d2", some [0])]).Data
        = .data { toyProposed with Votes := [("d1", toySig 7), ("d2", some [0])] } ∧
    validCount toyEnv toyLatest [2, 3, 1] [("d1", toySig 7), ("d2", some [0])] = 1 ∧
    (VerifyBlock toyEnv (toyService []) (toyBlock [("d1", toySig 7), ("d2", some [0])])
        = some true ↔
      (toyBlock [("d1", toySig 7), ("d2", some [0])]).Index = 0 ∨
      (validCount toyEnv toyLatest [2, 3, 1] [("d1", toySig 7), ("d2", some [0])] : Int)
        ≥ toyLatest.Threshold ∨
      validCount toyEnv toyLatest [2, 3, 1] [("d1", toySig 7), ("d2", some [0])]
        = mapLen toyLatest.Device) :=
  ⟨verifyBlock_decision.1 toyEnv (toyService []) toyRoot rfl, rfl, by decide,
    verifyBlock_decision.2 toyEnv (toyService []) (toyBlock [("d1", toySig 7), ("d2", some [0])])
      { toyProposed with Votes := [("d1", toySig 7), ("d2", some [0])] } toyLatest [2, 3, 1]
      (some [1, 2, 3, 4, 5, 6, 7, 8]) [] toyGenesis rfl rfl rfl rfl rfl⟩

/-- Claim C2.  For a block that is no genesis block, that `VerifyBlock`
accepts and whose predecessor data is `prevData`, the number of device names
among its votes that are device names of `prevData` is at least
`prevData.Threshold` or equals the number of devices of `prevData`. -/
theorem verifyBlock_known_voters (E : Env) (s : Service) (sb : SkipBlock)
    (newData prevData : Data) (link : Bytes) (links : List Bytes) (latest : SkipBlock)
    (hidx : sb.Index ≠ 0) (hd : sb.Data = .data newData)
    (hl : sb.BackLinkIDs = link :: links)
    (hlat : latestBlock E s sb link = .ok (some latest)) (hprev : latest.Data = .data prevData)
    (hwf : mapWF newData.Votes)
    (hacc : VerifyBlock E s sb = some true) :
    (knownVoters prevData newData.Votes : Int) ≥ prevData.Threshold ∨
      knownVoters prevData newData.Votes = mapLen prevData.Device := by
  obtain ⟨h, _, hcnt⟩ := verifyBlock_accept_inv E s sb newData prevData link links latest
    hidx hd hl hlat hprev hacc
  have h1 := validCount_le_knownVoters E prevData h newData.Votes
  have h2 := knownVoters_le_mapLen prevData newData.Votes hwf
  rcases hcnt with hc | hc
  · left; omega
  · right; omega

/-- Witness of C2: the toy block with valid votes of `d1` and `d2`. -/
theorem verifyBlock_known_voters_witness :
    (knownVoters toyLatest [("d1", toySig 7), ("d2", toySig 8)] : Int) ≥ toyLatest.Threshold ∨
      knownVoters toyLatest [("d1", toySig 7), ("d2", toySig 8)] = mapLen toyLatest.Device :=
  verifyBlock_known_voters toyEnv (toyService []) (toyBlock [("d1", toySig 7), ("d2", toySig 8)])
    { toyProposed with Votes := [("d1", toySig 7), ("d2", toySig 8)] } toyLatest
    (some [1, 2, 3, 4, 5, 6, 7, 8]) [] toyGenesis (by decide) rfl rfl rfl rfl (by decide)
    (by decide)

/-- Counterexample to C3 as stated: the toy block with valid votes of `d1` and
`d2` and a vote of `d3` whose signature does not verify is no genesis block, has
the toy genesis block as predecessor and is accepted, although not every vote
of a device of the predecessor verifies. -/
theorem verifyBlock_all_votes_counterexample :
    (toyBlock [("d1", toySig 7), ("d2", toySig 8), ("d3", some [0])]).Index ≠ 0 ∧
    latestBlock toyEnv (toyService [])
      (toyBlock [("d1", toySig 7), ("d2", toySig 8), ("d3", some [0])])
      (some [1, 2, 3, 4, 5, 6, 7, 8]) = .ok (some toyGenesis) ∧
    toyGenesis.Data = .data toyLatest ∧
    toyEnv.Hash { toyProposed with Votes := [("d1", toySig 7), ("d2", toySig 8), ("d3", some [0])] }
      = some [2, 3, 1] ∧
    VerifyBlock toyEnv (toyService [])
      (toyBlock [("d1", toySig 7), ("d2", toySig 8), ("d3", some [0])]) = some true ∧
    ¬ (∀ vote ∈ [("d1", toySig 7), ("d2", toySig 8), ("d3", some [0])],
        ∀ pub, mapGet toyLatest.Device vote.1 = some pub →
          toyEnv.Verify pub.Point [2, 3, 1] vote.2 = true) := by
  refine ⟨by decide, rfl, rfl, by decide, by decide, ?_⟩
  intro hall
  have h3 := hall ("d3", some [0]) (by simp) ⟨9⟩ (by decide)
  revert h3
  decide

/-- Claim C3, amended.  For a block that is no genesis block, that
`VerifyBlock` accepts and whose predecessor data is `prevData`, the data has a
hash and some of its votes, each of a device of `prevData` with a signature
that verifies under the point of that device over the hash, number at least
`prevData.Threshold` or as many as the devices of `prevData`. -/
theorem verifyBlock_counted_votes (E : Env) (s : Service) (sb : SkipBlock)
    (newData prevData : Data) (link : Bytes) (links : List Bytes) (latest : SkipBlock)
    (hidx : sb.Index ≠ 0) (hd : sb.Data = .data newData)
    (hl : sb.BackLinkIDs = link :: links)
    (hlat : latestBlock E s sb link = .ok (some latest)) (hprev : latest.Data = .data prevData)
    (hacc : VerifyBlock E s sb = some true) :
    ∃ (h : List Nat) (counted : List (String × Bytes)),
      E.Hash newData = some h ∧ counted.Sublist newData.Votes ∧
      (∀ vote ∈ counted, ∃ pub, mapGet prevData.Device vote.1 = some pub ∧
        E.Verify pub.Point h vote.2 = true) ∧
      ((counted.length : Int) ≥ prevData.Threshold ∨
        counted.length = mapLen prevData.Device) := by
  obtain ⟨h, hh, hcnt⟩ := verifyBlock_accept_inv E s sb newData prevData link links latest
    hidx hd hl hlat hprev hacc
  refine ⟨h, newData.Votes.filter (validVote E prevData h), hh, List.filter_sublist _, ?_, ?_⟩
  · intro vote hv
    have hvalid := (List.mem_filter.1 hv).2
    simp only [validVote] at hvalid
    cases hg : mapGet prevData.Device vote.1 with
    | none => simp [hg] at hvalid
    | some pub =>
      refine ⟨pub, rfl, ?_⟩
      simpa [hg] using hvalid
  · simpa [validCount, List.countP_eq_length_filter] using hcnt

/-- Witness of the amended C3: the accepted toy block of the counterexample. -/
theorem verifyBlock_counted_votes_witness :
    ∃ (h : List Nat) (counted : List (String × Bytes)),
      toyEnv.Hash { toyProposed with
          Votes := [("d1", toySig 7), ("d2", toySig 8), ("d3", some [0])] } = some h ∧
      counted.Sublist [("d1", toySig 7), ("d2", toySig 8), ("d3", some [0])] ∧
      (∀ vote ∈ counted, ∃ pub, mapGet toyLatest.Device vote.1 = some pub ∧
        toyEnv.Verify pub.Point h vote.2 = true) ∧
      ((counted.length : Int) ≥ toyLatest.Threshold ∨
        counted.length = mapLen toyLatest.Device) :=
  verifyBlock_counted_votes toyEnv (toyService [])
    (toyBlock [("d1", toySig 7), ("d2", toySig 8), ("d3", some [0])])
    { toyProposed with Votes := [("d1", toySig 7), ("d2", toySig 8), ("d3", some [0])] }
    toyLatest (some [1, 2, 3, 4, 5, 6, 7, 8]) [] toyGenesis (by decide) rfl rfl rfl rfl
    (by decide)

/-! ## The identity store -/

theorem getIdentityStorage_writeStorage_self (s : Service) (id : Bytes) (sid : Storage) :
    getIdentityStorage (writeStorage s id sid) id = some sid := by
  simp [getIdentityStorage, writeStorage, mapGet_mapSet_self]

theorem getIdentityStorage_writeStorage_ne (s : Service) (id id1 : Bytes) (sid : Storage)
    (hne : id1.val ≠ id.val) :
    getIdentityStorage (writeStorage s id sid) id1 = getIdentityStorage s id1 := by
  simp [getIdentityStorage, writeStorage, mapGet_mapSet_ne _ _ _ _ hne]

theorem writeStorage_of_get (s : Service) (id : Bytes) (sid : Storage)
    (h : getIdentityStorage s id = some sid) : writeStorage s id sid = s := by
  cases s with
  | mk ids =>
    simp only [getIdentityStorage] at h
    simp [writeStorage, mapSet_of_mapGet _ _ _ h]

theorem writeStorage_writeStorage (s : Service) (id : Bytes) (sid sid1 : Storage) :
    writeStorage (writeStorage s id sid) id sid1 = writeStorage s id sid1 := by
  simp [writeStorage, mapSet_mapSet]

/-! ## Votes -/

/-- What a vote that passes the checks of `ProposeVote` has met. -/
theorem checkVote_none (E : Env) (sid : Storage) (v : ProposeVote)
    (h : checkVote E sid v = none) :
    ∃ owner proposed hash, mapGet sid.Latest.Device v.Signer = some owner ∧
      sid.Proposed = some proposed ∧ E.Hash proposed = some hash ∧
      (v.Signature = none ∨ E.Verify owner.Point hash v.Signature = true) := by
  unfold checkVote at h
  cases hd : mapGet sid.Latest.Device v.Signer with
  | none => simp [hd] at h
  | some owner =>
    cases hp : sid.Proposed with
    | none => simp [hd, hp] at h
    | some proposed =>
      cases hh : E.Hash proposed with
      | none => simp [hd, hp, hh] at h
      | some hash =>
        refine ⟨owner, proposed, hash, rfl, rfl, hh, ?_⟩
        cases hs : v.Signature with
        | none => exact Or.inl rfl
        | some sig =>
          right
          simp only [hd, hp, hh, hs] at h
          by_contra hc
          simp [hc] at h

/-- The two ways in which the vote handler ends on an identity without a
panic: the identity is as before, or the vote is written. -/
theorem applyVote_cases (E : Env) (sid sid1 : Storage) (v : ProposeVote)
    (h : applyVote E sid v = some sid1) :
    sid1 = sid ∨
      ∃ d proposed hash, mapGet sid.Latest.Device v.Signer = some d ∧
        sid.Proposed = some proposed ∧ E.Hash proposed = some hash ∧
        E.Verify d.Point hash v.Signature = true ∧
        sid1 = { sid with
          Proposed := some { proposed with
            Votes := mapSet proposed.Votes v.Signer v.Signature } } := by
  unfold applyVote at h
  cases hd : mapGet sid.Latest.Device v.Signer with
  | none => simp [hd] at h; exact Or.inl h.symm
  | some d =>
    cases hp : sid.Proposed with
    | none => simp [hd, hp] at h
    | some proposed =>
      cases hh : E.Hash proposed with
      | none => simp [hd, hp, hh] at h; exact Or.inl h.symm
      | some hash =>
        by_cases hv : E.Verify d.Point hash v.Signature = true
        · right
          simp only [hd, hp, hh, hv, if_true, Option.some.injEq] at h
          exact ⟨d, proposed, hash, rfl, rfl, hh, hv, h.symm⟩
        · simp [hd, hp, hh, hv] at h
          exact Or.inl h.symm

/-- The vote handler does not panic on an identity with a pending proposal. -/
theorem applyVote_isSome (E : Env) (sid : Storage) (v : ProposeVote) (proposed : Data)
    (hp : sid.Proposed = some proposed) : ∃ sid1, applyVote E sid v = some sid1 := by
  unfold applyVote
  cases hd : mapGet sid.Latest.Device v.Signer with
  | none => exact ⟨sid, rfl⟩
  | some d =>
    cases hh : E.Hash proposed with
    | none => exact ⟨sid, by simp [hp, hh]⟩
    | some hash =>
      by_cases hv : E.Verify d.Point hash v.Signature = true
      · exact ⟨{ sid with
            Proposed := some { proposed with
              Votes := mapSet proposed.Votes v.Signer v.Signature } }, by simp [hp, hh, hv]⟩
      · exact ⟨sid, by simp [hp, hh, hv]⟩

/-- The vote handler keeps everything of an identity but the votes of its
proposal. -/
theorem applyVote_frame (E : Env) (sid sid1 : Storage) (v : ProposeVote)
    (h : applyVote E sid v = some sid1) :
    sid1.Latest = sid.Latest ∧ sid1.SCRoot = sid.SCRoot ∧ sid1.SCData = sid.SCData ∧
      (∀ proposed, sid.Proposed = some proposed →
        ∃ votes, sid1.Proposed = some { proposed with Votes := votes }) := by
  rcases applyVote_cases E sid sid1 v h with h1 | ⟨d, proposed, hash, _, hp, _, _, h1⟩
  · subst h1
    exact ⟨rfl, rfl, rfl, fun proposed hp => ⟨proposed.Votes, hp⟩⟩
  · subst h1
    refine ⟨rfl, rfl, rfl, ?_⟩
    intro p hp1
    rw [hp] at hp1
    cases hp1
    exact ⟨_, rfl⟩

/-- The service after the vote handler, for a known identity with a pending
proposal: the identity is found again, with the outcome of `applyVote` when the
id of the message is not nil. -/
theorem propagateDataHandler_vote (E : Env) (s : Service) (v : ProposeVote) (sid : Storage)
    (proposed : Data) (hsid : getIdentityStorage s v.ID = some sid)
    (hp : sid.Proposed = some proposed) :
    ∃ s1 sid1, propagateDataHandler E s (.proposeVote v) = some s1 ∧
      getIdentityStorage s1 v.ID = some sid1 ∧
      ((v.ID = none ∧ sid1 = sid ∧ s1 = s) ∨
        (v.ID ≠ none ∧ applyVote E sid v = some sid1 ∧ s1 = writeStorage s v.ID sid1)) := by
  obtain ⟨sid1, h1⟩ := applyVote_isSome E sid v proposed hp
  cases hid : v.ID with
  | none =>
    refine ⟨s, sid, ?_, ?_, Or.inl ⟨rfl, rfl, rfl⟩⟩
    · simp [propagateDataHandler, hid]
    · rw [← hid]; exact hsid
  | some bytes =>
    refine ⟨writeStorage s v.ID sid1, sid1, ?_, ?_, Or.inr ⟨?_, h1, ?_⟩⟩
    · have hsid1 : getIdentityStorage s (some bytes) = some sid := hid ▸ hsid
      simp [propagateDataHandler, hid, hsid1, h1]
    · rw [← hid]; exact getIdentityStorage_writeStorage_self _ _ _
    · simp [hid]
    · rw [hid]

/-! ## ProposeVote -/

theorem mapLen_mapSet_pos {K V : Type} [DecidableEq K] (m : GoMap K V) (k : K) (v : V) :
    1 ≤ mapLen (mapSet m k v) := by
  cases m with
  | nil => simp [mapSet, mapLen]
  | cons kv m =>
    obtain ⟨k0, v0⟩ := kv
    by_cases hk : k0 = k <;> simp [mapSet, hk, mapLen]

/-- The run of `ProposeVote` from the point where the vote has been propagated
and the identity read again. -/
theorem proposeVote_after_propagation (E : Env) (s s1 : Service) (v : ProposeVote)
    (sid sid1 : Storage) (proposed : Data)
    (hsid : getIdentityStorage s v.ID = some sid) (hcheck : checkVote E sid v = none)
    (hprop : E.PropagateOK (.proposeVote v) = true)
    (hs1 : propagateDataHandler E s (.proposeVote v) = some s1)
    (hsid1 : getIdentityStorage s1 v.ID = some sid1) (hp : sid1.Proposed = some proposed) :
    Service.ProposeVote E s v =
      if commitCondition sid1.Latest proposed then commitProposal E s1 sid1 proposed v
      else ⟨s1, .ok none, [.proposeVote v], []⟩ := by
  simp only [Service.ProposeVote, hsid, hcheck, hprop, hs1, hsid1, hp, if_true]

/-- Every run of the commit branch makes one request to the skipchain. -/
theorem commitProposal_stored (E : Env) (s1 : Service) (sid1 : Storage) (proposed : Data)
    (v : ProposeVote) :
    (commitProposal E s1 sid1 proposed v).stored = [⟨sid1.SCData, proposed.Roster, proposed⟩] := by
  unfold commitProposal
  cases E.StoreSkipBlockSignature sid1.SCData proposed.Roster proposed with
  | error cerr => rfl
  | ok latest =>
    cases hl : latest.Data with
    | undecodable => simp [hl]
    | other => simp [hl]
    | data al =>
      simp only [hl]
      split_ifs
      · split <;> rfl
      · rfl

/-- The commit branch when the skipchain stores the block and the block is
propagated: the identity takes the block and the reply carries it. -/
theorem commitProposal_ok (E : Env) (s1 : Service) (sid1 : Storage) (proposed : Data)
    (v : ProposeVote) (latest : SkipBlock) (al : Data)
    (hsid1 : getIdentityStorage s1 v.ID = some sid1)
    (hstore : E.StoreSkipBlockSignature sid1.SCData proposed.Roster proposed = .ok latest)
    (hdata : latest.Data = .data al)
    (hprop : E.PropagateOK (.updateSkipBlock ⟨v.ID, latest⟩) = true) :
    (commitProposal E s1 sid1 proposed v).reply = .ok (some latest) ∧
    (commitProposal E s1 sid1 proposed v).service
      = writeStorage s1 v.ID { sid1 with SCData := latest, Latest := al, Proposed := none } := by
  have h2 : propagateSkipBlockHandler s1 (.updateSkipBlock ⟨v.ID, latest⟩)
      = writeStorage s1 v.ID { sid1 with SCData := latest, Latest := al, Proposed := none } := by
    simp [propagateSkipBlockHandler, hsid1, hdata]
  simp [commitProposal, hstore, hdata, hprop, h2, getIdentityStorage_writeStorage_self]

/-- Claim C4.  For a vote on a known identity that passes the checks of
`ProposeVote` and whose propagation returns no error, the handler has run and
the identity is found again with its proposal; the leader asks the skipchain to
store the proposed data exactly when the number of votes of the proposal is
then at least `Latest.Threshold` or equals the number of devices of `Latest`.
In that case the request carries the proposal, and when the skipchain stores
the block as a data block and that block is propagated, the reply carries the
block and the identity has taken it; otherwise the reply is empty, nothing is
asked of the skipchain and the state is the one left by the vote handler.  With
threshold 1, a vote with a signature on a message with an id fulfils the
condition. -/
theorem proposeVote_threshold_rule (E : Env) (s : Service) (v : ProposeVote) (sid : Storage)
    (hsid : getIdentityStorage s v.ID = some sid) (hcheck : checkVote E sid v = none)
    (hprop : E.PropagateOK (.proposeVote v) = true) :
    ∃ s1 sid1 proposed,
      propagateDataHandler E s (.proposeVote v) = some s1 ∧
      getIdentityStorage s1 v.ID = some sid1 ∧ sid1.Proposed = some proposed ∧
      sid1.Latest = sid.Latest ∧
      ((Service.ProposeVote E s v).stored ≠ [] ↔ commitCondition sid1.Latest proposed) ∧
      (commitCondition sid1.Latest proposed →
        (Service.ProposeVote E s v).stored = [⟨sid1.SCData, proposed.Roster, proposed⟩] ∧
        ∀ latest al,
          E.StoreSkipBlockSignature sid1.SCData proposed.Roster proposed = .ok latest →
          latest.Data = .data al →
          E.PropagateOK (.updateSkipBlock ⟨v.ID, latest⟩) = true →
          (Service.ProposeVote E s v).reply = .ok (some latest) ∧
          (Service.ProposeVote E s v).service
            = writeStorage s1 v.ID
                { sid1 with SCData := latest, Latest := al, Proposed := none }) ∧
      (¬ commitCondition sid1.Latest proposed →
        Service.ProposeVote E s v = ⟨s1, .ok none, [.proposeVote v], []⟩) ∧
      (sid.Latest.Threshold = 1 → v.ID ≠ none → v.Signature ≠ none →
        commitCondition sid1.Latest proposed) := by
  obtain ⟨owner, proposed0, hash, hown, hp0, hh, hsig⟩ := checkVote_none E sid v hcheck
  obtain ⟨s1, sid1, hs1, hsid1, hcase⟩ := propagateDataHandler_vote E s v sid proposed0 hsid hp0
  have hframe : sid1.Latest = sid.Latest ∧
      ∃ votes, sid1.Proposed = some { proposed0 with Votes := votes } := by
    rcases hcase with ⟨_, h1, _⟩ | ⟨_, h1, _⟩
    · subst h1
      exact ⟨rfl, proposed0.Votes, hp0⟩
    · have := applyVote_frame E sid sid1 v h1
      exact ⟨this.1, this.2.2.2 proposed0 hp0⟩
  obtain ⟨hlatest, votes, hp1⟩ := hframe
  have hrun := proposeVote_after_propagation E s s1 v sid sid1 _ hsid hcheck hprop hs1 hsid1 hp1
  refine ⟨s1, sid1, _, hs1, hsid1, hp1, hlatest, ?_, ?_, ?_, ?_⟩
  · rw [hrun]
    split_ifs with hc
    · simp [commitProposal_stored, hc]
    · simp [hc]
  · intro hc
    rw [hrun, if_pos hc]
    refine ⟨commitProposal_stored _ _ _ _ _, ?_⟩
    intro latest al hstore hdata hpr
    exact commitProposal_ok E s1 sid1 _ v latest al hsid1 hstore hdata hpr
  · intro hc
    rw [hrun, if_neg hc]
  · intro hthr hid hsg
    rcases hcase with ⟨h0, _, _⟩ | ⟨_, h1, _⟩
    · exact absurd h0 hid
    · have hver : E.Verify owner.Point hash v.Signature = true := by
        rcases hsig with h | h
        · exact absurd h hsg
        · exact h
      have h2 : applyVote E sid v = some { sid with
          Proposed := some { proposed0 with
            Votes := mapSet proposed0.Votes v.Signer v.Signature } } := by
        simp [applyVote, hown, hp0, hh, hver]
      rw [h2] at h1
      cases h1
      simp only [Option.some.injEq] at hp1
      left
      rw [hthr, ← hp1]
      have := mapLen_mapSet_pos proposed0.Votes v.Signer v.Signature
      simp only [ge_iff_le]
      exact_mod_cast this

/-! ## Votes recorded by the handler -/

/-- The vote handler keeps the recorded votes of an identity sound. -/
theorem applyVote_votesRecorded (E : Env) (hhash : HashIgnoresVotes E) (sid sid1 : Storage)
    (v : ProposeVote) (proposed : Data) (votes : GoMap String Bytes)
    (hp : sid.Proposed = some { proposed with Votes := votes })
    (hrec : VotesRecorded E sid.Latest proposed votes)
    (h : applyVote E sid v = some sid1) :
    sid1.Latest = sid.Latest ∧
      ∃ votes1, sid1.Proposed = some { proposed with Votes := votes1 } ∧
        VotesRecorded E sid.Latest proposed votes1 := by
  rcases applyVote_cases E sid sid1 v h with h1 | ⟨d, p, hash, hd, hp1, hh, hv, h1⟩
  · subst h1
    exact ⟨rfl, votes, hp, hrec⟩
  · subst h1
    rw [hp] at hp1
    cases hp1
    refine ⟨rfl, mapSet votes v.Signer v.Signature, rfl, mapWF_mapSet _ _ _ hrec.1, ?_⟩
    intro vote hvote
    rcases mem_mapSet _ _ _ _ hvote with he | he
    · subst he
      refine ⟨d, hash, hd, ?_, hv⟩
      rw [← hhash proposed votes]
      exact hh
    · exact hrec.2 vote he

/-- The data handler, given a vote, keeps an identity that is voting on a
proposal in that state. -/
theorem propagateDataHandler_votingOn (E : Env) (hhash : HashIgnoresVotes E) (s s1 : Service)
    (id : Bytes) (latest proposed : Data) (v : ProposeVote)
    (hinv : VotingOn E s id latest proposed)
    (h : propagateDataHandler E s (.proposeVote v) = some s1) :
    VotingOn E s1 id latest proposed := by
  obtain ⟨sid, votes, hsid, hlat, hp, hrec⟩ := hinv
  unfold propagateDataHandler at h
  cases hid : v.ID with
  | none =>
    simp only [hid, Option.some.injEq] at h
    subst h
    exact ⟨sid, votes, hsid, hlat, hp, hrec⟩
  | some bytes =>
    simp only [hid] at h
    cases hg : getIdentityStorage s (some bytes) with
    | none =>
      simp only [hg, Option.some.injEq] at h
      subst h
      exact ⟨sid, votes, hsid, hlat, hp, hrec⟩
    | some sidv =>
      simp only [hg] at h
      cases ha : applyVote E sidv v with
      | none => simp [ha] at h
      | some sidv1 =>
        simp only [ha, Option.some.injEq] at h
        subst h
        by_cases hkey : id.val = Bytes.val (some bytes)
        · have hsame : sidv = sid := by
            have h1 : getIdentityStorage s id = getIdentityStorage s (some bytes) := by
              simp only [getIdentityStorage, hkey]
            rw [hsid, hg] at h1
            exact (Option.some.inj h1).symm
          subst hsame
          subst hlat
          obtain ⟨hl1, votes1, hp1, hrec1⟩ :=
            applyVote_votesRecorded E hhash sidv sidv1 v proposed votes hp hrec ha
          refine ⟨sidv1, votes1, ?_, hl1, hp1, hrec1⟩
          simp only [getIdentityStorage, writeStorage, hkey, mapGet_mapSet_self]
        · refine ⟨sid, votes, ?_, hlat, hp, hrec⟩
          rw [getIdentityStorage_writeStorage_ne _ _ _ _ hkey]
          exact hsid

/-- Delivery of any number of votes keeps an identity that is voting on a
proposal in that state. -/
theorem deliverAll_votingOn (E : Env) (hhash : HashIgnoresVotes E) (id : Bytes)
    (latest proposed : Data) (votes : List ProposeVote) (s s1 : Service)
    (hinv : VotingOn E s id latest proposed)
    (h : deliverAll E s (votes.map .proposeVote) = some s1) :
    VotingOn E s1 id latest proposed := by
  induction votes generalizing s with
  | nil =>
    simp only [List.map_nil, deliverAll, Option.some.injEq] at h
    subst h
    exact hinv
  | cons v rest ih =>
    simp only [List.map_cons, deliverAll] at h
    cases hs : propagateDataHandler E s (.proposeVote v) with
    | none => simp [hs] at h
    | some s2 =>
      simp only [hs] at h
      exact ih s2 (propagateDataHandler_votingOn E hhash s s2 id latest proposed v hinv hs) h

/-- Sound recorded votes that are as many as the devices hold a vote of every
device. -/
theorem votesRecorded_all_devices (E : Env) (latest proposed : Data)
    (votes : GoMap String Bytes) (hrec : VotesRecorded E latest proposed votes)
    (hlen : mapLen latest.Device ≤ mapLen votes) (dev : String) (d : Device)
    (hdev : mapGet latest.Device dev = some d) :
    ∃ sig h, mapGet votes dev = some sig ∧ E.Hash proposed = some h ∧
      E.Verify d.Point h sig = true := by
  have hsub : ∀ k ∈ mapKeys votes, k ∈ mapKeys latest.Device := by
    intro k hk
    obtain ⟨vote, hvote, hk1⟩ := List.mem_map.1 hk
    obtain ⟨d1, _, hd1, _, _⟩ := hrec.2 vote hvote
    rw [← hk1]
    exact (mapGet_isSome_iff _ _).1 (by simp [hd1])
  have hlen1 : mapLen latest.Device ≤ (mapKeys votes).length := by
    simpa [mapKeys, mapLen] using hlen
  have hmem : dev ∈ mapKeys votes :=
    mem_of_mapLen_le_length (mapKeys votes) latest.Device hrec.1 hsub hlen1 dev
      ((mapGet_isSome_iff _ _).1 (by simp [hdev]))
  obtain ⟨vote, hvote, hk⟩ := List.mem_map.1 hmem
  obtain ⟨d1, h, hd1, hh, hv⟩ := hrec.2 vote hvote
  have hvote1 : (dev, vote.2) ∈ votes := by
    rw [← hk]; exact hvote
  rw [hk, hdev] at hd1
  cases hd1
  exact ⟨vote.2, h, mapGet_of_mem _ _ _ hrec.1 hvote1, hh, hv⟩

/-- Claim C5.  Let an identity have a threshold equal to the number of its
devices (any number, one or more included), and a
proposal installed with no votes on which votes are then recorded by the vote
propagation handler only.  If the commit condition of `ProposeVote` holds
afterwards, every device of the identity has a recorded vote whose signature
verifies under its point over the hash of the proposal; so the condition does
not hold before all devices have voted. -/
theorem threshold_all_devices (E : Env) (hhash : HashIgnoresVotes E) (s s1 : Service)
    (id : Bytes) (sid : Storage) (proposed : Data) (votes : List ProposeVote)
    (hsid : getIdentityStorage s id = some sid) (hp : sid.Proposed = some proposed)
    (hnovotes : proposed.Votes = [])
    (hthr : sid.Latest.Threshold = mapLen sid.Latest.Device)
    (hrun : deliverAll E s (votes.map .proposeVote) = some s1) :
    ∃ sid1 proposed1, getIdentityStorage s1 id = some sid1 ∧ sid1.Latest = sid.Latest ∧
      sid1.Proposed = some proposed1 ∧
      (commitCondition sid1.Latest proposed1 →
        ∀ dev d, mapGet sid.Latest.Device dev = some d →
          ∃ sig h, mapGet proposed1.Votes dev = some sig ∧ E.Hash proposed1 = some h ∧
            E.Verify d.Point h sig = true) := by
  have hinv : VotingOn E s id sid.Latest proposed := by
    refine ⟨sid, [], hsid, rfl, ?_, ?_, ?_⟩
    · rw [hp, ← hnovotes]
    · simp [mapWF, mapKeys]
    · intro vote hvote
      simp at hvote
  obtain ⟨sid1, votes1, hsid1, hlat1, hp1, hrec1⟩ :=
    deliverAll_votingOn E hhash id sid.Latest proposed votes s s1 hinv hrun
  refine ⟨sid1, _, hsid1, hlat1, hp1, ?_⟩
  intro hcommit dev d hd
  have hlen : mapLen sid.Latest.Device ≤ mapLen votes1 := by
    unfold commitCondition at hcommit
    rw [hlat1, hthr] at hcommit
    simp only at hcommit
    omega
  obtain ⟨sig, h, hsig, hh, hv⟩ :=
    votesRecorded_all_devices E sid.Latest proposed votes1 hrec1 hlen dev d hd
  exact ⟨sig, h, hsig, by rw [hhash proposed votes1]; exact hh, hv⟩

/-! ## Evaluation of the voting rules on the toy identity -/

/-- Witness of C4: on the toy identity (threshold 2 of 3) with the vote of `d1`
recorded, the valid vote of `d2` is checked, propagated and fulfils the
threshold rule. -/
theorem proposeVote_threshold_rule_witness :
    getIdentityStorage (toyService [("d1", toySig 7)]) toyID
        = some (toyStorage [("d1", toySig 7)]) ∧
    checkVote toyEnv (toyStorage [("d1", toySig 7)]) ⟨toyID, "d2", toySig 8⟩ = none ∧
    toyEnv.PropagateOK (.proposeVote ⟨toyID, "d2", toySig 8⟩) = true ∧
    (Service.ProposeVote toyEnv (toyService [("d1", toySig 7)]) ⟨toyID, "d2", toySig 8⟩).reply
        = .ok (some (toyBlock [("d1", toySig 7), ("d2", toySig 8)])) ∧
    ∃ s1 sid1 proposed,
      propagateDataHandler toyEnv (toyService [("d1", toySig 7)])
          (.proposeVote ⟨toyID, "d2", toySig 8⟩) = some s1 ∧
      getIdentityStorage s1 toyID = some sid1 ∧ sid1.Proposed = some proposed ∧
      sid1.Latest = (toyStorage [("d1", toySig 7)]).Latest ∧
      ((Service.ProposeVote toyEnv (toyService [("d1", toySig 7)])
          ⟨toyID, "d2", toySig 8⟩).stored ≠ [] ↔ commitCondition sid1.Latest proposed) :=
  ⟨by decide, by decide, rfl, by decide,
    (proposeVote_threshold_rule toyEnv (toyService [("d1", toySig 7)]) ⟨toyID, "d2", toySig 8⟩
      (toyStorage [("d1", toySig 7)]) (by decide) (by decide) rfl).imp
      fun _ h1 => h1.imp fun _ h2 => h2.imp fun _ h3 => ⟨h3.1, h3.2.1, h3.2.2.1, h3.2.2.2.1,
        h3.2.2.2.2.1⟩⟩

/-- Witness of C5: the identity that requires its three devices, after the
valid votes of `d1`, `d2` and `d3` on a proposal installed without votes. -/
theorem threshold_all_devices_witness :
    HashIgnoresVotes toyEnv ∧
    deliverAll toyEnv (toyStrictService [])
      ([⟨toyID, "d1", toySig 7⟩, ⟨toyID, "d2", toySig 8⟩, ⟨toyID, "d3", toySig 9⟩].map
        .proposeVote)
      = some (toyStrictService [("d1", toySig 7), ("d2", toySig 8), ("d3", toySig 9)]) ∧
    ∃ sid1 proposed1,
      getIdentityStorage
        (toyStrictService [("d1", toySig 7), ("d2", toySig 8), ("d3", toySig 9)]) toyID
          = some sid1 ∧
      sid1.Latest = toyStrictLatest ∧
      sid1.Proposed = some proposed1 ∧
      (commitCondition sid1.Latest proposed1 →
        ∀ dev d, mapGet toyStrictLatest.Device dev = some d →
          ∃ sig h, mapGet proposed1.Votes dev = some sig ∧ toyEnv.Hash proposed1 = some h ∧
            toyEnv.Verify d.Point h sig = true) :=
  ⟨fun _ _ => rfl, by decide,
    threshold_all_devices toyEnv (fun _ _ => rfl) (toyStrictService [])
      (toyStrictService [("d1", toySig 7), ("d2", toySig 8), ("d3", toySig 9)]) toyID
      ⟨toyStrictLatest, some toyProposed, toyRoot, toyGenesis⟩ toyProposed
      [⟨toyID, "d1", toySig 7⟩, ⟨toyID, "d2", toySig 8⟩, ⟨toyID, "d3", toySig 9⟩]
      (by decide) rfl rfl (by decide) (by decide)⟩

/-! ## Rejected votes -/

/-- Claim C6.  For a known identity and a vote whose signer is no device name
of the `Latest` data of the identity, `ProposeVote` replies with the error
`AccountMissing`, propagates nothing, asks nothing of the skipchain and leaves
the whole service state, so `Latest`, `Proposed` with its votes and the chain
blocks of the identity, as it was; a pending proposal and the signature play
no part. -/
theorem proposeVote_wrong_signer (E : Env) (s : Service) (v : ProposeVote) (sid : Storage)
    (hsid : getIdentityStorage s v.ID = some sid)
    (hsigner : mapGet sid.Latest.Device v.Signer = none) :
    Service.ProposeVote E s v = ⟨s, .error .ErrorAccountMissing, [], []⟩ := by
  simp [Service.ProposeVote, hsid, checkVote, hsigner]

/-- Witness of C6: the device `d4` votes on the toy identity. -/
theorem proposeVote_wrong_signer_witness :
    getIdentityStorage (toyService [("d1", toySig 7)]) toyID
        = some (toyStorage [("d1", toySig 7)]) ∧
    mapGet (toyStorage [("d1", toySig 7)]).Latest.Device "d4" = none ∧
    Service.ProposeVote toyEnv (toyService [("d1", toySig 7)]) ⟨toyID, "d4", toySig 7⟩
      = ⟨toyService [("d1", toySig 7)], .error .ErrorAccountMissing, [], []⟩ :=
  ⟨by decide, by decide,
    proposeVote_wrong_signer toyEnv (toyService [("d1", toySig 7)]) ⟨toyID, "d4", toySig 7⟩
      (toyStorage [("d1", toySig 7)]) (by decide) (by decide)⟩

/-- Claim C7.  For a known identity with a pending proposal that has a hash,
and a vote of a device of `Latest` whose signature is not nil and does not
verify over that hash, `ProposeVote` replies with the error `VoteSignature`,
propagates nothing and leaves the service state as it was, and the vote
propagation handler, given the same message, leaves the service state as it
was too. -/
theorem proposeVote_bad_signature (E : Env) (s : Service) (v : ProposeVote) (sid : Storage)
    (owner : Device) (proposed : Data) (hash sig : List Nat)
    (hsid : getIdentityStorage s v.ID = some sid)
    (hown : mapGet sid.Latest.Device v.Signer = some owner)
    (hp : sid.Proposed = some proposed) (hh : E.Hash proposed = some hash)
    (hsig : v.Signature = some sig)
    (hbad : E.Verify owner.Point hash v.Signature = false) :
    Service.ProposeVote E s v = ⟨s, .error .ErrorVoteSignature, [], []⟩ ∧
      propagateDataHandler E s (.proposeVote v) = some s := by
  constructor
  · have hc : checkVote E sid v = some .ErrorVoteSignature := by
      rw [hsig] at hbad
      simp [checkVote, hown, hp, hh, hsig, hbad]
    simp [Service.ProposeVote, hsid, hc]
  · have ha : applyVote E sid v = some sid := by
      simp [applyVote, hown, hp, hh, hbad]
    cases hid : v.ID with
    | none => simp [propagateDataHandler, hid]
    | some bytes =>
      have hsid1 : getIdentityStorage s (some bytes) = some sid := hid ▸ hsid
      simp only [propagateDataHandler, hid, hsid1, ha]
      rw [writeStorage_of_get _ _ _ hsid1]

/-- Witness of C7: `d2` votes on the toy identity with the signature of `d1`,
after `d1` has voted. -/
theorem proposeVote_bad_signature_witness :
    getIdentityStorage (toyService [("d1", toySig 7)]) toyID
        = some (toyStorage [("d1", toySig 7)]) ∧
    toyEnv.Verify 8 [2, 3, 1] (toySig 7) = false ∧
    (Service.ProposeVote toyEnv (toyService [("d1", toySig 7)]) ⟨toyID, "d2", toySig 7⟩
        = ⟨toyService [("d1", toySig 7)], .error .ErrorVoteSignature, [], []⟩ ∧
      propagateDataHandler toyEnv (toyService [("d1", toySig 7)])
        (.proposeVote ⟨toyID, "d2", toySig 7⟩) = some (toyService [("d1", toySig 7)])) :=
  ⟨by decide, by decide,
    proposeVote_bad_signature toyEnv (toyService [("d1", toySig 7)]) ⟨toyID, "d2", toySig 7⟩
      (toyStorage [("d1", toySig 7)]) ⟨8⟩ { toyProposed with Votes := [("d1", toySig 7)] }
      [2, 3, 1] [7, 2, 3, 1] (by decide) (by decide) rfl (by decide) rfl (by decide)⟩

/-! ## Votes without a signature, repeated votes and new proposals -/

/-- The vote handler never takes a device name out of the votes. -/
theorem applyVote_keeps_voters (E : Env) (sid sid1 : Storage) (v : ProposeVote)
    (proposed proposed1 : Data) (dev : String)
    (hp : sid.Proposed = some proposed) (h : applyVote E sid v = some sid1)
    (hp1 : sid1.Proposed = some proposed1) (hdev : dev ∈ mapKeys proposed.Votes) :
    dev ∈ mapKeys proposed1.Votes := by
  rcases applyVote_cases E sid sid1 v h with h1 | ⟨d, p, hash, _, hp2, _, _, h1⟩
  · subst h1
    rw [hp] at hp1
    cases hp1
    exact hdev
  · subst h1
    rw [hp] at hp2
    cases hp2
    simp only [Option.some.injEq] at hp1
    subst hp1
    simp only [mapKeys_mapSet]
    split_ifs
    · exact hdev
    · exact List.mem_append_left _ hdev

/-- Claim C8, as the code runs it.  On the toy identity, where `d1` has a
recorded vote, a vote of `d1` with a nil signature passes the checks of
`ProposeVote` and is propagated, yet the handler refuses its signature and the
service state stays as it was: the vote of `d1` is still recorded.  And under
any collaborators the vote handler leaves every recorded device name in the
votes. -/
theorem proposeVote_nil_signature_keeps_vote :
    checkVote toyEnv (toyStorage [("d1", toySig 7)]) ⟨toyID, "d1", none⟩ = none ∧
    Service.ProposeVote toyEnv (toyService [("d1", toySig 7)]) ⟨toyID, "d1", none⟩
      = ⟨toyService [("d1", toySig 7)], .ok none, [.proposeVote ⟨toyID, "d1", none⟩], []⟩ ∧
    propagateDataHandler toyEnv (toyService [("d1", toySig 7)])
      (.proposeVote ⟨toyID, "d1", none⟩) = some (toyService [("d1", toySig 7)]) ∧
    (∀ (E : Env) (sid sid1 : Storage) (v : ProposeVote) (proposed proposed1 : Data)
        (dev : String),
      sid.Proposed = some proposed → applyVote E sid v = some sid1 →
      sid1.Proposed = some proposed1 → dev ∈ mapKeys proposed.Votes →
      dev ∈ mapKeys proposed1.Votes) :=
  ⟨by decide, by decide, by decide, applyVote_keeps_voters⟩

/-- A second run of the vote handler on an identity changes nothing. -/
theorem applyVote_idem (E : Env) (sid sid1 : Storage) (v : ProposeVote)
    (h : applyVote E sid v = some sid1) : applyVote E sid1 v = some sid1 := by
  rcases applyVote_cases E sid sid1 v h with h1 | ⟨d, p, hash, hd, hp, hh, hv, h1⟩
  · subst h1
    exact h
  · subst h1
    simp only [applyVote, hd]
    cases hh1 : E.Hash { p with Votes := mapSet p.Votes v.Signer v.Signature } with
    | none => rfl
    | some hash1 =>
      by_cases hv1 : E.Verify d.Point hash1 v.Signature = true
      · simp [hv1, mapSet_mapSet]
      · simp [hv1]

/-- Claim C9.  Handing the same vote twice to the propagation handler gives the
state that handing it once gives (a panic of the first run included); and when
the signer already has a recorded vote and the new signature verifies, the
handler records the new signature for the signer, keeps the number of votes and
keeps the vote of every other device. -/
theorem propagateDataHandler_vote_idempotent (E : Env) (s : Service) (v : ProposeVote) :
    ((propagateDataHandler E s (.proposeVote v)).bind
        fun s1 => propagateDataHandler E s1 (.proposeVote v))
      = propagateDataHandler E s (.proposeVote v) ∧
    (∀ (sid : Storage) (proposed : Data) (d : Device) (hash : List Nat),
      v.ID ≠ none → getIdentityStorage s v.ID = some sid →
      sid.Proposed = some proposed → mapGet sid.Latest.Device v.Signer = some d →
      E.Hash proposed = some hash → E.Verify d.Point hash v.Signature = true →
      v.Signer ∈ mapKeys proposed.Votes →
      ∃ s1 sid1 proposed1,
        propagateDataHandler E s (.proposeVote v) = some s1 ∧
        getIdentityStorage s1 v.ID = some sid1 ∧ sid1.Proposed = some proposed1 ∧
        mapLen proposed1.Votes = mapLen proposed.Votes ∧
        mapGet proposed1.Votes v.Signer = some v.Signature ∧
        ∀ dev, dev ≠ v.Signer → mapGet proposed1.Votes dev = mapGet proposed.Votes dev) := by
  constructor
  · cases hid : v.ID with
    | none => simp [propagateDataHandler, hid]
    | some bytes =>
      cases hg : getIdentityStorage s (some bytes) with
      | none => simp [propagateDataHandler, hid, hg]
      | some sid =>
        cases ha : applyVote E sid v with
        | none => simp [propagateDataHandler, hid, hg, ha]
        | some sid1 =>
          have h2 := applyVote_idem E sid sid1 v ha
          simp [propagateDataHandler, hid, hg, ha, getIdentityStorage_writeStorage_self, h2,
            writeStorage_writeStorage]
  · intro sid proposed d hash hid hsid hp hd hh hv hmem
    have ha : applyVote E sid v = some { sid with
        Proposed := some { proposed with
          Votes := mapSet proposed.Votes v.Signer v.Signature } } := by
      simp [applyVote, hd, hp, hh, hv]
    obtain ⟨s1, sid1, hs1, hsid1, hcase⟩ := propagateDataHandler_vote E s v sid proposed hsid hp
    rcases hcase with ⟨h0, _, _⟩ | ⟨_, h1, _⟩
    · exact absurd h0 hid
    · rw [ha] at h1
      cases h1
      exact ⟨s1, _, _, hs1, hsid1, rfl, mapLen_mapSet_of_mem _ _ _ hmem,
        mapGet_mapSet_self _ _ _, fun dev hne => mapGet_mapSet_ne _ _ _ _ hne⟩

/-- Witness of C9: `d1` votes again on the toy identity, with the same valid
signature, after `d1` and `d2` have voted. -/
theorem propagateDataHandler_vote_idempotent_witness :
    ((propagateDataHandler toyEnv (toyService [("d1", toySig 7), ("d2", toySig 8)])
          (.proposeVote ⟨toyID, "d1", toySig 7⟩)).bind
        fun s1 => propagateDataHandler toyEnv s1 (.proposeVote ⟨toyID, "d1", toySig 7⟩))
      = propagateDataHandler toyEnv (toyService [("d1", toySig 7), ("d2", toySig 8)])
          (.proposeVote ⟨toyID, "d1", toySig 7⟩) ∧
    ∃ s1 sid1 proposed1,
      propagateDataHandler toyEnv (toyService [("d1", toySig 7), ("d2", toySig 8)])
        (.proposeVote ⟨toyID, "d1", toySig 7⟩) = some s1 ∧
      getIdentityStorage s1 toyID = some sid1 ∧ sid1.Proposed = some proposed1 ∧
      mapLen proposed1.Votes = 2 ∧
      mapGet proposed1.Votes "d1" = some (toySig 7) ∧
      ∀ dev, dev ≠ "d1" →
        mapGet proposed1.Votes dev = mapGet [("d1", toySig 7), ("d2", toySig 8)] dev :=
  ⟨(propagateDataHandler_vote_idempotent toyEnv
      (toyService [("d1", toySig 7), ("d2", toySig 8)]) ⟨toyID, "d1", toySig 7⟩).1,
    (propagateDataHandler_vote_idempotent toyEnv
      (toyService [("d1", toySig 7), ("d2", toySig 8)]) ⟨toyID, "d1", toySig 7⟩).2
      (toyStorage [("d1", toySig 7), ("d2", toySig 8)])
      { toyProposed with Votes := [("d1", toySig 7), ("d2", toySig 8)] } ⟨7⟩ [2, 3, 1]
      (by decide) (by decide) rfl (by decide) (by decide) (by decide) (by decide)⟩

/-- Claim C10.  For a known identity and a `ProposeSend` message with its id,
the propagation handler sets `Proposed` to the `Propose` of the message,
whatever proposal and votes were pending, keeps `Latest`, the root block and
the data block of the identity, keeps every other identity and adds or removes
none. -/
theorem propagateDataHandler_proposeSend (E : Env) (s : Service) (p : ProposeSend)
    (sid : Storage) (hid : p.ID ≠ none) (hsid : getIdentityStorage s p.ID = some sid) :
    ∃ s1 sid1,
      propagateDataHandler E s (.proposeSend p) = some s1 ∧
      getIdentityStorage s1 p.ID = some sid1 ∧
      sid1.Proposed = p.Propose ∧ sid1.Latest = sid.Latest ∧
      sid1.SCRoot = sid.SCRoot ∧ sid1.SCData = sid.SCData ∧
      (∀ id1 : Bytes, id1.val ≠ p.ID.val →
        getIdentityStorage s1 id1 = getIdentityStorage s id1) ∧
      mapKeys s1.Identities = mapKeys s.Identities := by
  cases hp : p.ID with
  | none => exact absurd hp hid
  | some bytes =>
    have hsid1 : getIdentityStorage s (some bytes) = some sid := hp ▸ hsid
    refine ⟨writeStorage s (some bytes) { sid with Proposed := p.Propose },
      { sid with Proposed := p.Propose }, ?_, ?_, rfl, rfl, rfl, rfl, ?_, ?_⟩
    · simp [propagateDataHandler, hp, hsid1]
    · exact getIdentityStorage_writeStorage_self _ _ _
    · intro id1 hne
      exact getIdentityStorage_writeStorage_ne _ _ _ _ hne
    · have hmem : Bytes.val (some bytes) ∈ mapKeys s.Identities :=
        (mapGet_isSome_iff _ _).1 (by
          simp only [getIdentityStorage] at hsid1
          simp [hsid1])
      simp only [writeStorage, mapKeys_mapSet, hmem, if_true]

/-- Witness of C10: a new proposal for the toy identity while a proposal with
the vote of `d1` is pending. -/
theorem propagateDataHandler_proposeSend_witness :
    ∃ s1 sid1,
      propagateDataHandler toyEnv (toyService [("d1", toySig 7)])
        (.proposeSend ⟨toyID, some toyLatest⟩) = some s1 ∧
      getIdentityStorage s1 toyID = some sid1 ∧
      sid1.Proposed = some toyLatest ∧ sid1.Latest = (toyStorage [("d1", toySig 7)]).Latest ∧
      sid1.SCRoot = (toyStorage [("d1", toySig 7)]).SCRoot ∧
      sid1.SCData = (toyStorage [("d1", toySig 7)]).SCData ∧
      (∀ id1 : Bytes, id1.val ≠ toyID.val →
        getIdentityStorage s1 id1 = getIdentityStorage (toyService [("d1", toySig 7)]) id1) ∧
      mapKeys s1.Identities = mapKeys (toyService [("d1", toySig 7)]).Identities :=
  propagateDataHandler_proposeSend toyEnv (toyService [("d1", toySig 7)])
    ⟨toyID, some toyLatest⟩ (toyStorage [("d1", toySig 7)]) (by decide) (by decide)

/-! ## Committed blocks -/

/-- Claim C11.  For a known identity and an `UpdateSkipBlock` message: when the
payload of its block decodes to a data record, the skip-block propagation
handler sets `Latest` to that record, sets the data block of the identity to
the block of the message and clears `Proposed`, keeping the root block and
every other identity; when the payload does not decode to a data record, the
service is left as it was. -/
theorem propagateSkipBlockHandler_commit (s : Service) (usb : UpdateSkipBlock) (sid : Storage)
    (hsid : getIdentityStorage s usb.ID = some sid) :
    (∀ al, usb.Latest.Data = .data al →
      ∃ sid1, getIdentityStorage (propagateSkipBlockHandler s (.updateSkipBlock usb)) usb.ID
          = some sid1 ∧
        sid1.Latest = al ∧ sid1.SCData = usb.Latest ∧ sid1.Proposed = none ∧
        sid1.SCRoot = sid.SCRoot ∧
        ∀ id1 : Bytes, id1.val ≠ usb.ID.val →
          getIdentityStorage (propagateSkipBlockHandler s (.updateSkipBlock usb)) id1
            = getIdentityStorage s id1) ∧
    ((∀ al, usb.Latest.Data ≠ .data al) →
      propagateSkipBlockHandler s (.updateSkipBlock usb) = s) := by
  constructor
  · intro al hal
    have h : propagateSkipBlockHandler s (.updateSkipBlock usb)
        = writeStorage s usb.ID
            { sid with SCData := usb.Latest, Latest := al, Proposed := none } := by
      simp [propagateSkipBlockHandler, hsid, hal]
    rw [h]
    refine ⟨_, getIdentityStorage_writeStorage_self _ _ _, rfl, rfl, rfl, rfl, ?_⟩
    intro id1 hne
    exact getIdentityStorage_writeStorage_ne _ _ _ _ hne
  · intro hno
    cases hd : usb.Latest.Data with
    | undecodable => simp [propagateSkipBlockHandler, hsid, hd]
    | other => simp [propagateSkipBlockHandler, hsid, hd]
    | data al => exact absurd hd (hno al)

/-- Witness of C11: the block with the votes of `d1` and `d2` is committed to
the toy identity. -/
theorem propagateSkipBlockHandler_commit_witness :
    getIdentityStorage (toyService [("d1", toySig 7), ("d2", toySig 8)]) toyID
      = some (toyStorage [("d1", toySig 7), ("d2", toySig 8)]) ∧
    ∃ sid1, getIdentityStorage
        (propagateSkipBlockHandler (toyService [("d1", toySig 7), ("d2", toySig 8)])
          (.updateSkipBlock ⟨toyID, toyBlock [("d1", toySig 7), ("d2", toySig 8)]⟩)) toyID
          = some sid1 ∧
      sid1.Latest = { toyProposed with Votes := [("d1", toySig 7), ("d2", toySig 8)] } ∧
      sid1.SCData = toyBlock [("d1", toySig 7), ("d2", toySig 8)] ∧ sid1.Proposed = none :=
  ⟨by decide,
    ((propagateSkipBlockHandler_commit (toyService [("d1", toySig 7), ("d2", toySig 8)])
      ⟨toyID, toyBlock [("d1", toySig 7), ("d2", toySig 8)]⟩
      (toyStorage [("d1", toySig 7), ("d2", toySig 8)]) (by decide)).1
      { toyProposed with Votes := [("d1", toySig 7), ("d2", toySig 8)] } rfl).imp
      fun _ h => ⟨h.1, h.2.1, h.2.2.1, h.2.2.2.1⟩⟩

/-! ## The registry of keys -/

/-- Claim C17.  For a `PinRequest` with a PIN that is not empty: when the PIN
is in the set of pins, the reply is nil without error, the public key of the
request is appended to `adminKeys` and to `keys`, and the pins and all the rest
of the state stay as they were; when the PIN is not in the set, the reply is
the error `WrongPIN` and the state is unchanged. -/
theorem pinRequest_with_pin (st : ServiceState) (req : PinRequest) (rnd : Nat)
    (hpin : req.PIN ≠ "") :
    (mapGet st.auth.pins req.PIN ≠ none →
      (st.PinRequest req rnd).2 = .ok none ∧
      (st.PinRequest req rnd).1.auth.adminKeys = st.auth.adminKeys ++ [req.Public] ∧
      (st.PinRequest req rnd).1.auth.keys = st.auth.keys ++ [req.Public] ∧
      (st.PinRequest req rnd).1.auth.pins = st.auth.pins ∧
      (st.PinRequest req rnd).1.auth.sets = st.auth.sets ∧
      (st.PinRequest req rnd).1.auth.nonces = st.auth.nonces ∧
      (st.PinRequest req rnd).1.tagsLimits = st.tagsLimits ∧
      (st.PinRequest req rnd).1.pointsLimits = st.pointsLimits ∧
      (st.PinRequest req rnd).1.StorageMap = st.StorageMap) ∧
    (mapGet st.auth.pins req.PIN = none →
      st.PinRequest req rnd = (st, .error .ErrorWrongPIN)) := by
  constructor
  · intro h
    cases hg : mapGet st.auth.pins req.PIN with
    | none => exact absurd hg h
    | some u => simp [ServiceState.PinRequest, hpin, hg]
  · intro h
    simp [ServiceState.PinRequest, hpin, h]

/-- Witness of C17: the pin `123456` of the toy registry admits the key 6, and
stays. -/
theorem pinRequest_with_pin_witness :
    (toyState.PinRequest ⟨"123456", 6⟩ 0).2 = .ok none ∧
    (toyState.PinRequest ⟨"123456", 6⟩ 0).1.auth.adminKeys = [4, 6] ∧
    (toyState.PinRequest ⟨"123456", 6⟩ 0).1.auth.keys = [4, 5, 6] ∧
    (toyState.PinRequest ⟨"123456", 6⟩ 0).1.auth.pins = toyState.auth.pins ∧
    toyState.PinRequest ⟨"654321", 6⟩ 0 = (toyState, .error .ErrorWrongPIN) :=
  have h := pinRequest_with_pin toyState ⟨"123456", 6⟩ 0 (by decide)
  have h1 := h.1 (by decide)
  ⟨h1.1, h1.2.1, h1.2.2.1, h1.2.2.2.1,
    (pinRequest_with_pin toyState ⟨"654321", 6⟩ 0 (by decide)).2 (by decide)⟩

/-- With no admin key nothing is admitted. -/
theorem storeKeys_no_admin (F : FullEnv) (st : ServiceState) (req : StoreKeys)
    (hadmin : st.auth.adminKeys = []) :
    ∃ cerr, st.StoreKeys F req = (st, .error cerr) := by
  unfold ServiceState.StoreKeys
  cases canonicalMessage F req with
  | error cerr => exact ⟨cerr, rfl⟩
  | ok msg => exact ⟨.ErrorInvalidSignature, by simp [hadmin]⟩

/-- Admission changes neither the pins nor the admin keys nor the nonces. -/
theorem admitKeys_frame (auth : authData) (req : StoreKeys) :
    (admitKeys auth req).pins = auth.pins ∧
      (admitKeys auth req).adminKeys = auth.adminKeys ∧
      (admitKeys auth req).nonces = auth.nonces := by
  unfold admitKeys
  cases req.Type_ with
  | PoPAuth =>
    cases req.Final with
    | none => exact ⟨rfl, rfl, rfl⟩
    | some final => exact ⟨rfl, rfl, rfl⟩
  | PublicAuth => exact ⟨rfl, rfl, rfl⟩
  | unknown code => exact ⟨rfl, rfl, rfl⟩

/-- Claim C18.  Let a `StoreKeys` request be well formed, with `msg` its
canonical message: public keys, not none, that marshal to chunks whose hash is
`msg`, or a final statement that passes its own verification and whose hash is
`msg`.  The request is accepted (nil reply without error) exactly when its
signature verifies over `msg` under a stored admin key.  On acceptance the
registry gains the payload and nothing else: the keys are appended to `keys` in
the order of the request, or the attendees are appended to `sets` as one set.
On refusal the reply is the error `InvalidSignature` and the state is
unchanged.  With no admin key every request, well formed or not, gets an error
and leaves the state unchanged. -/
theorem storeKeys_admission (F : FullEnv) (st : ServiceState) (req : StoreKeys)
    (msg : List Nat)
    (hwf : (req.Type_ = .PublicAuth ∧ req.Publics ≠ [] ∧
          ∃ chunks, marshalPublics F req.Publics = some chunks ∧ msg = F.HashSum chunks) ∨
        (req.Type_ = .PoPAuth ∧
          ∃ final, req.Final = some final ∧ F.FinalVerify final = true ∧
            F.FinalHash final = some msg)) :
    ((st.StoreKeys F req).2 = .ok none ↔
      ∃ key ∈ st.auth.adminKeys, F.Verify key msg req.Sig = true) ∧
    ((∃ key ∈ st.auth.adminKeys, F.Verify key msg req.Sig = true) →
      (st.StoreKeys F req).1.StorageMap = st.StorageMap ∧
      (st.StoreKeys F req).1.tagsLimits = st.tagsLimits ∧
      (st.StoreKeys F req).1.pointsLimits = st.pointsLimits ∧
      (st.StoreKeys F req).1.auth.pins = st.auth.pins ∧
      (st.StoreKeys F req).1.auth.adminKeys = st.auth.adminKeys ∧
      (st.StoreKeys F req).1.auth.nonces = st.auth.nonces ∧
      (req.Type_ = .PublicAuth →
        (st.StoreKeys F req).1.auth.keys = st.auth.keys ++ req.Publics ∧
        (st.StoreKeys F req).1.auth.sets = st.auth.sets) ∧
      (∀ final, req.Type_ = .PoPAuth → req.Final = some final →
        (st.StoreKeys F req).1.auth.sets = st.auth.sets ++ [final.Attendees] ∧
        (st.StoreKeys F req).1.auth.keys = st.auth.keys)) ∧
    ((¬ ∃ key ∈ st.auth.adminKeys, F.Verify key msg req.Sig = true) →
      st.StoreKeys F req = (st, .error .ErrorInvalidSignature)) ∧
    (∀ (st1 : ServiceState) (req1 : StoreKeys), st1.auth.adminKeys = [] →
      ∃ cerr, st1.StoreKeys F req1 = (st1, .error cerr)) := by
  have hmsg : canonicalMessage F req = .ok msg := by
    rcases hwf with ⟨ht, hp, chunks, hm, hmsg⟩ | ⟨ht, final, hf, hv, hh⟩
    · simp [canonicalMessage, ht, hp, hm, hmsg]
    · simp [canonicalMessage, ht, hf, hv, hh]
  have hany : (st.auth.adminKeys.any fun key => F.Verify key msg req.Sig) = true ↔
      ∃ key ∈ st.auth.adminKeys, F.Verify key msg req.Sig = true := by
    simp [List.any_eq_true]
  refine ⟨?_, ?_, ?_, fun st1 req1 h => storeKeys_no_admin F st1 req1 h⟩
  · rw [← hany]
    by_cases hv : (st.auth.adminKeys.any fun key => F.Verify key msg req.Sig) = true
    · simp [ServiceState.StoreKeys, hmsg, hv]
    · simp [ServiceState.StoreKeys, hmsg, hv]
  · intro hex
    have hv := hany.2 hex
    have hrun : st.StoreKeys F req = ({ st with auth := admitKeys st.auth req }, .ok none) := by
      simp [ServiceState.StoreKeys, hmsg, hv]
    rw [hrun]
    refine ⟨rfl, rfl, rfl, (admitKeys_frame _ _).1, (admitKeys_frame _ _).2.1,
      (admitKeys_frame _ _).2.2, ?_, ?_⟩
    · intro ht
      simp [admitKeys, ht]
    · intro final ht hf
      simp [admitKeys, ht, hf]
  · intro hno
    have hv : ¬ (st.auth.adminKeys.any fun key => F.Verify key msg req.Sig) = true :=
      fun h => hno (hany.1 h)
    simp [ServiceState.StoreKeys, hmsg, hv]

/-- Witness of C18: the admin key 4 of the toy registry signs the keys 6 and
7, whose canonical message is `[6, 7]`. -/
theorem storeKeys_admission_witness :
    (toyState.StoreKeys toyFullEnv ⟨.PublicAuth, none, [6, 7], some [4, 6, 7]⟩).2 = .ok none ∧
    (toyState.StoreKeys toyFullEnv ⟨.PublicAuth, none, [6, 7], some [4, 6, 7]⟩).1.auth.keys
      = [4, 5, 6, 7] ∧
    toyState.StoreKeys toyFullEnv ⟨.PublicAuth, none, [6, 7], some [5, 6, 7]⟩
      = (toyState, .error .ErrorInvalidSignature) :=
  have hwf : ∀ sig : Bytes,
      ((⟨.PublicAuth, none, [6, 7], sig⟩ : StoreKeys).Type_ = .PublicAuth ∧
          (⟨.PublicAuth, none, [6, 7], sig⟩ : StoreKeys).Publics ≠ [] ∧
          ∃ chunks, marshalPublics toyFullEnv
              (⟨.PublicAuth, none, [6, 7], sig⟩ : StoreKeys).Publics = some chunks ∧
            [6, 7] = toyFullEnv.HashSum chunks) ∨
        ((⟨.PublicAuth, none, [6, 7], sig⟩ : StoreKeys).Type_ = .PoPAuth ∧
          ∃ final, (⟨.PublicAuth, none, [6, 7], sig⟩ : StoreKeys).Final = some final ∧
            toyFullEnv.FinalVerify final = true ∧ toyFullEnv.FinalHash final = some [6, 7]) :=
    fun _ => Or.inl ⟨rfl, List.cons_ne_nil _ _, [[6], [7]], rfl, rfl⟩
  have hyes := storeKeys_admission toyFullEnv toyState
    ⟨.PublicAuth, none, [6, 7], some [4, 6, 7]⟩ [6, 7] (hwf _)
  have hno := storeKeys_admission toyFullEnv toyState
    ⟨.PublicAuth, none, [6, 7], some [5, 6, 7]⟩ [6, 7] (hwf _)
  have hex : ∃ key ∈ toyState.auth.adminKeys,
      toyFullEnv.Verify key [6, 7] (some [4, 6, 7]) = true := ⟨4, by decide, by decide⟩
  ⟨hyes.1.2 hex, ((hyes.2.1 hex).2.2.2.2.2.2.1 rfl).1, hno.2.2.1 (by decide)⟩

/-! ## Stored identities -/

/-- The quota steps of the identity handler leave the identity map alone. -/
theorem chargeQuota_storageMap (st st1 : ServiceState) (pi : PropagateIdentity)
    (h : chargeQuota st pi = some st1) : st1.StorageMap = st.StorageMap := by
  unfold chargeQuota at h
  by_cases ht : pi.Tag ≠ ""
  · rw [if_pos ht] at h
    cases hq : lowerQuota st.tagsLimits pi.Tag with
    | none => simp [hq] at h
    | some limits =>
      simp only [hq, Option.some.injEq] at h
      subst h
      rfl
  · rw [if_neg ht] at h
    by_cases hp : pi.PubStr ≠ ""
    · rw [if_pos hp] at h
      cases hq : lowerQuota st.pointsLimits pi.PubStr with
      | none => simp [hq] at h
      | some limits =>
        simp only [hq, Option.some.injEq] at h
        subst h
        rfl
    · rw [if_neg hp] at h
      simp only [Option.some.injEq] at h
      subst h
      rfl

/-- Counterexample to C19 as stated: `setIdentityStorage`, given the id of the
toy identity, which exists, and another storage, puts that storage in the place
of the existing entry. -/
theorem setIdentityStorage_overwrites_counterexample :
    getIdentityStorage (toyService []) toyID = some (toyStorage []) ∧
    setIdentityStorage (toyService []) toyID (toyStorage [("d1", toySig 7)])
      = some (toyService [("d1", toySig 7)]) ∧
    getIdentityStorage (toyService [("d1", toySig 7)]) toyID
      = some (toyStorage [("d1", toySig 7)]) ∧
    toyStorage [("d1", toySig 7)] ≠ toyStorage [] := by
  decide

/-- Claim C19, amended.  For a `PropagateIdentity` message whose id, the hash
of its data block, is already a key of the identity map, the handler ends
without a panic and leaves the identity map as it was.  `setIdentityStorage`
itself makes no such check: for an id of at least eight bytes it stores the
entry it is given, whether the id exists or not. -/
theorem propagateIdentityHandler_existing (st : ServiceState) (pi : PropagateIdentity)
    (sid : Storage) (hsid : getIdentityStorage st.StorageMap pi.SCData.Hash = some sid) :
    (∃ st1, propagateIdentityHandler st pi = some st1 ∧ st1.StorageMap = st.StorageMap) ∧
    (∀ (s : Service) (id : Bytes) (is : Storage), 8 ≤ id.val.length →
      ∃ s1, setIdentityStorage s id is = some s1 ∧ getIdentityStorage s1 id = some is) := by
  constructor
  · unfold propagateIdentityHandler
    cases hq : chargeQuota st pi with
    | none => exact ⟨st, rfl, rfl⟩
    | some st1 =>
      have hmap := chargeQuota_storageMap st st1 pi hq
      refine ⟨st1, ?_, hmap⟩
      simp [hmap, hsid]
  · intro s id is hlen
    refine ⟨writeStorage s id is, ?_, getIdentityStorage_writeStorage_self _ _ _⟩
    have : ¬ id.val.length < 8 := by omega
    simp [setIdentityStorage, this]

/-- Witness of the amended C19: the toy identity is propagated again, with a
tag, to a service that holds it. -/
theorem propagateIdentityHandler_existing_witness :
    getIdentityStorage (toyService []) toyGenesis.Hash = some (toyStorage []) ∧
    ∃ st1, propagateIdentityHandler ⟨toyService [], [], [], toyAuth⟩
        ⟨some toyProposed, none, toyRoot, toyGenesis, toyName 2, ""⟩ = some st1 ∧
      st1.StorageMap = toyService [] :=
  ⟨by decide,
    (propagateIdentityHandler_existing ⟨toyService [], [], [], toyAuth⟩
      ⟨some toyProposed, none, toyRoot, toyGenesis, toyName 2, ""⟩ (toyStorage [])
      (by decide)).1⟩

/-! ## DataUpdate -/

/-- Claim C20.  `DataUpdate` for an unknown id replies with the error
`BlockMissing` and changes nothing.  For a known identity whose update chain is
fetched: with at most one block in the chain the identity map is unchanged and
the reply carries the current `Latest`; with more than one block, and a last
block whose payload decodes to a data record, `Latest` becomes that record, the
data block of the identity becomes that last block, the proposal and the root
block stay, and the reply carries the new `Latest`. -/
theorem dataUpdate_adopts_last_block (F : FullEnv) (s : Service) (cu : DataUpdate) :
    (getIdentityStorage s cu.ID = none →
      Service.DataUpdate F s cu = ⟨s, .error .ErrorBlockMissing, false⟩) ∧
    (∀ sid update, getIdentityStorage s cu.ID = some sid →
      F.GetUpdateChain sid.SCRoot.Roster sid.SCData.Hash = .ok update →
      (update.length ≤ 1 →
        Service.DataUpdate F s cu = ⟨s, .ok (some sid.Latest), false⟩) ∧
      (∀ last al, 1 < update.length → update.getLast? = some last → last.Data = .data al →
        (Service.DataUpdate F s cu).reply = .ok (some al) ∧
        ∃ sid1, getIdentityStorage (Service.DataUpdate F s cu).service cu.ID = some sid1 ∧
          sid1.Latest = al ∧ sid1.SCData = last ∧ sid1.Proposed = sid.Proposed ∧
          sid1.SCRoot = sid.SCRoot)) := by
  constructor
  · intro h
    simp [Service.DataUpdate, h]
  · intro sid update hsid hchain
    constructor
    · intro hlen
      have : ¬ update.length > 1 := by omega
      simp [Service.DataUpdate, hsid, hchain, this]
    · intro last al hlen hlast hdata
      have hrun : Service.DataUpdate F s cu
          = ⟨writeStorage s cu.ID { sid with SCData := last, Latest := al }, .ok (some al),
              false⟩ := by
        have : update.length > 1 := hlen
        simp [Service.DataUpdate, hsid, hchain, this, hlast, hdata]
      rw [hrun]
      exact ⟨rfl, _, getIdentityStorage_writeStorage_self _ _ _, rfl, rfl, rfl, rfl⟩

/-- Witness of C20: the toy identity learns of the block with the votes of
`d1` and `d2` that follows its genesis block. -/
theorem dataUpdate_adopts_last_block_witness :
    getIdentityStorage (toyService []) toyID = some (toyStorage []) ∧
    (Service.DataUpdate toyFullEnv (toyService []) ⟨toyID⟩).reply
      = .ok (some { toyProposed with Votes := [("d1", toySig 7), ("d2", toySig 8)] }) ∧
    ∃ sid1, getIdentityStorage (Service.DataUpdate toyFullEnv (toyService []) ⟨toyID⟩).service
        toyID = some sid1 ∧
      sid1.Latest = { toyProposed with Votes := [("d1", toySig 7), ("d2", toySig 8)] } ∧
      sid1.SCData = toyBlock [("d1", toySig 7), ("d2", toySig 8)] ∧
      sid1.Proposed = (toyStorage []).Proposed ∧ sid1.SCRoot = (toyStorage []).SCRoot :=
  have h := (dataUpdate_adopts_last_block toyFullEnv (toyService []) ⟨toyID⟩).2
    (toyStorage []) [toyGenesis, toyBlock [("d1", toySig 7), ("d2", toySig 8)]]
    (by decide) rfl
  have h1 := h.2 (toyBlock [("d1", toySig 7), ("d2", toySig 8)])
    { toyProposed with Votes := [("d1", toySig 7), ("d2", toySig 8)] } (by decide) rfl rfl
  ⟨by decide, h1.1, h1.2⟩

/-! ## Authentication of a request to create an identity -/

theorem mapGet_mapDelete_self {K V : Type} [DecidableEq K] (m : GoMap K V) (k : K) :
    mapGet (mapDelete m k) k = none := by
  induction m with
  | nil => rfl
  | cons kv m ih =>
    obtain ⟨k0, v0⟩ := kv
    by_cases hk : k0 = k
    · simpa [mapDelete, hk] using ih
    · have : mapDelete ((k0, v0) :: m) k = (k0, v0) :: mapDelete m k := by
        simp [mapDelete, hk]
      rw [this]
      simp [mapGet, hk, ih]

/-- The quota steps of the identity handler leave the registry alone. -/
theorem chargeQuota_auth (st st1 : ServiceState) (pi : PropagateIdentity)
    (h : chargeQuota st pi = some st1) : st1.auth = st.auth := by
  unfold chargeQuota at h
  by_cases ht : pi.Tag ≠ ""
  · rw [if_pos ht] at h
    cases hq : lowerQuota st.tagsLimits pi.Tag with
    | none => simp [hq] at h
    | some limits =>
      simp only [hq, Option.some.injEq] at h
      subst h
      rfl
  · rw [if_neg ht] at h
    by_cases hp : pi.PubStr ≠ ""
    · rw [if_pos hp] at h
      cases hq : lowerQuota st.pointsLimits pi.PubStr with
      | none => simp [hq] at h
      | some limits =>
        simp only [hq, Option.some.injEq] at h
        subst h
        rfl
    · rw [if_neg hp] at h
      simp only [Option.some.injEq] at h
      subst h
      rfl

/-- The identity handler leaves the registry alone, and the quota maps are
those left by its quota steps. -/
theorem propagateIdentityHandler_frame (st st1 : ServiceState) (pi : PropagateIdentity)
    (h : propagateIdentityHandler st pi = some st1) :
    st1.auth = st.auth ∧
      ((chargeQuota st pi = none ∧ st1 = st) ∨
        ∃ st0, chargeQuota st pi = some st0 ∧ st1.tagsLimits = st0.tagsLimits ∧
          st1.pointsLimits = st0.pointsLimits) := by
  unfold propagateIdentityHandler at h
  cases hq : chargeQuota st pi with
  | none =>
    simp only [hq, Option.some.injEq] at h
    subst h
    exact ⟨rfl, Or.inl ⟨rfl, rfl⟩⟩
  | some st0 =>
    have hauth := chargeQuota_auth st st0 pi hq
    simp only [hq] at h
    cases hg : getIdentityStorage st0.StorageMap pi.SCData.Hash with
    | some sid =>
      simp only [hg, Option.some.injEq] at h
      subst h
      exact ⟨hauth, Or.inr ⟨_, rfl, rfl, rfl⟩⟩
    | none =>
      simp only [hg] at h
      cases hl : pi.Latest with
      | none => simp [hl] at h
      | some latest =>
        simp only [hl] at h
        cases hs : setIdentityStorage st0.StorageMap pi.SCData.Hash
            ⟨latest, pi.Proposed, pi.SCRoot, pi.SCData⟩ with
        | none => simp [hs] at h
        | some identities =>
          simp only [hs, Option.some.injEq] at h
          subst h
          exact ⟨hauth, Or.inr ⟨_, rfl, rfl, rfl⟩⟩

/-- The creation of the chains, however it ends, leaves the registry alone. -/
theorem createChains_auth (F : FullEnv) (st : ServiceState) (ai : CreateIdentity)
    (tag pubStr : String) : (createChains F st ai tag pubStr).state.auth = st.auth := by
  unfold createChains
  split
  · rfl
  · split
    · rfl
    · simp only
      split_ifs
      · split
        · rfl
        · next st1 hh => exact (propagateIdentityHandler_frame st st1 _ hh).1
      · rfl

/-- Claim C14.  `CreateIdentity` with a nonce that is not in the set of
outstanding nonces replies with the error `Authentication` and changes
nothing.  When a request passes the authentication by ring signature with a
live nonce and its tag has quota left, the nonce is no longer outstanding
after the request, however the creation of the chains ends, and every later
request with the same nonce gets the error `Authentication`.  `Authenticate`
makes the nonce it issues outstanding. -/
theorem createIdentity_nonce_replay (F : FullEnv) :
    (∀ (st : ServiceState) (ai : CreateIdentity),
      mapGet st.auth.nonces ai.Nonce.val = none →
      st.CreateIdentity F ai = ⟨st, .error .ErrorAuthentication⟩) ∧
    (∀ (st : ServiceState) (ai : CreateIdentity) (tag : String),
      mapGet st.auth.nonces ai.Nonce.val ≠ none → ai.Type_ = .PoPAuth →
      popTag F ai st.auth.sets = some tag →
      (∀ n, mapGet st.tagsLimits tag = some n → 0 < n) →
      mapGet (st.CreateIdentity F ai).state.auth.nonces ai.Nonce.val = none ∧
      ∀ ai2 : CreateIdentity, ai2.Nonce.val = ai.Nonce.val →
        (st.CreateIdentity F ai).state.CreateIdentity F ai2
          = ⟨(st.CreateIdentity F ai).state, .error .ErrorAuthentication⟩) ∧
    (∀ (st : ServiceState) (nonce : List Nat),
      mapGet (st.Authenticate F nonce).1.auth.nonces nonce = some ()) := by
  have hmiss : ∀ (st : ServiceState) (ai : CreateIdentity),
      mapGet st.auth.nonces ai.Nonce.val = none →
      st.CreateIdentity F ai = ⟨st, .error .ErrorAuthentication⟩ := by
    intro st ai h
    simp [ServiceState.CreateIdentity, authenticate, h]
  refine ⟨hmiss, ?_, ?_⟩
  · intro st ai tag hlive hpop htag hquota
    have hgone : mapGet (st.CreateIdentity F ai).state.auth.nonces ai.Nonce.val = none := by
      cases hn : mapGet st.auth.nonces ai.Nonce.val with
      | none => exact absurd hn hlive
      | some u =>
        cases hl : mapGet st.tagsLimits tag with
        | none =>
          simp only [ServiceState.CreateIdentity, authenticate, hn, hpop, popAuth, htag, hl,
            createChains_auth]
          exact mapGet_mapDelete_self _ _
        | some n =>
          have hpos : ¬ n ≤ 0 := by
            have := hquota n hl
            omega
          simp only [ServiceState.CreateIdentity, authenticate, hn, hpop, popAuth, htag, hl,
            hpos, if_false, createChains_auth]
          exact mapGet_mapDelete_self _ _
    refine ⟨hgone, ?_⟩
    intro ai2 h2
    exact hmiss _ ai2 (by rw [h2]; exact hgone)
  · intro st nonce
    simp [ServiceState.Authenticate, mapGet_mapSet_self]

/-- Witness of C14: the toy request by ring signature on the nonce `[1]`, and
the same request once more. -/
theorem createIdentity_nonce_replay_witness :
    mapGet toyState.auth.nonces (toyPopRequest [1]).Nonce.val ≠ none ∧
    popTag toyFullEnv (toyPopRequest [1]) toyState.auth.sets = some (toyName 2) ∧
    mapGet (toyState.CreateIdentity toyFullEnv (toyPopRequest [1])).state.auth.nonces
      (toyPopRequest [1]).Nonce.val = none ∧
    ((toyState.CreateIdentity toyFullEnv (toyPopRequest [1])).state.CreateIdentity toyFullEnv
        (toyPopRequest [1])).reply = .error .ErrorAuthentication :=
  have h := (createIdentity_nonce_replay toyFullEnv).2.1 toyState (toyPopRequest [1])
    (toyName 2) (by decide) rfl (by decide) (by decide)
  ⟨by decide, by decide, h.1, by rw [h.2 (toyPopRequest [1]) rfl]⟩

/-- The authentication by public key keeps the registry, nonces included. -/
theorem publicAuth_passed_auth (F : FullEnv) (st st1 : ServiceState) (ai : CreateIdentity)
    (tag pubStr : String) (h : publicAuth F st ai = .passed st1 tag pubStr) :
    st1.auth = st.auth := by
  have hq : ∀ valid p, publicQuota st valid p = .passed st1 tag pubStr → st1.auth = st.auth := by
    intro valid p hp
    unfold publicQuota at hp
    cases hg : mapGet st.pointsLimits p with
    | none =>
      simp only [hg] at hp
      split_ifs at hp
      cases hp
      rfl
    | some n =>
      simp only [hg] at hp
      split_ifs at hp
      cases hp
      rfl
  unfold publicAuth at h
  split at h
  · exact hq _ _ h
  · cases h
  · split at h
    · exact hq _ _ h
    · exact hq _ _ h

/-- Claim C15, as the code runs it.  The toy request authenticated by the
stored key 5 with a Schnorr signature on the nonce `[1]` is accepted, the nonce
`[1]` is still outstanding afterwards, and the same request is accepted once
more.  Under any collaborators, a request that passes the authentication by
public key leaves the registry, the set of nonces included, as it was. -/
theorem createIdentity_public_nonce_stays :
    (∃ blocks, (toyState.CreateIdentity toyFullEnv (toyPublicRequest [1])).reply
      = .ok (some blocks)) ∧
    mapGet (toyState.CreateIdentity toyFullEnv (toyPublicRequest [1])).state.auth.nonces [1]
      = some () ∧
    (∃ blocks, ((toyState.CreateIdentity toyFullEnv (toyPublicRequest [1])).state.CreateIdentity
      toyFullEnv (toyPublicRequest [1])).reply = .ok (some blocks)) ∧
    (∀ (F : FullEnv) (st st1 : ServiceState) (ai : CreateIdentity) (tag pubStr : String),
      ai.Type_ = .PublicAuth → authenticate F st ai = .passed st1 tag pubStr →
      st1.auth = st.auth) := by
  refine ⟨⟨_, rfl⟩, by decide, ⟨_, rfl⟩, ?_⟩
  intro F st st1 ai tag pubStr ht h
  unfold authenticate at h
  cases hn : mapGet st.auth.nonces ai.Nonce.val with
  | none => simp [hn] at h
  | some u =>
    simp only [hn, ht] at h
    exact publicAuth_passed_auth F st st1 ai tag pubStr h

/-- The ways in which the authentication refuses a request: always with the
error `Authentication`, and with the state as it was, but for a request by
public key that no key verifies while `pointsLimits` has no counter for the
empty string: that counter is then set to the default. -/
theorem authenticate_refused (F : FullEnv) (st st1 : ServiceState) (ai : CreateIdentity)
    (cerr : ClientError) (h : authenticate F st ai = .refused st1 cerr) :
    cerr = .ErrorAuthentication ∧
      (st1 = st ∨
        (ai.Type_ = .PublicAuth ∧ mapGet st.pointsLimits "" = none ∧
          st1 = { st with
            pointsLimits := mapSet st.pointsLimits "" defaultNumberSkipchains })) := by
  have hq : ∀ valid p, publicQuota st valid p = .refused st1 cerr →
      cerr = .ErrorAuthentication ∧
        (st1 = st ∨ (valid = false ∧ mapGet st.pointsLimits p = none ∧
          st1 = { st with
            pointsLimits := mapSet st.pointsLimits p defaultNumberSkipchains })) := by
    intro valid p hp
    unfold publicQuota at hp
    cases hg : mapGet st.pointsLimits p with
    | none =>
      simp only [hg] at hp
      split_ifs at hp with hv
      cases hp
      refine ⟨rfl, Or.inr ⟨?_, rfl, rfl⟩⟩
      simpa using hv
    | some n =>
      simp only [hg] at hp
      split_ifs at hp <;> cases hp <;> exact ⟨rfl, Or.inl rfl⟩
  unfold authenticate at h
  cases hn : mapGet st.auth.nonces ai.Nonce.val with
  | none =>
    simp only [hn] at h
    cases h
    exact ⟨rfl, Or.inl rfl⟩
  | some u =>
    simp only [hn] at h
    cases ht : ai.Type_ with
    | PoPAuth =>
      simp only [ht, popAuth] at h
      split at h
      · cases h
        exact ⟨rfl, Or.inl rfl⟩
      · split at h
        · cases h
        · split_ifs at h
          cases h
          exact ⟨rfl, Or.inl rfl⟩
    | PublicAuth =>
      simp only [ht, publicAuth] at h
      split at h
      · obtain ⟨h1, h2⟩ := hq _ _ h
        refine ⟨h1, ?_⟩
        rcases h2 with h2 | ⟨_, h3, h4⟩
        · exact Or.inl h2
        · exact Or.inr ⟨rfl, h3, h4⟩
      · cases h
      · split at h
        · obtain ⟨h1, h2⟩ := hq _ _ h
          refine ⟨h1, ?_⟩
          rcases h2 with h2 | ⟨h3, _, _⟩
          · exact Or.inl h2
          · cases h3
        · obtain ⟨h1, h2⟩ := hq _ _ h
          refine ⟨h1, ?_⟩
          rcases h2 with h2 | ⟨_, h3, h4⟩
          · exact Or.inl h2
          · exact Or.inr ⟨rfl, h3, h4⟩
    | unknown code =>
      simp only [ht] at h
      cases h
      exact ⟨rfl, Or.inl rfl⟩

/-- Claim C16, as the code runs it.  The toy request by public key with a live
nonce and a signature that no stored key verifies is answered with the error
`Authentication`, and `pointsLimits`, empty before, holds the counter 5 for
the empty string after it.  Under any collaborators this is the one way in
which a request refused by the authentication changes the state. -/
theorem createIdentity_refused_changes_quota :
    (toyState.CreateIdentity toyFullEnv toyBadPublicRequest).reply
      = .error .ErrorAuthentication ∧
    toyState.pointsLimits = [] ∧
    (toyState.CreateIdentity toyFullEnv toyBadPublicRequest).state.pointsLimits = [("", 5)] ∧
    (∀ (F : FullEnv) (st st1 : ServiceState) (ai : CreateIdentity) (cerr : ClientError),
      authenticate F st ai = .refused st1 cerr →
      cerr = .ErrorAuthentication ∧
        (st1 = st ∨
          (ai.Type_ = .PublicAuth ∧ mapGet st.pointsLimits "" = none ∧
            st1 = { st with
              pointsLimits := mapSet st.pointsLimits "" defaultNumberSkipchains }))) :=
  ⟨by decide, rfl, by decide, authenticate_refused⟩

/-! ## Votes of devices only -/

theorem getIdentityStorage_writeStorage_val (s : Service) (id id1 : Bytes) (sid : Storage)
    (h : id1.val = id.val) : getIdentityStorage (writeStorage s id sid) id1 = some sid := by
  simp [getIdentityStorage, writeStorage, h, mapGet_mapSet_self]

theorem serviceInv_writeStorage (s : Service) (id : Bytes) (sid : Storage)
    (hinv : ServiceInv s) (hsid : VotesOfDevices sid) : ServiceInv (writeStorage s id sid) := by
  intro id1 sid1 h1
  by_cases hk : id1.val = id.val
  · rw [getIdentityStorage_writeStorage_val _ _ _ _ hk] at h1
    cases h1
    exact hsid
  · rw [getIdentityStorage_writeStorage_ne _ _ _ _ hk] at h1
    exact hinv id1 sid1 h1

theorem applyVote_votesOfDevices (E : Env) (sid sid1 : Storage) (v : ProposeVote)
    (hinv : VotesOfDevices sid) (h : applyVote E sid v = some sid1) : VotesOfDevices sid1 := by
  rcases applyVote_cases E sid sid1 v h with h1 | ⟨d, p, hash, hd, hp, _, _, h1⟩
  · subst h1
    exact hinv
  · subst h1
    intro proposed hprop dev hdev
    simp only [Option.some.injEq] at hprop
    subst hprop
    simp only [mapKeys_mapSet] at hdev
    have hsigner : v.Signer ∈ mapKeys sid.Latest.Device :=
      (mapGet_isSome_iff _ _).1 (by simp [hd])
    split_ifs at hdev
    · exact hinv p hp dev hdev
    · rcases List.mem_append.1 hdev with h2 | h2
      · exact hinv p hp dev h2
      · simp only [List.mem_singleton] at h2
        rw [h2]
        exact hsigner

theorem propagateDataHandler_vote_inv (E : Env) (s s1 : Service) (v : ProposeVote)
    (hinv : ServiceInv s) (h : propagateDataHandler E s (.proposeVote v) = some s1) :
    ServiceInv s1 := by
  unfold propagateDataHandler at h
  cases hid : v.ID with
  | none =>
    simp only [hid, Option.some.injEq] at h
    subst h
    exact hinv
  | some bytes =>
    simp only [hid] at h
    cases hg : getIdentityStorage s (some bytes) with
    | none =>
      simp only [hg, Option.some.injEq] at h
      subst h
      exact hinv
    | some sid =>
      simp only [hg] at h
      cases ha : applyVote E sid v with
      | none => simp [ha] at h
      | some sid1 =>
        simp only [ha, Option.some.injEq] at h
        subst h
        exact serviceInv_writeStorage _ _ _ hinv
          (applyVote_votesOfDevices E sid sid1 v (hinv _ _ hg) ha)

theorem propagateDataHandler_send_inv (E : Env) (s s1 : Service) (p : ProposeSend)
    (hinv : ServiceInv s)
    (hvotes : ∀ sid proposed, getIdentityStorage s p.ID = some sid → p.Propose = some proposed →
      ∀ dev ∈ mapKeys proposed.Votes, dev ∈ mapKeys sid.Latest.Device)
    (h : propagateDataHandler E s (.proposeSend p) = some s1) : ServiceInv s1 := by
  unfold propagateDataHandler at h
  cases hid : p.ID with
  | none =>
    simp only [hid, Option.some.injEq] at h
    subst h
    exact hinv
  | some bytes =>
    simp only [hid] at h
    cases hg : getIdentityStorage s (some bytes) with
    | none =>
      simp only [hg, Option.some.injEq] at h
      subst h
      exact hinv
    | some sid =>
      simp only [hg, Option.some.injEq] at h
      subst h
      apply serviceInv_writeStorage _ _ _ hinv
      intro proposed hprop dev hdev
      exact hvotes sid proposed (by rw [hid]; exact hg) hprop dev hdev

theorem propagateSkipBlockHandler_inv (s : Service) (msg : Message) (hinv : ServiceInv s) :
    ServiceInv (propagateSkipBlockHandler s msg) := by
  unfold propagateSkipBlockHandler
  split
  · split
    · exact hinv
    · split
      · exact hinv
      · exact hinv
      · apply serviceInv_writeStorage _ _ _ hinv
        intro proposed hprop
        cases hprop
  · exact hinv

theorem propagateIdentityHandler_inv (st st1 : ServiceState) (pi : PropagateIdentity)
    (hinv : ServiceInv st.StorageMap)
    (hvotes : ∀ latest proposed, pi.Latest = some latest → pi.Proposed = some proposed →
      ∀ dev ∈ mapKeys proposed.Votes, dev ∈ mapKeys latest.Device)
    (h : propagateIdentityHandler st pi = some st1) : ServiceInv st1.StorageMap := by
  unfold propagateIdentityHandler at h
  cases hq : chargeQuota st pi with
  | none =>
    simp only [hq, Option.some.injEq] at h
    subst h
    exact hinv
  | some st0 =>
    have hmap := chargeQuota_storageMap st st0 pi hq
    simp only [hq] at h
    cases hg : getIdentityStorage st0.StorageMap pi.SCData.Hash with
    | some sid =>
      simp only [hg, Option.some.injEq] at h
      subst h
      rw [hmap]
      exact hinv
    | none =>
      simp only [hg] at h
      cases hl : pi.Latest with
      | none => simp [hl] at h
      | some latest =>
        simp only [hl, setIdentityStorage] at h
        split_ifs at h
        simp only [Option.some.injEq] at h
        subst h
        simp only
        rw [hmap]
        apply serviceInv_writeStorage _ _ _ hinv
        intro proposed hprop dev hdev
        exact hvotes latest proposed hl hprop dev hdev

theorem dataUpdate_inv (F : FullEnv) (s : Service) (cu : DataUpdate) (hinv : ServiceInv s)
    (hnil : (Service.DataUpdate F s cu).latestNil = false)
    (hvotes : ∀ sid proposed update last al, getIdentityStorage s cu.ID = some sid →
      sid.Proposed = some proposed →
      F.GetUpdateChain sid.SCRoot.Roster sid.SCData.Hash = .ok update →
      1 < update.length → update.getLast? = some last → last.Data = .data al →
      ∀ dev ∈ mapKeys proposed.Votes, dev ∈ mapKeys al.Device) :
    ServiceInv (Service.DataUpdate F s cu).service := by
  cases hg : getIdentityStorage s cu.ID with
  | none =>
    simp only [Service.DataUpdate, hg]
    exact hinv
  | some sid =>
    cases hf : F.GetUpdateChain sid.SCRoot.Roster sid.SCData.Hash with
    | error cerr =>
      simp only [Service.DataUpdate, hg, hf]
      exact hinv
    | ok update =>
      by_cases hlen : update.length > 1
      · cases hlast : update.getLast? with
        | none =>
          simp only [Service.DataUpdate, hg, hf, hlen, if_true, hlast]
          exact hinv
        | some last =>
          cases hd : last.Data with
          | undecodable =>
            simp only [Service.DataUpdate, hg, hf, hlen, if_true, hlast, hd]
            apply serviceInv_writeStorage _ _ _ hinv
            intro proposed hprop dev hdev
            exact hinv cu.ID sid hg proposed hprop dev hdev
          | other =>
            simp [Service.DataUpdate, hg, hf, hlen, hlast, hd] at hnil
          | data al =>
            simp only [Service.DataUpdate, hg, hf, hlen, if_true, hlast, hd]
            apply serviceInv_writeStorage _ _ _ hinv
            intro proposed hprop dev hdev
            exact hvotes sid proposed update last al hg hprop hf hlen hlast hd dev hdev
      · simp only [Service.DataUpdate, hg, hf, hlen, if_false]
        exact hinv

theorem commitProposal_inv (E : Env) (s1 : Service) (sid1 : Storage) (proposed : Data)
    (v : ProposeVote) (hinv : ServiceInv s1) :
    ServiceInv (commitProposal E s1 sid1 proposed v).service := by
  unfold commitProposal
  simp only
  split
  · exact hinv
  · split
    · split_ifs
      · split
        · exact propagateSkipBlockHandler_inv _ _ hinv
        · exact propagateSkipBlockHandler_inv _ _ hinv
      · exact hinv
    · exact hinv

theorem proposeVote_inv (E : Env) (s : Service) (v : ProposeVote) (hinv : ServiceInv s) :
    ServiceInv (Service.ProposeVote E s v).service := by
  unfold Service.ProposeVote
  split
  · exact hinv
  · split
    · exact hinv
    · split_ifs
      · split
        · exact hinv
        · next s1 hs1 =>
          have hinv1 := propagateDataHandler_vote_inv E s s1 v hinv hs1
          split
          · exact hinv1
          · split
            · exact hinv1
            · split_ifs
              · exact commitProposal_inv E s1 _ _ v hinv1
              · exact hinv1
      · exact hinv

/-- Counterexample to C12 as stated, on two runs that start with the creation
of the toy identity.  In the first, a `ProposeSend` whose proposal carries a
vote of `d4`, which is no device, is stored as it is.  In the second, a
proposal without votes is sent, `d3` votes, and `DataUpdate` then adopts a
block whose data has the devices `d1` and `d2` only, while the proposal with
the vote of `d3` stays.  Either run ends in a state with a vote of a name that
is no device of `Latest`. -/
theorem votes_of_devices_counterexample :
    propagateIdentityHandler toyState ⟨some toyLatest, none, toyRoot, toyGenesis, "", ""⟩
      = some ⟨toyCreated, [], [], toyAuth⟩ ∧
    (propagateDataHandler toyEnv toyCreated
        (.proposeSend ⟨toyID, some { toyProposed with Votes := [("d4", some [0])] }⟩)
      = some (toyService [("d4", some [0])]) ∧
      ¬ ServiceInv (toyService [("d4", some [0])])) ∧
    (propagateDataHandler toyEnv toyCreated (.proposeSend ⟨toyID, some toyProposed⟩)
      = some (toyService []) ∧
      propagateDataHandler toyEnv (toyService []) (.proposeVote ⟨toyID, "d3", toySig 9⟩)
        = some (toyService [("d3", toySig 9)]) ∧
      (Service.DataUpdate toyShrinkEnv (toyService [("d3", toySig 9)]) ⟨toyID⟩).reply
        = .ok (some toyTwoDevices) ∧
      ¬ ServiceInv (Service.DataUpdate toyShrinkEnv (toyService [("d3", toySig 9)])
        ⟨toyID⟩).service) := by
  refine ⟨by decide, ⟨by decide, ?_⟩, by decide, by decide, by decide, ?_⟩
  · intro hinv
    have h := hinv toyID (toyStorage [("d4", some [0])]) (by decide)
      { toyProposed with Votes := [("d4", some [0])] } rfl "d4" (by decide)
    revert h
    decide
  · intro hinv
    have h := hinv toyID
      ⟨toyTwoDevices, some { toyProposed with Votes := [("d3", toySig 9)] }, toyRoot,
        ⟨1, .data toyTwoDevices, [toyGenesis.Hash], [1, 2, 3],
          some [0, 1, 2, 3, 4, 5, 6, 7, 8]⟩⟩ (by decide)
      { toyProposed with Votes := [("d3", toySig 9)] } rfl "d3" (by decide)
    revert h
    decide

/-- Claim C12, amended.  In every state that the service reaches from the
empty identity map through the propagation of identities and of proposals
whose votes, if any, are votes of devices of `Latest`, of votes and of
skipblocks, through `ProposeVote`, and through `DataUpdate`, unless it ends in
the failed type assertion that sets `Latest` to nil, and provided that the data
it adopts while a proposal is pending has every device name in the votes of the
proposal among its devices, every identity has no proposal, or every device
name in the votes of its proposal is a device name of its `Latest`. -/
theorem reachable_votes_of_devices (F : FullEnv) (s : Service) (h : Reachable F s) :
    ∀ id sid, getIdentityStorage s id = some sid →
      sid.Proposed = none ∨
        ∃ proposed, sid.Proposed = some proposed ∧
          ∀ dev ∈ mapKeys proposed.Votes, dev ∈ mapKeys sid.Latest.Device := by
  have hinv : ServiceInv s := by
    induction h with
    | init =>
      intro id sid hsid
      simp [getIdentityStorage, mapGet] at hsid
    | identity st st1 pi _ hvotes hrun ih =>
      exact propagateIdentityHandler_inv st st1 pi ih hvotes hrun
    | proposeSend s s1 p _ hvotes hrun ih =>
      exact propagateDataHandler_send_inv F.toEnv s s1 p ih hvotes hrun
    | proposeVote s s1 v _ hrun ih => exact propagateDataHandler_vote_inv F.toEnv s s1 v ih hrun
    | updateSkipBlock s msg _ ih => exact propagateSkipBlockHandler_inv s msg ih
    | vote s v _ ih => exact proposeVote_inv F.toEnv s v ih
    | dataUpdate s cu _ hnil hvotes ih => exact dataUpdate_inv F s cu ih hnil hvotes
  intro id sid hsid
  cases hp : sid.Proposed with
  | none => exact Or.inl rfl
  | some proposed => exact Or.inr ⟨proposed, rfl, hinv id sid hsid proposed hp⟩

/-- The toy identity with the votes of `d1` and `d2` is reached: creation, a
proposal without votes, and the two votes. -/
theorem toyService_reachable :
    Reachable toyFullEnv (toyService [("d1", toySig 7), ("d2", toySig 8)]) := by
  have h0 : Reachable toyFullEnv toyCreated :=
    Reachable.identity toyState ⟨toyCreated, [], [], toyAuth⟩
      ⟨some toyLatest, none, toyRoot, toyGenesis, "", ""⟩ Reachable.init
      (by
        intro latest proposed _ hp
        cases hp)
      (by decide)
  have h1 : Reachable toyFullEnv (toyService []) :=
    Reachable.proposeSend toyCreated (toyService []) ⟨toyID, some toyProposed⟩ h0
      (by
        intro sid proposed _ hp dev hdev
        cases hp
        simp [toyProposed, mapKeys] at hdev)
      (by decide)
  have h2 : Reachable toyFullEnv (toyService [("d1", toySig 7)]) :=
    Reachable.proposeVote (toyService []) _ ⟨toyID, "d1", toySig 7⟩ h1 (by decide)
  exact Reachable.proposeVote (toyService [("d1", toySig 7)]) _ ⟨toyID, "d2", toySig 8⟩ h2
    (by decide)

/-- A `DataUpdate` under a pending proposal stays within the reached states when
the adopted data keeps the voters as devices: the toy identity with the votes
of `d1` and `d2` adopts the block that carries the proposal. -/
theorem toyUpdated_reachable :
    Reachable toyFullEnv
      (Service.DataUpdate toyFullEnv (toyService [("d1", toySig 7), ("d2", toySig 8)])
        ⟨toyID⟩).service := by
  refine Reachable.dataUpdate _ ⟨toyID⟩ toyService_reachable (by decide) ?_
  intro sid proposed update last al hsid hp hfetch _ hlast hdata dev hdev
  have h1 : getIdentityStorage (toyService [("d1", toySig 7), ("d2", toySig 8)]) toyID
      = some (toyStorage [("d1", toySig 7), ("d2", toySig 8)]) := by decide
  have hs : sid = toyStorage [("d1", toySig 7), ("d2", toySig 8)] := by
    have h2 : getIdentityStorage (toyService [("d1", toySig 7), ("d2", toySig 8)])
        (⟨toyID⟩ : DataUpdate).ID = some sid := hsid
    rw [show (⟨toyID⟩ : DataUpdate).ID = toyID from rfl, h1] at h2
    exact (Option.some.inj h2).symm
  subst hs
  have hp1 : proposed = { toyProposed with Votes := [("d1", toySig 7), ("d2", toySig 8)] } :=
    (Option.some.inj hp).symm
  subst hp1
  have hu : update = [toyGenesis, toyBlock [("d1", toySig 7), ("d2", toySig 8)]] := by
    have h3 : toyFullEnv.GetUpdateChain
        (toyStorage [("d1", toySig 7), ("d2", toySig 8)]).SCRoot.Roster
        (toyStorage [("d1", toySig 7), ("d2", toySig 8)]).SCData.Hash
        = .ok [toyGenesis, toyBlock [("d1", toySig 7), ("d2", toySig 8)]] := rfl
    rw [h3] at hfetch
    exact (Except.ok.inj hfetch).symm
  subst hu
  have hl : last = toyBlock [("d1", toySig 7), ("d2", toySig 8)] := by
    simp at hlast
    exact hlast.symm
  subst hl
  have ha : al = { toyProposed with Votes := [("d1", toySig 7), ("d2", toySig 8)] } := by
    have h4 : (toyBlock [("d1", toySig 7), ("d2", toySig 8)]).Data
        = .data { toyProposed with Votes := [("d1", toySig 7), ("d2", toySig 8)] } := rfl
    rw [h4] at hdata
    exact (Payload.data.inj hdata).symm
  subst ha
  revert dev
  decide

/-- Witness of the amended C12: the toy identity after the votes of `d1` and
`d2` and a `DataUpdate` that adopts the block with the proposal while the
proposal is still pending. -/
theorem reachable_votes_of_devices_witness :
    getIdentityStorage
      (Service.DataUpdate toyFullEnv (toyService [("d1", toySig 7), ("d2", toySig 8)])
        ⟨toyID⟩).service toyID
      = some ⟨{ toyProposed with Votes := [("d1", toySig 7), ("d2", toySig 8)] },
          some { toyProposed with Votes := [("d1", toySig 7), ("d2", toySig 8)] }, toyRoot,
          toyBlock [("d1", toySig 7), ("d2", toySig 8)]⟩ ∧
    ∃ proposed,
      some { toyProposed with Votes := [("d1", toySig 7), ("d2", toySig 8)] } = some proposed ∧
      ∀ dev ∈ mapKeys proposed.Votes, dev ∈ mapKeys toyProposed.Device :=
  ⟨by decide,
    (reachable_votes_of_devices toyFullEnv _ toyUpdated_reachable toyID
      ⟨{ toyProposed with Votes := [("d1", toySig 7), ("d2", toySig 8)] },
        some { toyProposed with Votes := [("d1", toySig 7), ("d2", toySig 8)] }, toyRoot,
        toyBlock [("d1", toySig 7), ("d2", toySig 8)]⟩ (by decide)).resolve_left
      (by decide)⟩

/-! ## Quota of a credential -/

theorem int8Dec_of_pos (n : Int) (hpos : 0 < n) (hle : n ≤ 127) : int8Dec n = n - 1 := by
  unfold int8Dec
  omega

/-- The quota step on a counter that is positive: the counter is one less. -/
theorem lowerQuota_get (limits : GoMap String Int) (key : String) (n : Int)
    (h : mapGet limits key = some n) (hpos : 0 < n) (hle : n ≤ 127) :
    ∃ l, lowerQuota limits key = some l ∧ mapGet l key = some (n - 1) := by
  have hn : ¬ n ≤ 0 := by omega
  refine ⟨decrement limits key, by simp [lowerQuota, h, hn], ?_⟩
  simp [decrement, h, mapGet_mapSet_self, int8Dec_of_pos n hpos hle]

/-- The identity handler lowers the positive counter of the credential of the
message by one. -/
theorem propagateIdentityHandler_quota (st1 st2 : ServiceState) (pi : PropagateIdentity)
    (type : AuthType) (cred : String) (n : Int) (hne : cred ≠ "")
    (hpair : credPair type cred pi.Tag pi.PubStr)
    (hq : quota st1 type cred = some n) (hpos : 0 < n) (hle : n ≤ 127)
    (h : propagateIdentityHandler st1 pi = some st2) :
    quota st2 type cred = some (n - 1) := by
  obtain ⟨_, hframe⟩ := propagateIdentityHandler_frame st1 st2 pi h
  rcases hpair with ⟨ht, htag, _⟩ | ⟨ht, htag, hpub⟩
  · subst ht
    simp only [quota] at hq ⊢
    have htne : pi.Tag ≠ "" := by rw [htag]; exact hne
    obtain ⟨l, hl, hget⟩ := lowerQuota_get st1.tagsLimits cred n hq hpos hle
    have hcharge : chargeQuota st1 pi = some { st1 with tagsLimits := l } := by
      unfold chargeQuota
      rw [if_pos htne, htag, hl]
    rcases hframe with ⟨hnone, _⟩ | ⟨st0, hsome, hlim, _⟩
    · rw [hcharge] at hnone
      cases hnone
    · rw [hcharge] at hsome
      cases hsome
      rw [hlim]
      exact hget
  · subst ht
    simp only [quota] at hq ⊢
    have htne : ¬ pi.Tag ≠ "" := by rw [htag]; simp
    have hpne : pi.PubStr ≠ "" := by rw [hpub]; exact hne
    obtain ⟨l, hl, hget⟩ := lowerQuota_get st1.pointsLimits cred n hq hpos hle
    have hcharge : chargeQuota st1 pi = some { st1 with pointsLimits := l } := by
      unfold chargeQuota
      rw [if_neg htne, if_pos hpne, hpub, hl]
    rcases hframe with ⟨hnone, _⟩ | ⟨st0, hsome, _, hlim⟩
    · rw [hcharge] at hnone
      cases hnone
    · rw [hcharge] at hsome
      cases hsome
      rw [hlim]
      exact hget

/-- An accepted creation of chains has run the identity handler. -/
theorem createChains_ok (F : FullEnv) (st : ServiceState) (ai : CreateIdentity)
    (tag pubStr : String) (blocks : Option (SkipBlock × SkipBlock))
    (h : (createChains F st ai tag pubStr).reply = .ok blocks) :
    ∃ root data st2,
      propagateIdentityHandler st ⟨ai.Data, none, root, data, tag, pubStr⟩ = some st2 ∧
      (createChains F st ai tag pubStr).state = st2 := by
  cases hroot : F.CreateGenesisSignature ai.Roster false none none with
  | error cerr => simp [createChains, hroot] at h
  | ok root =>
    cases hdata : F.CreateGenesisSignature root.Roster true ai.Data root.Hash with
    | error cerr => simp [createChains, hroot, hdata] at h
    | ok data =>
      by_cases hp : F.PropagateIdentityOK ⟨ai.Data, none, root, data, tag, pubStr⟩ = true
      · cases hh : propagateIdentityHandler st ⟨ai.Data, none, root, data, tag, pubStr⟩ with
        | none => simp [createChains, hroot, hdata, hp, hh] at h
        | some st2 =>
          exact ⟨root, data, st2, hh, by simp [createChains, hroot, hdata, hp, hh]⟩
      · simp [createChains, hroot, hdata, hp] at h

/-- The key that verifies a signature is one of a list of keys that is not
empty. -/
theorem publicKey_ne_nil (F : FullEnv) (ai : CreateIdentity) (sig : Bytes) (keys : List Point)
    (k : Point) (h : publicKey F ai sig keys = some k) : keys ≠ [] := by
  intro hk
  subst hk
  simp [publicKey] at h

/-- The authentication of a request with a live nonce and a credential: it is
refused, with the state as it was, when the counter of the credential exists
and is not positive; else it is passed on with the credential, the counter set
to the default if it was missing, and the identity map, the attendee sets and
the keys as they were. -/
theorem authenticate_credential (F : FullEnv) (st : ServiceState) (ai : CreateIdentity)
    (cred : String) (u : Unit) (hn : mapGet st.auth.nonces ai.Nonce.val = some u)
    (hcred : credential F st.auth ai = some cred) :
    (∀ n, quota st ai.Type_ cred = some n → n ≤ 0 →
      authenticate F st ai = .refused st .ErrorAuthentication) ∧
    ((∀ n, quota st ai.Type_ cred = some n → 0 < n) →
      ∃ st1 tag pubStr, authenticate F st ai = .passed st1 tag pubStr ∧
        credPair ai.Type_ cred tag pubStr ∧
        quota st1 ai.Type_ cred = some ((quota st ai.Type_ cred).getD 5) ∧
        st1.auth.sets = st.auth.sets ∧ st1.auth.keys = st.auth.keys ∧
        st1.StorageMap = st.StorageMap) := by
  unfold credential at hcred
  cases ht : ai.Type_ with
  | PoPAuth =>
    simp only [ht] at hcred
    simp only [quota]
    constructor
    · intro n hq hle
      simp [authenticate, hn, ht, popAuth, hcred, hq, hle]
    · intro hpos
      cases hq : mapGet st.tagsLimits cred with
      | none =>
        refine ⟨dropNonce { st with
            tagsLimits := mapSet st.tagsLimits cred defaultNumberSkipchains } ai, cred, "",
          by simp [authenticate, hn, ht, popAuth, hcred, hq],
          Or.inl ⟨rfl, rfl, rfl⟩, ?_, rfl, rfl, rfl⟩
        simp [dropNonce, mapGet_mapSet_self, defaultNumberSkipchains]
      | some n =>
        have hnpos : ¬ n ≤ 0 := by
          have := hpos n hq
          omega
        refine ⟨dropNonce st ai, cred, "",
          by simp [authenticate, hn, ht, popAuth, hcred, hq, hnpos],
          Or.inl ⟨rfl, rfl, rfl⟩, ?_, rfl, rfl, rfl⟩
        simp [dropNonce, hq]
  | PublicAuth =>
    simp only [ht] at hcred
    simp only [quota]
    cases hs : ai.SchnSig with
    | none => simp [hs] at hcred
    | some sig =>
      simp only [hs, Option.map_eq_some'] at hcred
      obtain ⟨k, hk, hstr⟩ := hcred
      have hkeys := publicKey_ne_nil F ai sig st.auth.keys k hk
      have hauth : authenticate F st ai = publicQuota st true cred := by
        simp only [authenticate, hn, ht, publicAuth]
        cases hkl : st.auth.keys with
        | nil => exact absurd hkl hkeys
        | cons k0 rest =>
          rw [hkl] at hk
          simp only [hs, hk, hstr]
      rw [hauth]
      constructor
      · intro n hq hle
        simp [publicQuota, hq, hle]
      · intro hpos
        cases hq : mapGet st.pointsLimits cred with
        | none =>
          refine ⟨{ st with
              pointsLimits := mapSet st.pointsLimits cred defaultNumberSkipchains }, "", cred,
            by simp [publicQuota, hq], Or.inr ⟨rfl, rfl, rfl⟩, ?_, rfl, rfl, rfl⟩
          simp [mapGet_mapSet_self, defaultNumberSkipchains]
        | some n =>
          have hnpos : ¬ n ≤ 0 := by
            have := hpos n hq
            omega
          refine ⟨st, "", cred, by simp [publicQuota, hq, hnpos], Or.inr ⟨rfl, rfl, rfl⟩, ?_,
            rfl, rfl, rfl⟩
          simp [hq]
  | unknown code => simp [ht] at hcred

/-- The credential of a request depends on the attendee sets and the keys of
the registry only. -/
theorem credential_congr (F : FullEnv) (auth auth1 : authData) (ai : CreateIdentity)
    (hsets : auth1.sets = auth.sets) (hkeys : auth1.keys = auth.keys) :
    credential F auth1 ai = credential F auth ai := by
  simp [credential, hsets, hkeys]

/-- An accepted `CreateIdentity` for a credential found quota left, and leaves
the counter of the credential one below what it found (5 for a missing
counter), with the attendee sets and the keys as they were. -/
theorem createIdentity_accepted_quota (F : FullEnv) (st : ServiceState) (ai : CreateIdentity)
    (cred : String) (blocks : Option (SkipBlock × SkipBlock)) (hne : cred ≠ "")
    (hcred : credential F st.auth ai = some cred)
    (hrange : ∀ n, quota st ai.Type_ cred = some n → n ≤ 5)
    (hok : (st.CreateIdentity F ai).reply = .ok blocks) :
    0 < (quota st ai.Type_ cred).getD 5 ∧
      quota (st.CreateIdentity F ai).state ai.Type_ cred
        = some ((quota st ai.Type_ cred).getD 5 - 1) ∧
      (st.CreateIdentity F ai).state.auth.sets = st.auth.sets ∧
      (st.CreateIdentity F ai).state.auth.keys = st.auth.keys := by
  cases hn : mapGet st.auth.nonces ai.Nonce.val with
  | none => simp [ServiceState.CreateIdentity, authenticate, hn] at hok
  | some u =>
    obtain ⟨hrefuse, hpass⟩ := authenticate_credential F st ai cred u hn hcred
    have hpos : ∀ n, quota st ai.Type_ cred = some n → 0 < n := by
      intro n hq
      by_contra hle
      have hr := hrefuse n hq (by omega)
      simp [ServiceState.CreateIdentity, hr] at hok
    obtain ⟨st1, tag, pubStr, hauth, hpair, hq1, hsets, hkeys, _⟩ := hpass hpos
    have hrun : st.CreateIdentity F ai = createChains F st1 ai tag pubStr := by
      simp [ServiceState.CreateIdentity, hauth]
    rw [hrun] at hok ⊢
    obtain ⟨root, data, st2, hh, hst2⟩ := createChains_ok F st1 ai tag pubStr blocks hok
    have hq0 : 0 < (quota st ai.Type_ cred).getD 5 ∧ (quota st ai.Type_ cred).getD 5 ≤ 127 := by
      cases hq : quota st ai.Type_ cred with
      | none => simp
      | some n =>
        have h1 := hpos n hq
        have h2 := hrange n hq
        simp only [Option.getD_some]
        omega
    have hq2 := propagateIdentityHandler_quota st1 st2 ⟨ai.Data, none, root, data, tag, pubStr⟩
      ai.Type_ cred _ hne hpair hq1 hq0.1 hq0.2 hh
    have hauth2 := (propagateIdentityHandler_frame st1 st2 _ hh).1
    rw [hst2]
    exact ⟨hq0.1, hq2, by rw [hauth2, hsets], by rw [hauth2, hkeys]⟩

/-- A run of accepted creations for one credential: there are at most as many
as the quota found at the start, and the counter ends that many lower. -/
theorem createAll_quota (F : FullEnv) (type : AuthType) (cred : String) (hne : cred ≠ "")
    (reqs : List CreateIdentity) :
    ∀ st : ServiceState,
      (∀ ai ∈ reqs, ai.Type_ = type ∧ credential F st.auth ai = some cred) →
      (∀ n, quota st type cred = some n → n ≤ 5) →
      (∀ r ∈ (createAll F st reqs).2, ∃ blocks, r = .ok blocks) →
      (reqs ≠ [] →
        (reqs.length : Int) ≤ (quota st type cred).getD 5 ∧
        quota (createAll F st reqs).1 type cred
          = some ((quota st type cred).getD 5 - reqs.length)) ∧
        (reqs = [] → (createAll F st reqs).1 = st) ∧
        (createAll F st reqs).1.auth.sets = st.auth.sets ∧
        (createAll F st reqs).1.auth.keys = st.auth.keys := by
  induction reqs with
  | nil =>
    intro st _ _ _
    exact ⟨fun h => absurd rfl h, fun _ => rfl, rfl, rfl⟩
  | cons ai rest ih =>
    intro st hreqs hrange hok
    obtain ⟨htype, hcred⟩ := hreqs ai (List.mem_cons_self _ _)
    obtain ⟨blocks, hhead⟩ := hok (st.CreateIdentity F ai).reply (by simp [createAll])
    subst htype
    obtain ⟨hpos, hq1, hsets, hkeys⟩ :=
      createIdentity_accepted_quota F st ai cred blocks hne hcred hrange hhead
    have hq5 : (quota st ai.Type_ cred).getD 5 ≤ 5 := by
      cases hq : quota st ai.Type_ cred with
      | none => simp
      | some n => simpa using hrange n hq
    have hreqs1 : ∀ ai1 ∈ rest, ai1.Type_ = ai.Type_ ∧
        credential F (st.CreateIdentity F ai).state.auth ai1 = some cred := by
      intro ai1 hmem
      obtain ⟨h1, h2⟩ := hreqs ai1 (List.mem_cons_of_mem _ hmem)
      exact ⟨h1, by rw [credential_congr F st.auth _ ai1 hsets hkeys]; exact h2⟩
    have hrange1 : ∀ n, quota (st.CreateIdentity F ai).state ai.Type_ cred = some n → n ≤ 5 := by
      intro n hn
      rw [hq1] at hn
      cases hn
      omega
    have hok1 : ∀ r ∈ (createAll F (st.CreateIdentity F ai).state rest).2,
        ∃ blocks, r = .ok blocks := by
      intro r hr
      exact hok r (by simp [createAll, hr])
    obtain ⟨ih1, ih2, ih3, ih4⟩ := ih (st.CreateIdentity F ai).state hreqs1 hrange1 hok1
    have hfinal : (createAll F st (ai :: rest)).1
        = (createAll F (st.CreateIdentity F ai).state rest).1 := by
      simp [createAll]
    rw [hfinal]
    refine ⟨?_, fun h => absurd h (List.cons_ne_nil _ _), by rw [ih3, hsets], by rw [ih4, hkeys]⟩
    intro _
    cases hrest : rest with
    | nil =>
      subst hrest
      rw [ih2 rfl, hq1]
      simp only [List.length_singleton, Nat.cast_one]
      exact ⟨by omega, trivial⟩
    | cons ai2 rest2 =>
      have hne1 : rest ≠ [] := by rw [hrest]; exact List.cons_ne_nil _ _
      obtain ⟨hlen, hquota⟩ := ih1 hne1
      rw [hq1] at hlen hquota
      simp only [Option.getD_some] at hlen hquota
      rw [← hrest, hquota]
      simp only [List.length_cons, Nat.cast_add, Nat.cast_one]
      exact ⟨by omega, by congr 1; omega⟩

/-- The authentication lowers no counter: a counter that it touches was
missing and is set to the default. -/
theorem authenticate_passed_limits (F : FullEnv) (st0 st1 : ServiceState)
    (ai : CreateIdentity) (tag pubStr : String)
    (h : authenticate F st0 ai = .passed st1 tag pubStr) (key : String) :
    (mapGet st1.tagsLimits key = mapGet st0.tagsLimits key ∨
      (mapGet st0.tagsLimits key = none ∧
        mapGet st1.tagsLimits key = some defaultNumberSkipchains)) ∧
    (mapGet st1.pointsLimits key = mapGet st0.pointsLimits key ∨
      (mapGet st0.pointsLimits key = none ∧
        mapGet st1.pointsLimits key = some defaultNumberSkipchains)) := by
  have hset : ∀ (limits : GoMap String Int) (k : String), mapGet limits k = none →
      (mapGet (mapSet limits k defaultNumberSkipchains) key = mapGet limits key ∨
        (mapGet limits key = none ∧
          mapGet (mapSet limits k defaultNumberSkipchains) key
            = some defaultNumberSkipchains)) := by
    intro limits k hk
    by_cases hkey : key = k
    · subst hkey
      exact Or.inr ⟨hk, mapGet_mapSet_self _ _ _⟩
    · exact Or.inl (mapGet_mapSet_ne _ _ _ _ hkey)
  have hq : ∀ valid p, publicQuota st0 valid p = .passed st1 tag pubStr →
      (mapGet st1.tagsLimits key = mapGet st0.tagsLimits key ∨
        (mapGet st0.tagsLimits key = none ∧
          mapGet st1.tagsLimits key = some defaultNumberSkipchains)) ∧
      (mapGet st1.pointsLimits key = mapGet st0.pointsLimits key ∨
        (mapGet st0.pointsLimits key = none ∧
          mapGet st1.pointsLimits key = some defaultNumberSkipchains)) := by
    intro valid p hp
    unfold publicQuota at hp
    cases hg : mapGet st0.pointsLimits p with
    | none =>
      simp only [hg] at hp
      split_ifs at hp
      cases hp
      exact ⟨Or.inl rfl, hset _ _ hg⟩
    | some n =>
      simp only [hg] at hp
      split_ifs at hp
      cases hp
      exact ⟨Or.inl rfl, Or.inl rfl⟩
  unfold authenticate at h
  cases hn : mapGet st0.auth.nonces ai.Nonce.val with
  | none => simp [hn] at h
  | some u =>
    simp only [hn] at h
    cases ht : ai.Type_ with
    | PoPAuth =>
      simp only [ht, popAuth] at h
      split at h
      · cases h
      · next t _ =>
        cases hg : mapGet st0.tagsLimits t with
        | none =>
          simp only [hg] at h
          cases h
          exact ⟨hset _ _ hg, Or.inl rfl⟩
        | some n =>
          simp only [hg] at h
          split_ifs at h
          cases h
          exact ⟨Or.inl rfl, Or.inl rfl⟩
    | PublicAuth =>
      simp only [ht, publicAuth] at h
      split at h
      · exact hq _ _ h
      · cases h
      · split at h
        · exact hq _ _ h
        · exact hq _ _ h
    | unknown code => simp [ht] at h

/-- Claim C13.  Start from a state in which a credential, the tag of a ring
signature or the string of a public key, has no counter, and run requests to
create an identity that all authenticate with that credential and are all
accepted.  Then there are at most five of them; after the k-th the counter of
the credential is 5 - k; while fewer than five have run, a further request
with the credential and a live nonce passes the quota check; after five, every
further request with the credential gets the error `Authentication` and
changes nothing.  The authentication part of `CreateIdentity` itself lowers no
counter (it sets a missing one to 5); the decrement is in the propagation
handler. -/
theorem quota_exhaustion (F : FullEnv) (st : ServiceState) (type : AuthType) (cred : String)
    (reqs : List CreateIdentity) (hne : cred ≠ "") (hfresh : quota st type cred = none)
    (hreqs : ∀ ai ∈ reqs, ai.Type_ = type ∧ credential F st.auth ai = some cred)
    (hok : ∀ r ∈ (createAll F st reqs).2, ∃ blocks, r = .ok blocks) :
    reqs.length ≤ 5 ∧
    (reqs ≠ [] →
      quota (createAll F st reqs).1 type cred = some ((5 : Int) - reqs.length)) ∧
    (reqs.length < 5 → ∀ ai : CreateIdentity, ai.Type_ = type →
      credential F st.auth ai = some cred →
      mapGet (createAll F st reqs).1.auth.nonces ai.Nonce.val ≠ none →
      ∃ st1 tag pubStr, authenticate F (createAll F st reqs).1 ai = .passed st1 tag pubStr) ∧
    (reqs.length = 5 → ∀ ai : CreateIdentity, ai.Type_ = type →
      credential F st.auth ai = some cred →
      (createAll F st reqs).1.CreateIdentity F ai
        = ⟨(createAll F st reqs).1, .error .ErrorAuthentication⟩) ∧
    (∀ (st0 st1 : ServiceState) (ai : CreateIdentity) (tag pubStr : String),
      authenticate F st0 ai = .passed st1 tag pubStr → ∀ key : String,
      (mapGet st1.tagsLimits key = mapGet st0.tagsLimits key ∨
        (mapGet st0.tagsLimits key = none ∧
          mapGet st1.tagsLimits key = some defaultNumberSkipchains)) ∧
      (mapGet st1.pointsLimits key = mapGet st0.pointsLimits key ∨
        (mapGet st0.pointsLimits key = none ∧
          mapGet st1.pointsLimits key = some defaultNumberSkipchains))) := by
  obtain ⟨hrun, hnil, hsets, hkeys⟩ := createAll_quota F type cred hne reqs st hreqs
    (by intro n hn; rw [hfresh] at hn; cases hn) hok
  simp only [hfresh, Option.getD_none] at hrun
  have hcredf : ∀ ai : CreateIdentity, credential F st.auth ai = some cred →
      credential F (createAll F st reqs).1.auth ai = some cred := by
    intro ai h
    rw [credential_congr F st.auth _ ai hsets hkeys]
    exact h
  refine ⟨?_, fun h => (hrun h).2, ?_, ?_, authenticate_passed_limits F⟩
  · by_cases hr : reqs = []
    · subst hr
      simp
    · have := (hrun hr).1
      omega
  · intro hlen ai htype hcred hlive
    cases hn : mapGet (createAll F st reqs).1.auth.nonces ai.Nonce.val with
    | none => exact absurd hn hlive
    | some u =>
      obtain ⟨_, hpass⟩ := authenticate_credential F _ ai cred u hn (hcredf ai hcred)
      have hpos : ∀ n, quota (createAll F st reqs).1 ai.Type_ cred = some n → 0 < n := by
        intro n hq
        rw [htype] at hq
        by_cases hr : reqs = []
        · rw [hnil hr, hfresh] at hq
          cases hq
        · rw [(hrun hr).2] at hq
          cases hq
          omega
      obtain ⟨st1, tag, pubStr, hauth, _⟩ := hpass hpos
      exact ⟨st1, tag, pubStr, hauth⟩
  · intro hlen ai htype hcred
    have hr : reqs ≠ [] := by
      intro h
      subst h
      simp at hlen
    have hq : quota (createAll F st reqs).1 ai.Type_ cred = some 0 := by
      rw [htype, (hrun hr).2, hlen]
      rfl
    cases hn : mapGet (createAll F st reqs).1.auth.nonces ai.Nonce.val with
    | none => simp [ServiceState.CreateIdentity, authenticate, hn]
    | some u =>
      obtain ⟨hrefuse, _⟩ := authenticate_credential F _ ai cred u hn (hcredf ai hcred)
      simp [ServiceState.CreateIdentity, hrefuse 0 hq (le_refl 0)]

/-- Witness of C13: five requests by the stored key 5 on the toy state, and a
sixth. -/
theorem quota_exhaustion_witness :
    quota toyState .PublicAuth (toyName 5) = none ∧
    quota (createAll toyFullEnv toyState (List.replicate 5 (toyPublicRequest [1]))).1
      .PublicAuth (toyName 5) = some 0 ∧
    (createAll toyFullEnv toyState (List.replicate 5 (toyPublicRequest [1]))).1.CreateIdentity
        toyFullEnv (toyPublicRequest [1])
      = ⟨(createAll toyFullEnv toyState (List.replicate 5 (toyPublicRequest [1]))).1,
          .error .ErrorAuthentication⟩ :=
  have h := quota_exhaustion toyFullEnv toyState .PublicAuth (toyName 5)
    (List.replicate 5 (toyPublicRequest [1])) (by decide) (by decide)
    (by
      intro ai hai
      rw [List.eq_of_mem_replicate hai]
      exact ⟨rfl, by decide⟩)
    (by
      have hreplies : (createAll toyFullEnv toyState
          (List.replicate 5 (toyPublicRequest [1]))).2
          = List.replicate 5 (.ok (some
              (⟨0, .other, [], [1, 2, 3], some [0, 0, 3, 4, 5, 6, 7, 8]⟩,
                ⟨0, .data toyLatest, [], [1, 2, 3], some [1, 8, 3, 4, 5, 6, 7, 8]⟩))) := by
        decide
      intro r hr
      rw [hreplies] at hr
      exact ⟨_, List.eq_of_mem_replicate hr⟩)
  ⟨by decide, h.2.1 (by decide), h.2.2.2.1 (by decide) (toyPublicRequest [1]) rfl (by decide)⟩

/-! ## Failed updates -/

/-- Claim C21, as the code runs it.  On the toy identity, with an update chain
of two blocks whose last block has a payload that does not decode, `DataUpdate`
replies with the error `DataMissing`, yet the data block of the identity is the
last block of the chain afterwards, not the genesis block it was; with a
payload that decodes to another message, `Latest` is set to nil as well.  Under
any collaborators, an error of the fetch leaves the service as it was, and a
chain of more than one block whose last block does not decode to a data record
gives the error `DataMissing` and leaves the last block as the data block of
the identity. -/
theorem dataUpdate_error_replaces_block :
    getIdentityStorage (toyService []) toyID = some (toyStorage []) ∧
    (toyStorage []).SCData = toyGenesis ∧
    Service.DataUpdate (toyChainEnv .undecodable) (toyService []) ⟨toyID⟩
      = ⟨⟨[([1, 2, 3, 4, 5, 6, 7, 8],
            { toyStorage [] with SCData := toyNextBlock .undecodable })]⟩,
          .error .ErrorDataMissing, false⟩ ∧
    toyNextBlock .undecodable ≠ toyGenesis ∧
    Service.DataUpdate (toyChainEnv .other) (toyService []) ⟨toyID⟩
      = ⟨⟨[([1, 2, 3, 4, 5, 6, 7, 8], { toyStorage [] with SCData := toyNextBlock .other })]⟩,
          .error .ErrorDataMissing, true⟩ ∧
    (∀ (F : FullEnv) (s : Service) (cu : DataUpdate) (sid : Storage) (cerr : ClientError),
      getIdentityStorage s cu.ID = some sid →
      F.GetUpdateChain sid.SCRoot.Roster sid.SCData.Hash = .error cerr →
      Service.DataUpdate F s cu = ⟨s, .error cerr, false⟩) ∧
    (∀ (F : FullEnv) (s : Service) (cu : DataUpdate) (sid : Storage) (update : List SkipBlock)
        (last : SkipBlock),
      getIdentityStorage s cu.ID = some sid →
      F.GetUpdateChain sid.SCRoot.Roster sid.SCData.Hash = .ok update →
      1 < update.length → update.getLast? = some last → (∀ al, last.Data ≠ .data al) →
      (Service.DataUpdate F s cu).reply = .error .ErrorDataMissing ∧
      getIdentityStorage (Service.DataUpdate F s cu).service cu.ID
        = some { sid with SCData := last }) := by
  refine ⟨by decide, rfl, by decide, by decide, by decide, ?_, ?_⟩
  · intro F s cu sid cerr hsid hfetch
    simp [Service.DataUpdate, hsid, hfetch]
  · intro F s cu sid update last hsid hfetch hlen hlast hdata
    have hgt : update.length > 1 := hlen
    cases hd : last.Data with
    | undecodable =>
      simp [Service.DataUpdate, hsid, hfetch, hgt, hlast, hd,
        getIdentityStorage_writeStorage_self]
    | other =>
      simp [Service.DataUpdate, hsid, hfetch, hgt, hlast, hd,
        getIdentityStorage_writeStorage_self]
    | data al => exact absurd hd (hdata al)

/-! ## Degenerate device sets and thresholds -/

/-- No vote counts against data without devices. -/
theorem validCount_no_device (E : Env) (prevData : Data) (hash : List Nat)
    (votes : GoMap String Bytes) (hdev : prevData.Device = []) :
    validCount E prevData hash votes = 0 := by
  unfold validCount
  rw [List.countP_eq_zero]
  intro vote _
  simp [validVote, hdev, mapGet]

/-- The tag of a request does not depend on its data. -/
theorem popTag_data (F : FullEnv) (ai : CreateIdentity) (d : Option Data)
    (sets : List (List Point)) : popTag F { ai with Data := d } sets = popTag F ai sets := by
  induction sets with
  | nil => rfl
  | cons set rest ih => simp only [popTag, ih]

/-- The key of a request does not depend on its data. -/
theorem publicKey_data (F : FullEnv) (ai : CreateIdentity) (d : Option Data) (sig : Bytes)
    (keys : List Point) :
    publicKey F { ai with Data := d } sig keys = publicKey F ai sig keys := by
  induction keys with
  | nil => rfl
  | cons k rest ih => simp only [publicKey, ih]

/-- Claim C24.  For a block that is no genesis block, whose payload decodes to
a data record with a hash and whose predecessor resolves to a data record that
has no device or a threshold of 0 or less, `VerifyBlock` returns true whatever
the votes of the block are, none at all included.  `CreateIdentity` makes no
check of the threshold either: its authentication does not look at the data of
the request, and the toy request with data that has no device and threshold 0
is accepted and stored. -/
theorem verifyBlock_degenerate (E : Env) (s : Service) (sb : SkipBlock)
    (newData prevData : Data) (h : List Nat) (link : Bytes) (links : List Bytes)
    (latest : SkipBlock)
    (hd : sb.Data = .data newData) (hh : E.Hash newData = some h)
    (hl : sb.BackLinkIDs = link :: links)
    (hlat : latestBlock E s sb link = .ok (some latest)) (hprev : latest.Data = .data prevData)
    (hdeg : prevData.Device = [] ∨ prevData.Threshold ≤ 0) :
    VerifyBlock E s sb = some true ∧
    (∀ (F : FullEnv) (st : ServiceState) (ai : CreateIdentity) (d : Option Data),
      authenticate F st { ai with Data := d } = authenticate F st ai) ∧
    (∃ blocks,
      (toyState.CreateIdentity toyFullEnv
        { toyPopRequest [1] with Data := some toyNoDevice }).reply = .ok (some blocks)) ∧
    (getIdentityStorage
        (toyState.CreateIdentity toyFullEnv
          { toyPopRequest [1] with Data := some toyNoDevice }).state.StorageMap
        (some [1, 8, 3, 4, 5, 6, 7, 8])).map (fun sid => sid.Latest) = some toyNoDevice := by
  refine ⟨?_, ?_, ⟨_, rfl⟩, by decide⟩
  · by_cases h0 : sb.Index = 0
    · simp [VerifyBlock, h0]
    · simp only [VerifyBlock, h0, if_false, hd, hh, hl, hlat, hprev, countSignatures_eq]
      have hc : (validCount E prevData h newData.Votes : Int) ≥ prevData.Threshold ∨
          validCount E prevData h newData.Votes = mapLen prevData.Device := by
        rcases hdeg with hdev | hthr
        · right
          rw [validCount_no_device E prevData h newData.Votes hdev, hdev]
          rfl
        · left
          have : (0 : Int) ≤ (validCount E prevData h newData.Votes : Int) :=
            Int.ofNat_nonneg _
          omega
      simp [hc]
  · intro F st ai d
    simp only [authenticate, popAuth, publicAuth, popTag_data, publicKey_data, dropNonce]

/-- Witness of C24: an identity whose accepted data has no device and
threshold 0, and the block with the toy proposal and no vote that follows its
genesis block. -/
theorem verifyBlock_degenerate_witness :
    (toyBlock []).Index ≠ 0 ∧
    (toyNoDevice.Device = [] ∨ toyNoDevice.Threshold ≤ 0) ∧
    VerifyBlock toyEnv (toyIdentityOf toyNoDevice) (toyBlock []) = some true :=
  ⟨by decide, Or.inl rfl,
    (verifyBlock_degenerate toyEnv (toyIdentityOf toyNoDevice) (toyBlock [])
      { toyProposed with Votes := [] } toyNoDevice [2, 3, 1] (some [1, 2, 3, 4, 5, 6, 7, 8]) []
      ⟨0, .data toyNoDevice, [], [1, 2, 3], some [1, 2, 3, 4, 5, 6, 7, 8]⟩ rfl rfl rfl rfl rfl
      (Or.inl rfl)).1⟩

/-! ## Votes leave the other identities alone -/

theorem propagateDataHandler_vote_frame (E : Env) (s s1 : Service) (v : ProposeVote)
    (id1 : Bytes) (hne : id1.val ≠ v.ID.val)
    (h : propagateDataHandler E s (.proposeVote v) = some s1) :
    getIdentityStorage s1 id1 = getIdentityStorage s id1 := by
  unfold propagateDataHandler at h
  cases hid : v.ID with
  | none =>
    simp only [hid, Option.some.injEq] at h
    subst h
    rfl
  | some bytes =>
    simp only [hid] at h
    cases hg : getIdentityStorage s (some bytes) with
    | none =>
      simp only [hg, Option.some.injEq] at h
      subst h
      rfl
    | some sid =>
      simp only [hg] at h
      cases ha : applyVote E sid v with
      | none => simp [ha] at h
      | some sid1 =>
        simp only [ha, Option.some.injEq] at h
        subst h
        rw [hid] at hne
        exact getIdentityStorage_writeStorage_ne _ _ _ _ hne

theorem propagateSkipBlockHandler_frame (s : Service) (usb : UpdateSkipBlock) (id1 : Bytes)
    (hne : id1.val ≠ usb.ID.val) :
    getIdentityStorage (propagateSkipBlockHandler s (.updateSkipBlock usb)) id1
      = getIdentityStorage s id1 := by
  unfold propagateSkipBlockHandler
  simp only
  split
  · rfl
  · split
    · rfl
    · rfl
    · exact getIdentityStorage_writeStorage_ne _ _ _ _ hne

theorem commitProposal_frame (E : Env) (s1 : Service) (sid1 : Storage) (proposed : Data)
    (v : ProposeVote) (id1 : Bytes) (hne : id1.val ≠ v.ID.val) :
    getIdentityStorage (commitProposal E s1 sid1 proposed v).service id1
      = getIdentityStorage s1 id1 := by
  unfold commitProposal
  simp only
  split
  · rfl
  · split
    · split_ifs
      · split
        · exact propagateSkipBlockHandler_frame s1 ⟨v.ID, _⟩ id1 hne
        · exact propagateSkipBlockHandler_frame s1 ⟨v.ID, _⟩ id1 hne
      · rfl
    · rfl

/-- A run of `ProposeVote` leaves every identity but the one of the request as
it was. -/
theorem proposeVote_frame (E : Env) (s : Service) (v : ProposeVote) (id1 : Bytes)
    (hne : id1.val ≠ v.ID.val) :
    getIdentityStorage (Service.ProposeVote E s v).service id1 = getIdentityStorage s id1 := by
  unfold Service.ProposeVote
  split
  · rfl
  · split
    · rfl
    · split_ifs
      · split
        · rfl
        · next s1 hs1 =>
          have h1 := propagateDataHandler_vote_frame E s s1 v id1 hne hs1
          split
          · exact h1
          · split
            · exact h1
            · split_ifs
              · rw [commitProposal_frame E s1 _ _ v id1 hne]
                exact h1
              · exact h1
      · rfl

/-- A vote for an identity without devices is refused before anything
happens. -/
theorem proposeVote_no_device (E : Env) (s : Service) (v : ProposeVote) (sid : Storage)
    (hsid : getIdentityStorage s v.ID = some sid) (hdev : sid.Latest.Device = []) :
    Service.ProposeVote E s v = ⟨s, .error .ErrorAccountMissing, [], []⟩ := by
  simp [Service.ProposeVote, hsid, checkVote, hdev, mapGet]

/-- Claim C22.  Let an identity have no device in its `Latest`.  A proposal
sent to it with `ProposeSend` is stored as `Proposed`, with `Latest` as it was.
A `ProposeVote` request for it, whatever the signer and the signature, is
answered with the error `AccountMissing`, propagates nothing, asks nothing of
the skipchain and leaves the service as it was, and the vote propagation
handler leaves the service as it was too.  Through any run of `ProposeVote`
requests, for this or other identities, the identity stays as it was, and no
request for it reaches the commit step. -/
theorem empty_devices_never_commit (E : Env) (s : Service) (id : Bytes) (sid : Storage)
    (hsid : getIdentityStorage s id = some sid) (hdev : sid.Latest.Device = []) :
    (∀ p : ProposeSend, p.ID ≠ none → p.ID.val = id.val →
      ∃ s1 sid1, propagateDataHandler E s (.proposeSend p) = some s1 ∧
        getIdentityStorage s1 id = some sid1 ∧ sid1.Proposed = p.Propose ∧
        sid1.Latest = sid.Latest) ∧
    (∀ v : ProposeVote, v.ID.val = id.val →
      Service.ProposeVote E s v = ⟨s, .error .ErrorAccountMissing, [], []⟩ ∧
      propagateDataHandler E s (.proposeVote v) = some s) ∧
    (∀ vs : List ProposeVote,
      getIdentityStorage (voteAll E s vs).1 id = some sid ∧
      ∀ vo ∈ (voteAll E s vs).2, vo.1.ID.val = id.val →
        vo.2.reply = .error .ErrorAccountMissing ∧ vo.2.stored = [] ∧
        vo.2.propagated = []) := by
  have hget : ∀ (s0 : Service) (id1 : Bytes), id1.val = id.val →
      getIdentityStorage s0 id1 = getIdentityStorage s0 id := by
    intro s0 id1 h
    simp only [getIdentityStorage, h]
  refine ⟨?_, ?_, ?_⟩
  · intro p hid hval
    cases hp : p.ID with
    | none => exact absurd hp hid
    | some bytes =>
      have hsid1 : getIdentityStorage s (some bytes) = some sid := by
        rw [← hp, hget s p.ID hval]
        exact hsid
      refine ⟨writeStorage s (some bytes) { sid with Proposed := p.Propose },
        { sid with Proposed := p.Propose }, by simp [propagateDataHandler, hp, hsid1], ?_,
        rfl, rfl⟩
      rw [← hget _ p.ID hval, hp]
      exact getIdentityStorage_writeStorage_self _ _ _
  · intro v hval
    have hsidv : getIdentityStorage s v.ID = some sid := by
      rw [hget s v.ID hval]
      exact hsid
    refine ⟨proposeVote_no_device E s v sid hsidv hdev, ?_⟩
    cases hid : v.ID with
    | none => simp [propagateDataHandler, hid]
    | some bytes =>
      have hsid1 : getIdentityStorage s (some bytes) = some sid := hid ▸ hsidv
      have ha : applyVote E sid v = some sid := by
        simp [applyVote, hdev, mapGet]
      simp only [propagateDataHandler, hid, hsid1, ha]
      rw [writeStorage_of_get _ _ _ hsid1]
  · intro vs
    induction vs generalizing s with
    | nil =>
      refine ⟨hsid, ?_⟩
      intro vo hvo
      simp [voteAll] at hvo
    | cons v rest ih =>
      have hstep : getIdentityStorage (Service.ProposeVote E s v).service id = some sid := by
        by_cases hval : v.ID.val = id.val
        · have hsidv : getIdentityStorage s v.ID = some sid := by
            rw [hget s v.ID hval]
            exact hsid
          rw [proposeVote_no_device E s v sid hsidv hdev]
          exact hsid
        · rw [proposeVote_frame E s v id (fun h => hval h.symm)]
          exact hsid
      obtain ⟨ih1, ih2⟩ := ih (Service.ProposeVote E s v).service hstep
      refine ⟨ih1, ?_⟩
      intro vo hvo hval
      simp only [voteAll, List.mem_cons] at hvo
      rcases hvo with hvo | hvo
      · subst hvo
        have hsidv : getIdentityStorage s v.ID = some sid := by
          rw [hget s v.ID hval]
          exact hsid
        rw [proposeVote_no_device E s v sid hsidv hdev]
        exact ⟨rfl, rfl, rfl⟩
      · exact ih2 vo hvo hval

/-- Witness of C22: two votes, of `d1` and of a stranger, for an identity
without devices. -/
theorem empty_devices_never_commit_witness :
    getIdentityStorage (toyIdentityOf toyNoDevice) toyID
      = some ⟨toyNoDevice, none, toyRoot,
          ⟨0, .data toyNoDevice, [], [1, 2, 3], some [1, 2, 3, 4, 5, 6, 7, 8]⟩⟩ ∧
    Service.ProposeVote toyEnv (toyIdentityOf toyNoDevice) ⟨toyID, "d1", toySig 7⟩
      = ⟨toyIdentityOf toyNoDevice, .error .ErrorAccountMissing, [], []⟩ ∧
    getIdentityStorage
      (voteAll toyEnv (toyIdentityOf toyNoDevice)
        [⟨toyID, "d1", toySig 7⟩, ⟨toyID, "x", none⟩]).1 toyID
      = some ⟨toyNoDevice, none, toyRoot,
          ⟨0, .data toyNoDevice, [], [1, 2, 3], some [1, 2, 3, 4, 5, 6, 7, 8]⟩⟩ :=
  have h := empty_devices_never_commit toyEnv (toyIdentityOf toyNoDevice) toyID
    ⟨toyNoDevice, none, toyRoot,
      ⟨0, .data toyNoDevice, [], [1, 2, 3], some [1, 2, 3, 4, 5, 6, 7, 8]⟩⟩ (by decide) rfl
  ⟨by decide, (h.2.1 ⟨toyID, "d1", toySig 7⟩ rfl).1,
    (h.2.2 [⟨toyID, "d1", toySig 7⟩, ⟨toyID, "x", none⟩]).1⟩

/-! ## The leader and the verifier -/

/-- Votes that are sound for a proposal all count for the verifier. -/
theorem validCount_of_votesRecorded (E : Env) (latest proposed : Data)
    (votes : GoMap String Bytes) (h : List Nat)
    (hrec : VotesRecorded E latest proposed votes) (hh : E.Hash proposed = some h) :
    validCount E latest h votes = mapLen votes := by
  unfold validCount mapLen
  rw [List.countP_eq_length]
  intro vote hvote
  obtain ⟨d, h1, hd, hh1, hv⟩ := hrec.2 vote hvote
  rw [hh] at hh1
  cases hh1
  simp [validVote, hd, hv]

/-- Claim C23.  Let a proposal be installed for an identity with no votes, and
votes be recorded by the vote propagation handler only, with a data hash that
does not depend on the votes.  Then the number of votes that the verifier
counts as valid against `Latest` equals the number of votes of the proposal,
and whenever the commit condition of `ProposeVote` holds, `VerifyBlock` (on
any node) accepts a block whose payload is this proposal, with a hash, and
whose predecessor resolves to the `Latest` of the identity. -/
theorem leader_verifier_agree (E : Env) (hhash : HashIgnoresVotes E) (s s1 : Service)
    (id : Bytes) (sid : Storage) (proposed : Data) (votes : List ProposeVote)
    (hsid : getIdentityStorage s id = some sid) (hp : sid.Proposed = some proposed)
    (hnovotes : proposed.Votes = [])
    (hrun : deliverAll E s (votes.map .proposeVote) = some s1) :
    ∃ sid1 proposed1, getIdentityStorage s1 id = some sid1 ∧ sid1.Latest = sid.Latest ∧
      sid1.Proposed = some proposed1 ∧
      (∀ h, E.Hash proposed1 = some h →
        validCount E sid1.Latest h proposed1.Votes = mapLen proposed1.Votes) ∧
      (commitCondition sid1.Latest proposed1 →
        ∀ (s0 : Service) (sb : SkipBlock) (h : List Nat) (link : Bytes) (links : List Bytes)
          (latest : SkipBlock),
        sb.Data = .data proposed1 → E.Hash proposed1 = some h →
        sb.BackLinkIDs = link :: links →
        latestBlock E s0 sb link = .ok (some latest) → latest.Data = .data sid1.Latest →
        VerifyBlock E s0 sb = some true) := by
  have hinv : VotingOn E s id sid.Latest proposed := by
    refine ⟨sid, [], hsid, rfl, ?_, ?_, ?_⟩
    · rw [hp, ← hnovotes]
    · simp [mapWF, mapKeys]
    · intro vote hvote
      simp at hvote
  obtain ⟨sid1, votes1, hsid1, hlat1, hp1, hrec1⟩ :=
    deliverAll_votingOn E hhash id sid.Latest proposed votes s s1 hinv hrun
  have hcount : ∀ h, E.Hash { proposed with Votes := votes1 } = some h →
      validCount E sid1.Latest h votes1 = mapLen votes1 := by
    intro h hh
    rw [hhash proposed votes1] at hh
    rw [hlat1]
    exact validCount_of_votesRecorded E sid.Latest proposed votes1 h hrec1 hh
  refine ⟨sid1, _, hsid1, hlat1, hp1, hcount, ?_⟩
  intro hcommit s0 sb h link links latest hd hh hl hlatest hprev
  by_cases h0 : sb.Index = 0
  · simp [VerifyBlock, h0]
  · have hc := hcount h hh
    simp only at hc
    simp only [VerifyBlock, h0, if_false, hd, hh, hl, hlatest, hprev, countSignatures_eq, hc]
    unfold commitCondition at hcommit
    simp only at hcommit
    simp [hcommit]

/-- Witness of C23: the toy identity after the votes of `d1` and `d2`, and the
block with the proposal that follows its genesis block. -/
theorem leader_verifier_agree_witness :
    HashIgnoresVotes toyEnv ∧
    deliverAll toyEnv (toyService [])
      ([⟨toyID, "d1", toySig 7⟩, ⟨toyID, "d2", toySig 8⟩].map .proposeVote)
      = some (toyService [("d1", toySig 7), ("d2", toySig 8)]) ∧
    commitCondition toyLatest { toyProposed with Votes := [("d1", toySig 7), ("d2", toySig 8)] } ∧
    VerifyBlock toyEnv (toyService [("d1", toySig 7), ("d2", toySig 8)])
      (toyBlock [("d1", toySig 7), ("d2", toySig 8)]) = some true :=
  have h := leader_verifier_agree toyEnv (fun _ _ => rfl) (toyService [])
    (toyService [("d1", toySig 7), ("d2", toySig 8)]) toyID (toyStorage []) toyProposed
    [⟨toyID, "d1", toySig 7⟩, ⟨toyID, "d2", toySig 8⟩] (by decide) rfl rfl (by decide)
  ⟨fun _ _ => rfl, by decide, by decide, by
    obtain ⟨sid1, proposed1, hsid1, _, hp1, _, hver⟩ := h
    have hs : sid1 = toyStorage [("d1", toySig 7), ("d2", toySig 8)] := by
      have h2 : getIdentityStorage (toyService [("d1", toySig 7), ("d2", toySig 8)]) toyID
          = some (toyStorage [("d1", toySig 7), ("d2", toySig 8)]) := by decide
      rw [h2] at hsid1
      exact (Option.some.inj hsid1).symm
    subst hs
    have hp2 : proposed1 = { toyProposed with Votes := [("d1", toySig 7), ("d2", toySig 8)] } :=
      (Option.some.inj hp1).symm
    subst hp2
    exact hver (by decide) (toyService [("d1", toySig 7), ("d2", toySig 8)])
      (toyBlock [("d1", toySig 7), ("d2", toySig 8)]) [2, 3, 1]
      (some [1, 2, 3, 4, 5, 6, 7, 8]) [] toyGenesis rfl rfl rfl rfl rfl⟩

end Identity

namespace Evoting

/-! ## GetMaster -/

/-- Claim C25, as the code runs it.  With the toy decoder, a block at index 1
whose transaction has a link and no master makes `GetMaster` return a nil
master with a nil error, and a block whose data does not decode makes it panic.
Under any decoder: an absent transaction is dereferenced (panic), a
transaction without master gives a nil master with a nil error, and the error
"no master structure" is returned for no block at all. -/
theorem getMaster_missing_master :
    toyUnmarshal [2] = some ⟨none, some ⟨[8]⟩⟩ ∧
    GetMaster toyUnmarshal (.ok [2]) = .value none ∧
    toyUnmarshal [3] = none ∧
    GetMaster toyUnmarshal (.ok [3]) = .crash ∧
    (∀ (U : List Nat → Option Transaction) (data : List Nat),
      U data = none → GetMaster U (.ok data) = .crash) ∧
    (∀ (U : List Nat → Option Transaction) (data : List Nat) (t : Transaction),
      U data = some t → t.Master = none → GetMaster U (.ok data) = .value none) ∧
    (∀ (U : List Nat → Option Transaction) (block : Except Nat (List Nat)),
      GetMaster U block ≠ .error .noMasterStructure) := by
  refine ⟨by decide, by decide, by decide, by decide, ?_, ?_, ?_⟩
  · intro U data h
    simp [GetMaster, h, noMaster]
  · intro U data t h hm
    simp [GetMaster, h, noMaster, hm]
  · intro U block
    cases block with
    | error code => simp [GetMaster]
    | ok data =>
      cases h : U data with
      | none => simp [GetMaster, h, noMaster]
      | some t => simp [GetMaster, h, noMaster]

end Evoting

namespace Dbg

/-! ## Lvl -/

/-- The value `lvlAbs` is the level itself, not its absolute value. -/
theorem lvlAbs_eq (lvl : Int) (h : lvl ≠ 0) : lvlAbs lvl = lvl := by
  unfold lvlAbs
  rw [Int.tdiv_self h, mul_one]

/-- Claim C26, as the code runs it.  For the level -1 of the helpers `LLvl1` to
`LLvl5`, `lvlAbs` is -1, the index into the colour table is -2, out of range,
and `LLvl1` panics under the default `debugVisible` of 1.  In general `lvlAbs`
is the level itself for every level that is not zero, so every visible negative
level that is not one of the five named levels panics on the index, while the
levels 1 to 5 index the table in range. -/
theorem lvl_negative_level_out_of_range :
    lvlAbs (-1) = -1 ∧
    lvlAbs (-1) - 1 = -2 ∧
    colorAt (lvlAbs (-1) - 1) = none ∧
    LLvl1 1 = .crash ∧
    (∀ lvl : Int, lvl ≠ 0 → lvlAbs lvl = lvl) ∧
    (∀ debugVisible lvl : Int, lvl ≤ debugVisible → lvl < 0 →
      lvl ≠ LvlPrint → lvl ≠ LvlWarning → lvl ≠ LvlError → lvl ≠ LvlFatal → lvl ≠ LvlPanic →
      Lvl debugVisible lvl = .crash) ∧
    (∀ debugVisible lvl : Int, lvl ≤ debugVisible → 1 ≤ lvl → lvl ≤ 5 →
      ∃ color, colorAt (lvlAbs lvl - 1) = some color ∧
        Lvl debugVisible lvl = .foreground color false) := by
  refine ⟨by decide, by decide, by decide, by decide, lvlAbs_eq, ?_, ?_⟩
  · intro debugVisible lvl hvis hneg h1 h2 h3 h4 h5
    have h0 : lvl ≠ 0 := by omega
    have hnot : ¬ lvl > debugVisible := by omega
    have hle : lvl ≤ 5 := by omega
    have hcol : colorAt (lvl - 1) = none := by
      have : ¬ (0 ≤ lvl - 1 ∧ lvl - 1 < 5) := by omega
      unfold colorAt
      rw [if_neg this]
    simp [Lvl, hnot, h1, h2, h3, h4, h5, h0, lvlAbs_eq lvl h0, hle, hcol]
  · intro debugVisible lvl hvis hlow hhigh
    have h0 : lvl ≠ 0 := by omega
    have hnot : ¬ lvl > debugVisible := by omega
    have hpos : ¬ lvl < 0 := by omega
    have hnamed : lvl ≠ LvlPrint ∧ lvl ≠ LvlWarning ∧ lvl ≠ LvlError ∧ lvl ≠ LvlFatal ∧
        lvl ≠ LvlPanic := by
      simp only [LvlPrint, LvlWarning, LvlError, LvlFatal, LvlPanic]
      omega
    obtain ⟨h1, h2, h3, h4, h5⟩ := hnamed
    have hcases : lvl = 1 ∨ lvl = 2 ∨ lvl = 3 ∨ lvl = 4 ∨ lvl = 5 := by omega
    have hcol : ∃ color, colorAt (lvl - 1) = some color := by
      rcases hcases with h | h | h | h | h
      · subst h
        exact ⟨.Yellow, by decide⟩
      · subst h
        exact ⟨.Cyan, by decide⟩
      · subst h
        exact ⟨.Blue, by decide⟩
      · subst h
        exact ⟨.Green, by decide⟩
      · subst h
        exact ⟨.Cyan, by decide⟩
    obtain ⟨color, hcolor⟩ := hcol
    refine ⟨color, by rw [lvlAbs_eq lvl h0]; exact hcolor, ?_⟩
    simp [Lvl, hnot, h1, h2, h3, h4, h5, h0, lvlAbs_eq lvl h0, hhigh, hcolor, hpos]

end Dbg
